import Mathlib

/-!
# todo-cli: a shallow embedding of the storage layer and the terminal interface

Go strings are Lean strings, handled as lists of characters so that every
function is structurally recursive.  A slice that Go distinguishes from `nil`
only in its JSON form (`Todo.Tags`) is an `Option (List String)`, `none` being
the nil slice.  Pointers to tasks are addresses into an explicit heap.
-/

namespace TodoCli

deriving instance DecidableEq for Except

/-! ## time.Time -/

/-- A `time.Time`, read on the wall clock of a location with a fixed offset:
the number of its calendar day and the nanoseconds elapsed since midnight. -/
structure Time where
  day : Int
  nsec : Nat
deriving DecidableEq, Repr, Inhabited

namespace Time

/-- `t.Before(u)`: chronological order of two readings of the same clock. -/
def Before (t u : Time) : Bool :=
  decide (t.day < u.day) || (decide (t.day = u.day) && decide (t.nsec < u.nsec))

/-- SQL `t >= u` on two non-NULL timestamps. -/
def ge (t u : Time) : Bool := !(t.Before u)

/-- `time.Date(t.Year(), t.Month(), t.Day(), 0, 0, 0, 0, t.Location())`. -/
def startOfDay (t : Time) : Time := { day := t.day, nsec := 0 }

/-- `time.Date(t.Year(), t.Month(), t.Day(), 23, 59, 59, 0, t.Location())`. -/
def endOfDay (t : Time) : Time := { day := t.day, nsec := 86399 * 1000000000 }

/-- The zero `time.Time`: midnight of January 1 of the year 1. -/
def zero : Time := { day := -719162, nsec := 0 }

/-- `t.AddDate(0, 0, days)`. -/
def AddDate (t : Time) (days : Int) : Time := { day := t.day + days, nsec := t.nsec }

end Time

/-! ## internal/model -/

/-- `model.Todo`. -/
structure Todo where
  ID : Int
  Title : String
  Description : String
  Tags : Option (List String)
  DueDate : Option Time
  CreatedAt : Time
  UpdatedAt : Time
  CompletedAt : Option Time
  Completed : Bool
  Priority : Int
deriving DecidableEq, Repr, Inhabited

/-- The elements of a `[]string`, nil or not. -/
def sliceElems (s : Option (List String)) : List String := s.getD []

/-! ## internal/storage/storage.go -/

abbrev SortField := String
abbrev SortOrder := String
abbrev DueDateFilterType := String

def SortByCreated : SortField := "created"
def SortByUpdated : SortField := "updated"
def SortByDueDate : SortField := "due"
def SortByPriority : SortField := "priority"
def SortByTitle : SortField := "title"

def SortAsc : SortOrder := "asc"
def SortDesc : SortOrder := "desc"

def DueToday : DueDateFilterType := "today"
def DueTomorrow : DueDateFilterType := "tomorrow"
def DueNextWeek : DueDateFilterType := "next-week"
def DueOverdue : DueDateFilterType := "overdue"
def DueSpecific : DueDateFilterType := "specific"

/-- `storage.DueDateFilter`; the field `Type` of the source is `Typ` here. -/
structure DueDateFilter where
  Typ : DueDateFilterType
  SpecificDate : Option Time
deriving DecidableEq, Repr

/-- `storage.Filter`. -/
structure Filter where
  Tags : List String
  Completed : Option Bool
  DueDate : Option DueDateFilter
  SortBy : SortField
  SortOrder : SortOrder
  Search : String
deriving DecidableEq, Repr

/-! ## What the SQL engine and `encoding/json` do with the query text -/

/-- Lower-case form of an ASCII letter, any other character unchanged: the
case folding of SQLite's `LIKE`. -/
def asciiLower (c : Char) : Char :=
  if 65 ≤ c.toNat ∧ c.toNat ≤ 90 then Char.ofNat (c.toNat + 32) else c

/-- Matching of a text against `%` followed by the rest of a pattern, `rest`
deciding the rest: the `%` takes any number of leading characters. -/
def likeAny (rest : List Char → Bool) : List Char → Bool
  | [] => rest []
  | c :: s => rest (c :: s) || likeAny rest s

/-- SQLite `text LIKE pattern` without an escape character: `%` matches any
sequence of characters, `_` exactly one, any other character itself up to the
case of ASCII letters. -/
def sqlLike : List Char → List Char → Bool
  | [], s => s.isEmpty
  | p :: ps, s =>
    if p = '%' then likeAny (sqlLike ps) s
    else match s with
      | [] => false
      | c :: s' =>
        if p = '_' then sqlLike ps s'
        else asciiLower p == asciiLower c && sqlLike ps s'

/-- The digit of `0123456789abcdef` at index `n`. -/
def hexDigit (n : Nat) : Char :=
  if n < 10 then Char.ofNat (48 + n) else Char.ofNat (87 + n)

/-- The JSON text `encoding/json` writes for one character of a string (HTML
escaping on, as `json.Marshal` has it). -/
def jsonEscapeChar (c : Char) : List Char :=
  if c = '"' then ['\\', '"']
  else if c = '\\' then ['\\', '\\']
  else if c = '\n' then ['\\', 'n']
  else if c = '\r' then ['\\', 'r']
  else if c = '\t' then ['\\', 't']
  else if c.toNat < 32 ∨ c = '<' ∨ c = '>' ∨ c = '&' then
    ['\\', 'u', '0', '0', hexDigit (c.toNat / 16), hexDigit (c.toNat % 16)]
  else if c.toNat = 8232 then ['\\', 'u', '2', '0', '2', '8']
  else if c.toNat = 8233 then ['\\', 'u', '2', '0', '2', '9']
  else [c]

/-- JSON text of a string: quoted, each character escaped. -/
def jsonString (s : String) : List Char :=
  '"' :: (s.toList.flatMap jsonEscapeChar ++ ['"'])

/-- JSON texts of the elements of an array, separated by commas. -/
def jsonElems : List String → List Char
  | [] => []
  | [s] => jsonString s
  | s :: rest => jsonString s ++ ',' :: jsonElems rest

/-- `json.Marshal(todo.Tags)`: `null` for the nil slice, an array otherwise. -/
def jsonMarshalTags : Option (List String) → List Char
  | none => "null".toList
  | some tags => '[' :: (jsonElems tags ++ [']'])

/-- Byte order of two texts (SQLite's BINARY collation; on UTF-8 the order of
the code points), `true` when the first is not after the second. -/
def textLE : List Char → List Char → Bool
  | [], _ => true
  | _ :: _, [] => false
  | a :: as, b :: bs => decide (a.toNat < b.toNat) || (decide (a.toNat = b.toNat) && textLE as bs)

/-- SQL order of two nullable timestamps, NULL before every value. -/
def nullableTimeLE : Option Time → Option Time → Bool
  | none, _ => true
  | some _, none => false
  | some a, some b => !(b.Before a)

/-- Insertion of a row into a list ordered by `le`, before the first row it
may precede. -/
def orderedInsert {α : Type} (le : α → α → Bool) (a : α) : List α → List α
  | [] => [a]
  | b :: l => if le a b then a :: b :: l else b :: orderedInsert le a l

/-- The rows in the order `ORDER BY` gives them: sorted by `le`, rows that
compare equal kept in table order. -/
def orderBy {α : Type} (le : α → α → Bool) : List α → List α
  | [] => []
  | a :: l => orderedInsert le a (orderBy le l)

/-! ## internal/storage/sqlite.go -/

/-- The table `todos`: its rows in rowid order and the largest rowid given out
so far (the column is AUTOINCREMENT).  A row is kept as the task it scans back
to; the `tags` column holds `jsonMarshalTags` of its tags. -/
structure SQLiteStorage where
  rows : List Todo
  seq : Int
deriving DecidableEq, Repr

def boolToInt (b : Bool) : Int := if b then 1 else 0

/-- The condition `due_date >= lo AND due_date < hi`, false on NULL. -/
def dueBetween (due : Option Time) (lo hi : Time) : Bool :=
  match due with
  | none => false
  | some d => d.ge lo && d.Before hi

/-- The due-date conditions `List` appends to the WHERE clause. -/
def dueDateClause (f : DueDateFilter) (now : Time) (t : Todo) : Bool :=
  if f.Typ = DueToday then
    dueBetween t.DueDate now.startOfDay (now.startOfDay.AddDate 1)
  else if f.Typ = DueTomorrow then
    dueBetween t.DueDate (now.startOfDay.AddDate 1) ((now.startOfDay.AddDate 1).AddDate 1)
  else if f.Typ = DueNextWeek then
    dueBetween t.DueDate now.startOfDay (now.startOfDay.AddDate 7)
  else if f.Typ = DueOverdue then
    (match t.DueDate with
     | none => false
     | some d => d.Before now.startOfDay) && decide (boolToInt t.Completed = 0)
  else if f.Typ = DueSpecific then
    match f.SpecificDate with
    | none => true
    | some d => dueBetween t.DueDate d.startOfDay (d.startOfDay.AddDate 1)
  else true

/-- The condition `tags LIKE ?` with the argument `"%"+tag+"%"`. -/
def tagClause (tag : String) (t : Todo) : Bool :=
  sqlLike ('%' :: (tag.toList ++ ['%'])) (jsonMarshalTags t.Tags)

/-- The condition `(title LIKE ? OR description LIKE ?)`, both arguments
`"%"+search+"%"`. -/
def searchClause (search : String) (t : Todo) : Bool :=
  sqlLike ('%' :: (search.toList ++ ['%'])) t.Title.toList
    || sqlLike ('%' :: (search.toList ++ ['%'])) t.Description.toList

/-- The WHERE clause `List` builds from a filter, evaluated on one row. -/
def whereClause (filter : Filter) (now : Time) (t : Todo) : Bool :=
  (match filter.Completed with
   | none => true
   | some c => decide (boolToInt t.Completed = boolToInt c))
  && filter.Tags.all (fun tag => tagClause tag t)
  && (if filter.Search ≠ "" then searchClause filter.Search t else true)
  && (match filter.DueDate with
      | none => true
      | some d => dueDateClause d now t)

/-- The key of the ORDER BY clause for a priority sort:
`CASE WHEN priority = 0 THEN 999 ELSE priority END` ascending,
`CASE WHEN priority = 0 THEN -1 ELSE priority END` descending. -/
def priorityKey (asc : Bool) (priority : Int) : Int :=
  if asc then (if priority = 0 then 999 else priority)
  else (if priority = 0 then -1 else priority)

/-- The column `List` names in a plain ORDER BY clause (`sortField`). -/
def sortField (sortBy : SortField) : String :=
  if sortBy = SortByCreated then "created_at"
  else if sortBy = SortByUpdated then "updated_at"
  else if sortBy = SortByDueDate then "due_date"
  else if sortBy = SortByPriority then "priority"
  else if sortBy = SortByTitle then "title"
  else "created_at"

/-- Ascending SQL order of two rows on a column an ORDER BY clause can name. -/
def columnLE (column : String) (a b : Todo) : Bool :=
  if column = "updated_at" then !(b.UpdatedAt.Before a.UpdatedAt)
  else if column = "due_date" then nullableTimeLE a.DueDate b.DueDate
  else if column = "priority" then decide (a.Priority ≤ b.Priority)
  else if column = "title" then textLE a.Title.toList b.Title.toList
  else !(b.CreatedAt.Before a.CreatedAt)

/-- The ORDER BY clause of `List`: whether row `a` may stand before row `b`. -/
def orderClause (filter : Filter) (a b : Todo) : Bool :=
  let asc := decide (filter.SortOrder = SortAsc)
  if filter.SortBy = SortByPriority then
    if asc then
      decide (priorityKey true a.Priority ≤ priorityKey true b.Priority)
    else
      decide (priorityKey false b.Priority ≤ priorityKey false a.Priority)
  else
    if asc then columnLE (sortField filter.SortBy) a b
    else columnLE (sortField filter.SortBy) b a

namespace SQLiteStorage

/-- `SQLiteStorage.List`: the rows that satisfy the WHERE clause, in the order
of the ORDER BY clause.  `now` is the reading of `time.Now()`, `dbErr` the
error of `db.Query`, if it fails. -/
def ListTodos (s : SQLiteStorage) (filter : Filter) (now : Time) (dbErr : Option String) :
    Except String (List Todo) :=
  match dbErr with
  | some e => .error ("failed to query todos: " ++ e)
  | none => .ok (orderBy (orderClause filter) (s.rows.filter (whereClause filter now)))

/-- `SQLiteStorage.GetByID`. -/
def GetByID (s : SQLiteStorage) (id : Int) (dbErr : Option String) : Except String Todo :=
  match dbErr with
  | some e => .error ("failed to get todo: " ++ e)
  | none =>
    match s.rows.find? (fun r => decide (r.ID = id)) with
    | none => .error ("todo with ID " ++ toString id ++ " not found")
    | some t => .ok t

/-- `SQLiteStorage.Create`: stamps the task and inserts it under a new
identifier.  The second component is the caller's task after the call. -/
def Create (s : SQLiteStorage) (todo : Todo) (now : Time) (dbErr : Option String) :
    Except String SQLiteStorage × Todo :=
  let todo := { todo with CreatedAt := now, UpdatedAt := now }
  match dbErr with
  | some e => (.error ("failed to insert todo: " ++ e), todo)
  | none =>
    let todo := { todo with ID := s.seq + 1 }
    (.ok { rows := s.rows ++ [todo], seq := s.seq + 1 }, todo)

/-- `SQLiteStorage.Update`: stamps the task and overwrites every column of its
row but `id` and `created_at`; fails when no row has the identifier.  The
second component is the caller's task after the call. -/
def Update (s : SQLiteStorage) (todo : Todo) (now : Time) (dbErr : Option String) :
    Except String SQLiteStorage × Todo :=
  let todo := { todo with UpdatedAt := now }
  match dbErr with
  | some e => (.error ("failed to update todo: " ++ e), todo)
  | none =>
    if s.rows.any (fun r => decide (r.ID = todo.ID)) then
      (.ok { s with rows := s.rows.map (fun r =>
          if r.ID = todo.ID then { todo with CreatedAt := r.CreatedAt } else r) }, todo)
    else
      (.error ("todo with ID " ++ toString todo.ID ++ " not found"), todo)

/-- `SQLiteStorage.Delete`: removes the row with the identifier; fails when
there is none. -/
def Delete (s : SQLiteStorage) (id : Int) (dbErr : Option String) :
    Except String SQLiteStorage :=
  match dbErr with
  | some e => .error ("failed to delete todo: " ++ e)
  | none =>
    if s.rows.any (fun r => decide (r.ID = id)) then
      .ok { s with rows := s.rows.filter (fun r => decide (r.ID ≠ id)) }
    else
      .error ("todo with ID " ++ toString id ++ " not found")

/-- `SQLiteStorage.GetAllTags`: the tags of all rows, each once, in the order
in which `range` visits the keys of the map that collects them. -/
def GetAllTags (s : SQLiteStorage) (rangeTags : List String → List String)
    (dbErr : Option String) : Except String (List String) :=
  match dbErr with
  | some e => .error ("failed to query tags: " ++ e)
  | none => .ok (rangeTags (s.rows.flatMap (fun r => sliceElems r.Tags)).dedup)

end SQLiteStorage

/-! ## `strings`, `strconv` and `time.Parse`, as far as the program uses them -/

/-- `unicode.IsSpace`. -/
def isSpace (c : Char) : Bool :=
  let n := c.toNat
  decide (n = 9 ∨ n = 10 ∨ n = 11 ∨ n = 12 ∨ n = 13 ∨ n = 32 ∨ n = 133 ∨ n = 160
    ∨ n = 5760 ∨ (8192 ≤ n ∧ n ≤ 8202) ∨ n = 8232 ∨ n = 8233 ∨ n = 8239 ∨ n = 8287
    ∨ n = 12288)

/-- `strings.TrimSpace` on the characters of a string. -/
def trimSpaceChars (s : List Char) : List Char :=
  (((s.dropWhile isSpace).reverse).dropWhile isSpace).reverse

/-- `strings.TrimSpace`. -/
def TrimSpace (s : String) : String := String.mk (trimSpaceChars s.toList)

/-- The fields of a text, `cur` being the characters of the field under way in
reverse. -/
def fieldsFrom : List Char → List Char → List String
  | [], cur => if cur.isEmpty then [] else [String.mk cur.reverse]
  | c :: s, cur =>
    if isSpace c then
      if cur.isEmpty then fieldsFrom s [] else String.mk cur.reverse :: fieldsFrom s []
    else fieldsFrom s (c :: cur)

/-- `strings.Fields`. -/
def Fields (s : String) : List String := fieldsFrom s.toList []

/-- `strings.HasPrefix(s, "#")`. -/
def hasHashPrefix (s : String) : Bool :=
  match s.toList with
  | c :: _ => c == '#'
  | [] => false

/-- `storage.ParseTags`. -/
def ParseTags (tagStr : String) : Option (List String) :=
  if tagStr = "" then none
  else some ((Fields tagStr).filterMap (fun part =>
    let tag := TrimSpace part
    if tag ≠ "" then
      some (if !hasHashPrefix tag then "#" ++ tag else tag)
    else none))

/-- `unicode.ToLower` where it matters to a comparison with an ASCII word:
ASCII capitals, and the two other characters whose lower case is an ASCII
letter (the Kelvin sign and the dotted capital I). -/
def toLowerChar (c : Char) : Char :=
  if c.toNat = 8490 then 'k'
  else if c.toNat = 304 then 'i'
  else asciiLower c

/-- `strings.ToLower`, up to the characters that never lower to ASCII. -/
def ToLower (s : String) : String := String.mk (s.toList.map toLowerChar)

def isDigit (c : Char) : Bool := decide (48 ≤ c.toNat ∧ c.toNat ≤ 57)

def digitVal (c : Char) : Nat := c.toNat - 48

/-- The elements of a layout of `time.Parse` that the six layouts of
`ParseDueDate` are made of: literal text and the reference values `2006`,
`01`, `02`, `2`, `Jan`, `January`. -/
inductive Chunk where
  | text (s : String)
  | stdLongYear
  | stdZeroMonth
  | stdZeroDay
  | stdDay
  | stdMonth
  | stdLongMonth
deriving DecidableEq, Repr

/-- The layouts `ParseDueDate` tries, in its order, each cut into its chunks
the way `time.Parse` reads it. -/
def formats : List (List Chunk) :=
  [ [.stdLongYear, .text "-", .stdZeroMonth, .text "-", .stdZeroDay],
    [.stdLongYear, .text "/", .stdZeroMonth, .text "/", .stdZeroDay],
    [.stdZeroMonth, .text "-", .stdZeroDay, .text "-", .stdLongYear],
    [.stdZeroMonth, .text "/", .stdZeroDay, .text "/", .stdLongYear],
    [.stdMonth, .text " ", .stdDay, .text ", ", .stdLongYear],
    [.stdLongMonth, .text " ", .stdDay, .text ", ", .stdLongYear] ]

def longMonthNames : List String :=
  ["January", "February", "March", "April", "May", "June", "July", "August",
   "September", "October", "November", "December"]

def shortMonthNames : List String :=
  ["Jan", "Feb", "Mar", "Apr", "May", "Jun", "Jul", "Aug", "Sep", "Oct", "Nov", "Dec"]

/-- The loop of `skip` in package time: removes a literal from the front of the
value, a space of the literal standing for any run of spaces (also an empty one
at the end of the value).  `cut` says that the literal character before was a
space, with which `cutspace` has removed the spaces that follow it. -/
def skipFrom : Bool → List Char → List Char → Option (List Char)
  | _, value, [] => some value
  | cut, value, p :: ps =>
    if p = ' ' then
      if cut then skipFrom true value ps
      else
        match value with
        | [] => skipFrom true [] ps
        | c :: _ =>
          if c ≠ ' ' then none
          else skipFrom true (value.dropWhile (fun x => x == ' ')) ps
    else
      match value with
      | [] => none
      | c :: cs => if c = p then skipFrom false cs ps else none

/-- The `skip` of package time. -/
def skip (value : List Char) (literal : String) : Option (List Char) :=
  skipFrom false value literal.toList

/-- The `getnum` of package time: one or two leading digits, exactly two when
`fixed`. -/
def getnum (s : List Char) (fixed : Bool) : Option (Nat × List Char) :=
  match s with
  | [] => none
  | a :: rest =>
    if !isDigit a then none
    else
      match rest with
      | b :: rest2 =>
        if isDigit b then some (digitVal a * 10 + digitVal b, rest2)
        else if fixed then none else some (digitVal a, rest)
      | [] => if fixed then none else some (digitVal a, rest)

/-- The `match` of package time: equality of two texts of one length up to the
case of ASCII letters. -/
def matchFold : List Char → List Char → Bool
  | [], [] => true
  | c1 :: s1, c2 :: s2 =>
    (if c1 ≠ c2 then
      let d1 := c1.toNat ||| 32
      let d2 := c2.toNat ||| 32
      !(decide (d1 ≠ d2) || decide (d1 < 97) || decide (d1 > 122))
     else true) && matchFold s1 s2
  | _, _ => false

/-- The `lookup` of package time, `i` being the index of the head of `tab`. -/
def lookup (tab : List String) (val : List Char) (i : Nat) : Option (Nat × List Char) :=
  match tab with
  | [] => none
  | v :: rest =>
    if val.length ≥ v.length ∧ matchFold (val.take v.length) v.toList then
      some (i, val.drop v.length)
    else lookup rest val (i + 1)

def isLeap (year : Nat) : Bool :=
  decide (year % 4 = 0) && (decide (year % 100 ≠ 0) || decide (year % 400 = 0))

/-- The `daysIn` of package time. -/
def daysIn (month year : Nat) : Nat :=
  if month = 2 then (if isLeap year then 29 else 28)
  else if month = 4 ∨ month = 6 ∨ month = 9 ∨ month = 11 then 30
  else 31

/-- The year, month and day `time.Parse` has read so far. -/
structure Parsed where
  year : Nat
  month : Nat
  day : Nat
deriving DecidableEq, Repr

/-- One turn of the loop of `time.Parse`: the chunk read off the front of the
value. -/
def parseChunk (c : Chunk) (value : List Char) (acc : Parsed) : Option (Parsed × List Char) :=
  match c with
  | .text s => (skip value s).map (fun v => (acc, v))
  | .stdLongYear =>
    match value with
    | a :: b :: c :: d :: rest =>
      if isDigit a && isDigit b && isDigit c && isDigit d then
        some ({ acc with year := ((digitVal a * 10 + digitVal b) * 10 + digitVal c) * 10
                  + digitVal d }, rest)
      else none
    | _ => none
  | .stdZeroMonth =>
    match getnum value true with
    | some (m, rest) => if m = 0 ∨ 12 < m then none else some ({ acc with month := m }, rest)
    | none => none
  | .stdZeroDay => (getnum value true).map (fun r => ({ acc with day := r.1 }, r.2))
  | .stdDay => (getnum value false).map (fun r => ({ acc with day := r.1 }, r.2))
  | .stdMonth => (lookup shortMonthNames value 0).map (fun r => ({ acc with month := r.1 + 1 }, r.2))
  | .stdLongMonth =>
    (lookup longMonthNames value 0).map (fun r => ({ acc with month := r.1 + 1 }, r.2))

/-- The loop of `time.Parse` over the chunks of a layout; at the end no text
may be left. -/
def parseChunks : List Chunk → List Char → Parsed → Option Parsed
  | [], value, acc => if value.isEmpty then some acc else none
  | c :: cs, value, acc =>
    match parseChunk c value acc with
    | none => none
    | some (acc1, rest) => parseChunks cs rest acc1

/-- `time.Parse(format, value)` for a layout of `formats`: the calendar date
read, when the value has the layout and the day exists in its month. -/
def timeParse (format : List Chunk) (value : String) : Option Parsed :=
  match parseChunks format value.toList { year := 0, month := 1, day := 1 } with
  | none => none
  | some d => if d.day < 1 ∨ d.day > daysIn d.month d.year then none else some d

/-- The number of the calendar day `year-month-day`, counted from 1970-01-01. -/
def civilDay (year month day : Nat) : Int :=
  let y : Int := if month ≤ 2 then (year : Int) - 1 else year
  let era : Int := y / 400
  let yoe : Int := y - era * 400
  let mp : Int := if month > 2 then (month : Int) - 3 else (month : Int) + 9
  let doy : Int := (153 * mp + 2) / 5 + (day : Int) - 1
  let doe : Int := yoe * 365 + yoe / 4 - yoe / 100 + doy
  era * 146097 + doe - 719468

/-- The first layout of the list the value parses under, as
`time.Date(t.Year(), t.Month(), t.Day(), 23, 59, 59, 0, now.Location())`. -/
def parseFormats : List (List Chunk) → String → Option Time
  | [], _ => none
  | format :: rest, dateStr =>
    match timeParse format dateStr with
    | some d => some { day := civilDay d.year d.month d.day, nsec := 86399 * 1000000000 }
    | none => parseFormats rest dateStr

/-- `storage.ParseDueDate`; `now` is the reading of `time.Now()`. -/
def ParseDueDate (dateStr : String) (now : Time) : Except String (Option Time) :=
  if dateStr = "" then .ok none
  else
    let lower := ToLower dateStr
    if lower = "today" then .ok (some now.endOfDay)
    else if lower = "tomorrow" then .ok (some (now.endOfDay.AddDate 1))
    else if lower = "next-week" ∨ lower = "nextweek" then .ok (some (now.endOfDay.AddDate 7))
    else
      match parseFormats formats dateStr with
      | some t => .ok (some t)
      | none => .error ("invalid date format: " ++ dateStr)

/-- `strconv.ParseInt(s, 10, 64)`: an optional sign and decimal digits, within
the range of int64. -/
def ParseInt (s : String) : Option Int :=
  let digits (cs : List Char) : Option Nat :=
    if cs.isEmpty ∨ !cs.all isDigit then none
    else some (cs.foldl (fun n c => n * 10 + digitVal c) 0)
  let signed : Option Int :=
    match s.toList with
    | '-' :: cs => (digits cs).map (fun n => -(n : Int))
    | '+' :: cs => (digits cs).map (fun n => (n : Int))
    | cs => (digits cs).map (fun n => (n : Int))
  match signed with
  | some n => if -9223372036854775808 ≤ n ∧ n ≤ 9223372036854775807 then some n else none
  | none => none

/-! ## internal/tui: state -/

/-- A `*model.Todo`: the address of a task in the heap. -/
abbrev Ptr := Nat

/-- The tasks the interface holds pointers to.  A slice `[]model.Todo` is the
list of the addresses of its elements. -/
abbrev Heap := List Todo

/-- The task a pointer refers to. -/
def readTodo (heap : Heap) (p : Ptr) : Todo := heap.getD p default

/-- Assignment through a pointer. -/
def writeTodo (heap : Heap) (p : Ptr) (t : Todo) : Heap := heap.set p t

/-- A `textinput.Model` of bubbles, as far as the program reads and sets it. -/
structure TextInput where
  value : String
  focus : Bool
  Placeholder : String
  CharLimit : Nat
  Width : Nat
deriving DecidableEq, Repr, Inhabited

/-- `View`, the state of the interface. -/
inductive View where
  | ViewList
  | ViewDetail
  | ViewAdd
  | ViewEdit
  | ViewSearch
  | ViewTagFilter
deriving DecidableEq, Repr, Inhabited

/-- `InputMode`. -/
inductive InputMode where
  | InputModeAdd
  | InputModeEdit
deriving DecidableEq, Repr, Inhabited

/-- A `tea.Msg`: a key press (`key` is what `msg.String()` returns), a change
of the window size, or a message of the program's own. -/
inductive Msg where
  | KeyMsg (key : String)
  | WindowSizeMsg (Width Height : Int)
  | errMsg (err : String)
  | todosLoadedMsg
  | todoCreatedMsg
  | todoUpdatedMsg
  | todoDeletedMsg
  | QuitMsg
  | blinkMsg
deriving DecidableEq, Repr, Inhabited

/-- A `tea.Cmd` the program returns: `tea.Quit`, `textinput.Blink`, or one of
its closures with what the closure captured.  A nil command is the empty list
of commands, `tea.Batch` the concatenation. -/
inductive Cmd where
  | Quit
  | Blink
  | loadTodos
  | loadTags
  | listToggleComplete (todo : Ptr)
  | deleteCurrent (todo : Ptr)
  | deleteAllSelected
  | cyclePriority (todo : Ptr)
  | detailToggleComplete
  | createTodo (todo : Todo)
  | updateTodo (todo : Ptr)
deriving DecidableEq, Repr, Inhabited

/-- A call of a method of `storage.Storage`. -/
inductive StoreCall where
  | Create (todo : Todo)
  | GetByID (id : Int)
  | ListTodos (filter : Filter)
  | Update (todo : Todo)
  | Delete (id : Int)
  | GetAllTags
deriving DecidableEq, Repr

/-- `ListView`.  `selected` and `selectedTags` are the keys of the two maps,
which only ever hold `true`. -/
structure ListView where
  todos : List Ptr
  cursor : Int
  selected : List Int
  filter : Filter
  width : Int
  height : Int
  searchMode : Bool
  searchInput : TextInput
  allTags : List String
  selectedTags : List String
  tagCursor : Int
  showPending : Bool
deriving DecidableEq, Repr

/-- `DetailView`. -/
structure DetailView where
  todo : Option Ptr
  width : Int
  height : Int
deriving DecidableEq, Repr

/-- `InputView`. -/
structure InputView where
  mode : InputMode
  todo : Option Ptr
  inputs : List TextInput
  focusIndex : Int
  labels : List String
  err : String
deriving DecidableEq, Repr

def inputTitle : Nat := 0
def inputDescription : Nat := 1
def inputTags : Nat := 2
def inputDueDate : Nat := 3
def inputPriority : Nat := 4

/-- `App`; its `store` is the storage the commands run against. -/
structure App where
  view : View
  list : ListView
  detail : DetailView
  input : InputView
  width : Int
  height : Int
  err : Option String
  quitting : Bool
deriving DecidableEq, Repr

/-- What a command finds when the runtime runs it: the readings of
`time.Now()` (`now`) and `time.Now().UTC()` (`nowUTC`), the error of the k-th
call of the database driver, if that call fails, and the order in which
`range` visits the keys of a map of identifiers (`rangeOrder`) and of a map of
tags (`rangeTags`). -/
structure Env where
  now : Time
  nowUTC : Time
  dbErr : Nat → Option String
  rangeOrder : List Int → List Int
  rangeTags : List String → List String

/-- `textinput.New()`, with the fields the program then sets. -/
def newTextInput (placeholder : String) (charLimit width : Nat) : TextInput :=
  { value := "", focus := false, Placeholder := placeholder, CharLimit := charLimit,
    Width := width }

/-- `NewListView`. -/
def NewListView : ListView :=
  { todos := [], cursor := 0, selected := [],
    filter := { Tags := [], Completed := some false, DueDate := none, SortBy := "",
                SortOrder := "", Search := "" },
    width := 0, height := 0, searchMode := false,
    searchInput := newTextInput "Search..." 100 30,
    allTags := [], selectedTags := [], tagCursor := 0, showPending := true }

/-- `NewDetailView`. -/
def NewDetailView : DetailView := { todo := none, width := 0, height := 0 }

/-- `NewInputView`. -/
def NewInputView : InputView :=
  { mode := .InputModeAdd, todo := none,
    inputs := [ newTextInput "What needs to be done?" 200 40,
                newTextInput "Optional details..." 200 40,
                newTextInput "#work #urgent" 200 40,
                newTextInput "2026-02-14 or today/tomorrow" 200 40,
                newTextInput "1-5 (1=urgent, 5=lowest)" 1 5 ],
    focusIndex := 0,
    labels := ["Title", "Description", "Tags", "Due Date", "Priority (1-5)"],
    err := "" }

/-- `NewApp`. -/
def NewApp : App :=
  { view := .ViewList, list := NewListView, detail := NewDetailView, input := NewInputView,
    width := 0, height := 0, err := none, quitting := false }

/-! ## internal/tui/list.go -/

/-- The `max` of list.go. -/
def max (a b : Int) : Int := if a > b then a else b

namespace ListView

/-- `ListView.SetSize`. -/
def SetSize (l : ListView) (width height : Int) : ListView :=
  { l with width := width, height := height }

/-- `ListView.loadTodos`: the command it returns. -/
def loadTodos (_l : ListView) : List Cmd := [.loadTodos]

/-- The closure `loadTodos` returns, run: the new list view, the heap with the
loaded tasks in fresh cells, and the message. -/
def loadTodosFn (l : ListView) (heap : Heap) (db : SQLiteStorage) (env : Env) :
    ListView × Heap × Msg :=
  match db.ListTodos l.filter env.now (env.dbErr 0) with
  | .error e => (l, heap, .errMsg e)
  | .ok todos =>
    let l := { l with todos := List.range' heap.length todos.length }
    let l := if l.cursor ≥ (todos.length : Int) then
        { l with cursor := max 0 ((todos.length : Int) - 1) } else l
    (l, heap ++ todos, .todosLoadedMsg)

/-- `ListView.loadTags`: the command it returns. -/
def loadTags (_l : ListView) : List Cmd := [.loadTags]

/-- The closure `loadTags` returns, run: the new list view and the message,
nil when the tags were loaded. -/
def loadTagsFn (l : ListView) (db : SQLiteStorage) (env : Env) : ListView × Option Msg :=
  match db.GetAllTags env.rangeTags (env.dbErr 0) with
  | .error e => (l, some (.errMsg e))
  | .ok tags => ({ l with allTags := tags }, none)

/-- `ListView.SelectedTodo`: the address of `l.todos[l.cursor]`, or nil. -/
def SelectedTodo (l : ListView) : Option Ptr :=
  if l.cursor < 0 ∨ l.cursor ≥ (l.todos.length : Int) then none
  else l.todos.get? l.cursor.toNat

/-- `ListView.toggleComplete`: the command it returns. -/
def toggleComplete (l : ListView) : List Cmd :=
  match l.SelectedTodo with
  | none => []
  | some todo => [.listToggleComplete todo]

/-- `ListView.toggleSelect`. -/
def toggleSelect (l : ListView) (heap : Heap) : ListView :=
  match l.SelectedTodo with
  | none => l
  | some todo =>
    let id := (readTodo heap todo).ID
    if id ∈ l.selected then { l with selected := l.selected.filter (fun x => decide (x ≠ id)) }
    else { l with selected := l.selected ++ [id] }

/-- `ListView.deleteSelected`: the command it returns. -/
def deleteSelected (l : ListView) : List Cmd :=
  if l.selected.length = 0 then
    match l.SelectedTodo with
    | none => []
    | some todo => [.deleteCurrent todo]
  else [.deleteAllSelected]

/-- `ListView.cyclePriority`: the command it returns. -/
def cyclePriority (l : ListView) : List Cmd :=
  match l.SelectedTodo with
  | none => []
  | some todo => [.cyclePriority todo]

/-- `ListView.Update`. -/
def Update (l : ListView) (msg : Msg) : ListView × List Cmd :=
  match msg with
  | .KeyMsg key =>
    if key = "j" ∨ key = "down" then
      let l := { l with cursor := l.cursor + 1 }
      (if l.cursor ≥ (l.todos.length : Int) then { l with cursor := 0 } else l, [])
    else if key = "k" ∨ key = "up" then
      let l := { l with cursor := l.cursor - 1 }
      (if l.cursor < 0 then { l with cursor := max 0 ((l.todos.length : Int) - 1) } else l, [])
    else if key = "g" then ({ l with cursor := 0 }, [])
    else if key = "G" then ({ l with cursor := max 0 ((l.todos.length : Int) - 1) }, [])
    else if key = "tab" then
      let l := if l.showPending then
          { l with filter := { l.filter with Completed := none }, showPending := false }
        else
          { l with filter := { l.filter with Completed := some false }, showPending := true }
      (l, l.loadTodos)
    else (l, [])
  | _ => (l, [])

end ListView

/-- The assignments of the closure of `toggleComplete` (list and detail view)
to the task: the flag flipped, the completion time set to the reading of
`time.Now().UTC()` or cleared. -/
def toggleCompleted (todo : Todo) (nowUTC : Time) : Todo :=
  let todo := { todo with Completed := !todo.Completed }
  if todo.Completed then { todo with CompletedAt := some nowUTC }
  else { todo with CompletedAt := none }

/-- The closure of `ListView.toggleComplete` and `DetailView.toggleComplete`,
run on the task at `p`. -/
def toggleCompleteFn (p : Ptr) (heap : Heap) (db : SQLiteStorage) (env : Env) :
    Heap × SQLiteStorage × Msg × List StoreCall :=
  let todo := toggleCompleted (readTodo heap p) env.nowUTC
  match db.Update todo env.nowUTC (env.dbErr 0) with
  | (.error e, todo1) => (writeTodo heap p todo1, db, .errMsg e, [.Update todo])
  | (.ok db1, todo1) => (writeTodo heap p todo1, db1, .todoUpdatedMsg, [.Update todo])

/-- The closure of `ListView.cyclePriority`, run on the task at `p`. -/
def cyclePriorityFn (p : Ptr) (heap : Heap) (db : SQLiteStorage) (env : Env) :
    Heap × SQLiteStorage × Msg × List StoreCall :=
  let todo := readTodo heap p
  let todo := { todo with Priority := (todo.Priority.tmod 5) + 1 }
  match db.Update todo env.nowUTC (env.dbErr 0) with
  | (.error e, todo1) => (writeTodo heap p todo1, db, .errMsg e, [.Update todo])
  | (.ok db1, todo1) => (writeTodo heap p todo1, db1, .todoUpdatedMsg, [.Update todo])

/-- The closure of `deleteSelected` for the task at the cursor, run. -/
def deleteCurrentFn (p : Ptr) (heap : Heap) (db : SQLiteStorage) (env : Env) :
    SQLiteStorage × Msg × List StoreCall :=
  let id := (readTodo heap p).ID
  match db.Delete id (env.dbErr 0) with
  | .error e => (db, .errMsg e, [.Delete id])
  | .ok db1 => (db1, .todoDeletedMsg, [.Delete id])

/-- The loop `for id := range l.selected` of `deleteSelected` over the keys in
the order the runtime visits them, `k` calls of the driver made before: the
storage it leaves, the error that stopped it, if any, and the calls made. -/
def deleteLoop (dbErr : Nat → Option String) :
    Nat → List Int → SQLiteStorage → SQLiteStorage × Option String × List StoreCall
  | _, [], db => (db, none, [])
  | k, id :: ids, db =>
    match db.Delete id (dbErr k) with
    | .error e => (db, some e, [.Delete id])
    | .ok db1 =>
      let r := deleteLoop dbErr (k + 1) ids db1
      (r.1, r.2.1, .Delete id :: r.2.2)

/-- The closure of `deleteSelected` for the marked tasks, run. -/
def deleteAllSelectedFn (l : ListView) (db : SQLiteStorage) (env : Env) :
    ListView × SQLiteStorage × Msg × List StoreCall :=
  match deleteLoop env.dbErr 0 (env.rangeOrder l.selected) db with
  | (db1, some e, calls) => (l, db1, .errMsg e, calls)
  | (db1, none, calls) => ({ l with selected := [] }, db1, .todoDeletedMsg, calls)

/-! ## internal/tui/detail.go -/

namespace DetailView

/-- `DetailView.SetTodo`. -/
def SetTodo (d : DetailView) (todo : Ptr) : DetailView := { d with todo := some todo }

/-- `DetailView.Update`. -/
def Update (d : DetailView) (_msg : Msg) : DetailView × List Cmd := (d, [])

/-- `DetailView.toggleComplete`: the command it returns.  Its closure reads
`d.todo` when it runs. -/
def toggleComplete (d : DetailView) : List Cmd :=
  match d.todo with
  | none => []
  | some _ => [.detailToggleComplete]

end DetailView

/-! ## internal/tui/input.go -/

/-- The first byte of the UTF-8 form of a character. -/
def firstByte (c : Char) : Nat :=
  let n := c.toNat
  if n < 128 then n
  else if n < 2048 then 192 + n / 64
  else if n < 65536 then 224 + n / 4096
  else 240 + n / 262144

/-- `int(priorityStr[0] - '0')`, the subtraction being one of bytes. -/
def priorityOfByte (s : String) : Int :=
  match s.toList with
  | [] => 0
  | c :: _ => (((firstByte c + 256 - 48) % 256 : Nat) : Int)

namespace InputView

/-- `v.inputs[i].Value()`. -/
def Value (v : InputView) (i : Nat) : String := (v.inputs.getD i default).value

/-- `InputView.Reset`. -/
def Reset (v : InputView) : InputView :=
  let inputs := v.inputs.map (fun ti => { ti with value := "", focus := false })
  { v with todo := none, focusIndex := 0, err := "",
           inputs := inputs.modify (fun ti => { ti with focus := true }) 0 }

/-- `InputView.Init`. -/
def Init (_v : InputView) : List Cmd := [.Blink]

/-- `InputView.updateFocus`. -/
def updateFocus (v : InputView) : InputView × List Cmd :=
  ({ v with inputs := v.inputs.enum.map (fun it =>
        { it.2 with focus := decide (((it.1 : Nat) : Int) = v.focusIndex) }) },
   if 0 ≤ v.focusIndex ∧ v.focusIndex < (v.inputs.length : Int) then [.Blink] else [])

/-- `InputView.Update`; `tiUpdate` is the `Update` of bubbles' textinput,
which receives every message that does not move the focus. -/
def Update (tiUpdate : TextInput → Msg → TextInput × List Cmd) (v : InputView) (msg : Msg) :
    InputView × List Cmd :=
  let forward : InputView × List Cmd :=
    let r := tiUpdate (v.inputs.getD v.focusIndex.toNat default) msg
    ({ v with inputs := v.inputs.set v.focusIndex.toNat r.1 }, r.2)
  match msg with
  | .KeyMsg key =>
    if key = "tab" ∨ key = "down" then
      let v := { v with focusIndex := v.focusIndex + 1 }
      let v := if v.focusIndex ≥ (v.inputs.length : Int) then { v with focusIndex := 0 } else v
      v.updateFocus
    else if key = "shift+tab" ∨ key = "up" then
      let v := { v with focusIndex := v.focusIndex - 1 }
      let v := if v.focusIndex < (0 : Int) then
          { v with focusIndex := (v.inputs.length : Int) - 1 } else v
      v.updateFocus
    else forward
  | _ => forward

/-- `InputView.createTodo`; `now` is the reading of `time.Now()` in
`ParseDueDate`. -/
def createTodo (v : InputView) (now : Time) : InputView × List Cmd :=
  let title := TrimSpace (v.Value inputTitle)
  if title = "" then ({ v with err := "Title is required" }, [])
  else
    let todo : Todo :=
      { ID := 0, Title := title, Description := TrimSpace (v.Value inputDescription),
        Tags := ParseTags (v.Value inputTags), DueDate := none, CreatedAt := Time.zero,
        UpdatedAt := Time.zero, CompletedAt := none, Completed := false, Priority := 0 }
    let dueDateStr := TrimSpace (v.Value inputDueDate)
    match (if dueDateStr ≠ "" then ParseDueDate dueDateStr now else .ok todo.DueDate) with
    | .error _ => ({ v with err := "Invalid due date format" }, [])
    | .ok dueDate =>
      let todo := { todo with DueDate := dueDate }
      let priorityStr := TrimSpace (v.Value inputPriority)
      if priorityStr ≠ "" then
        let priority := priorityOfByte priorityStr
        if priority < 1 ∨ priority > 5 then ({ v with err := "Priority must be 1-5" }, [])
        else (v, [.createTodo { todo with Priority := priority }])
      else (v, [.createTodo todo])

/-- `InputView.updateTodo`: the assignments go through the pointer `v.todo`
as the function reaches them. -/
def updateTodo (v : InputView) (heap : Heap) (now : Time) : InputView × Heap × List Cmd :=
  match v.todo with
  | none => (v, heap, [])
  | some p =>
    let title := TrimSpace (v.Value inputTitle)
    if title = "" then ({ v with err := "Title is required" }, heap, [])
    else
      let heap := writeTodo heap p { readTodo heap p with Title := title }
      let heap := writeTodo heap p
        { readTodo heap p with Description := TrimSpace (v.Value inputDescription) }
      let heap := writeTodo heap p { readTodo heap p with Tags := ParseTags (v.Value inputTags) }
      let dueDateStr := TrimSpace (v.Value inputDueDate)
      match (if dueDateStr ≠ "" then ParseDueDate dueDateStr now else .ok none) with
      | .error _ => ({ v with err := "Invalid due date format" }, heap, [])
      | .ok dueDate =>
        let heap := writeTodo heap p { readTodo heap p with DueDate := dueDate }
        let priorityStr := TrimSpace (v.Value inputPriority)
        if priorityStr ≠ "" then
          let priority := priorityOfByte priorityStr
          if priority < 1 ∨ priority > 5 then
            ({ v with err := "Priority must be 1-5" }, heap, [])
          else
            (v, writeTodo heap p { readTodo heap p with Priority := priority }, [.updateTodo p])
        else (v, writeTodo heap p { readTodo heap p with Priority := 0 }, [.updateTodo p])

end InputView

/-- The closure of `createTodo`, run. -/
def createTodoFn (todo : Todo) (db : SQLiteStorage) (env : Env) :
    SQLiteStorage × Msg × List StoreCall :=
  match db.Create todo env.nowUTC (env.dbErr 0) with
  | (.error e, _) => (db, .errMsg e, [.Create todo])
  | (.ok db1, _) => (db1, .todoCreatedMsg, [.Create todo])

/-- The closure of `updateTodo`, run on the task at `p`. -/
def updateTodoFn (p : Ptr) (heap : Heap) (db : SQLiteStorage) (env : Env) :
    Heap × SQLiteStorage × Msg × List StoreCall :=
  let todo := readTodo heap p
  match db.Update todo env.nowUTC (env.dbErr 0) with
  | (.error e, todo1) => (writeTodo heap p todo1, db, .errMsg e, [.Update todo])
  | (.ok db1, todo1) => (writeTodo heap p todo1, db1, .todoUpdatedMsg, [.Update todo])

/-! ## internal/tui/app.go -/

namespace App

/-- `App.updateInput`. -/
def updateInput (tiUpdate : TextInput → Msg → TextInput × List Cmd) (a : App) (heap : Heap)
    (msg : Msg) (now : Time) : App × Heap × List Cmd :=
  let forward : App × Heap × List Cmd :=
    let r := a.input.Update tiUpdate msg
    ({ a with input := r.1 }, heap, r.2)
  match msg with
  | .KeyMsg key =>
    if key = "esc" then ({ a with view := .ViewList }, heap, [])
    else if key = "ctrl+s" ∨ key = "enter" then
      if a.input.focusIndex = (a.input.inputs.length : Int) - 1 ∨ key = "ctrl+s" then
        if a.input.mode = .InputModeAdd then
          let r := a.input.createTodo now
          ({ a with input := r.1, view := .ViewList }, heap, r.2)
        else
          let r := a.input.updateTodo heap now
          ({ a with input := r.1, view := .ViewList }, r.2.1, r.2.2)
      else forward
    else forward
  | _ => forward

end App

/-- The interface with the tasks its pointers refer to and the storage. -/
structure World where
  app : App
  heap : Heap
  db : SQLiteStorage
deriving DecidableEq, Repr

/-- A command run by the runtime: the state it leaves, the message it
returns (none for nil) and the storage calls it made. -/
def runCmd (env : Env) (c : Cmd) (w : World) : World × Option Msg × List StoreCall :=
  match c with
  | .Quit => (w, some .QuitMsg, [])
  | .Blink => (w, some .blinkMsg, [])
  | .loadTodos =>
    let r := w.app.list.loadTodosFn w.heap w.db env
    ({ w with app := { w.app with list := r.1 }, heap := r.2.1 }, some r.2.2,
     [.ListTodos w.app.list.filter])
  | .loadTags =>
    let r := w.app.list.loadTagsFn w.db env
    ({ w with app := { w.app with list := r.1 } }, r.2, [.GetAllTags])
  | .listToggleComplete p =>
    let r := toggleCompleteFn p w.heap w.db env
    ({ w with heap := r.1, db := r.2.1 }, some r.2.2.1, r.2.2.2)
  | .detailToggleComplete =>
    match w.app.detail.todo with
    | none => (w, none, [])
    | some p =>
      let r := toggleCompleteFn p w.heap w.db env
      ({ w with heap := r.1, db := r.2.1 }, some r.2.2.1, r.2.2.2)
  | .cyclePriority p =>
    let r := cyclePriorityFn p w.heap w.db env
    ({ w with heap := r.1, db := r.2.1 }, some r.2.2.1, r.2.2.2)
  | .deleteCurrent p =>
    let r := deleteCurrentFn p w.heap w.db env
    ({ w with db := r.1 }, some r.2.1, r.2.2)
  | .deleteAllSelected =>
    let r := deleteAllSelectedFn w.app.list w.db env
    ({ w with app := { w.app with list := r.1 }, db := r.2.1 }, some r.2.2.1, r.2.2.2)
  | .createTodo todo =>
    let r := createTodoFn todo w.db env
    ({ w with db := r.1 }, some r.2.1, r.2.2)
  | .updateTodo p =>
    let r := updateTodoFn p w.heap w.db env
    ({ w with heap := r.1, db := r.2.1 }, some r.2.2.1, r.2.2.2)

/-! ## internal/tui: the rest of the views and `App.Update` -/

/-- The calendar date (year, month, day) of a day number counted from
1970-01-01: the inverse of `civilDay`. -/
def civilOfDay (day : Int) : Int × Nat × Nat :=
  let z : Int := day + 719468
  let era : Int := z / 146097
  let doe : Int := z - era * 146097
  let yoe : Int := (doe - doe / 1460 + doe / 36524 - doe / 146096) / 365
  let doy : Int := doe - (365 * yoe + yoe / 4 - yoe / 100)
  let mp : Int := (5 * doy + 2) / 153
  let d : Int := doy - (153 * mp + 2) / 5 + 1
  let m : Int := if mp < 10 then mp + 3 else mp - 9
  (if m ≤ 2 then yoe + era * 400 + 1 else yoe + era * 400, m.toNat, d.toNat)

/-- The decimal digits of a number, padded with zeros to a width. -/
def padDigits (width n : Nat) : List Char :=
  let digits := (Nat.toDigits 10 n)
  List.replicate (width - digits.length) '0' ++ digits

/-- `t.Format("2006-01-02")`. -/
def formatDate (t : Time) : String :=
  let ymd := civilOfDay t.day
  String.mk ((if ymd.1 < 0 then '-' :: padDigits 4 ymd.1.natAbs else padDigits 4 ymd.1.natAbs)
    ++ '-' :: padDigits 2 ymd.2.1 ++ '-' :: padDigits 2 ymd.2.2)

/-- `strings.Join(elems, " ")`. -/
def joinSpace : List String → String
  | [] => ""
  | [s] => s
  | s :: rest => s ++ " " ++ joinSpace rest

namespace TextInput

/-- `ti.Value()`. -/
def Value (ti : TextInput) : String := ti.value

/-- `ti.Focus()`, its command aside. -/
def Focus (ti : TextInput) : TextInput := { ti with focus := true }

/-- `ti.Blur()`. -/
def Blur (ti : TextInput) : TextInput := { ti with focus := false }

/-- `ti.SetValue("")`: the field is empty afterwards, whatever the library does
to a text it is given. -/
def clear (ti : TextInput) : TextInput := { ti with value := "" }

end TextInput

/-- `string('0' + byte(priority))`: the character whose code is the sum, as a
byte, of 48 and the low byte of the priority. -/
def priorityText (priority : Int) : String :=
  String.singleton (Char.ofNat ((48 + (priority % 256).toNat) % 256))

namespace InputView

/-- `InputView.SetTodo`; `tiSetValue` is the `SetValue` of bubbles' textinput. -/
def SetTodo (tiSetValue : TextInput → String → TextInput) (v : InputView) (heap : Heap)
    (todo : Ptr) : InputView :=
  let t := readTodo heap todo
  let inputs := v.inputs.modify (fun ti => tiSetValue ti t.Title) inputTitle
  let inputs := inputs.modify (fun ti => tiSetValue ti t.Description) inputDescription
  let inputs := inputs.modify (fun ti => tiSetValue ti (joinSpace (sliceElems t.Tags))) inputTags
  let inputs := match t.DueDate with
    | some due => inputs.modify (fun ti => tiSetValue ti (formatDate due)) inputDueDate
    | none => inputs.modify TextInput.clear inputDueDate
  let inputs := if t.Priority > 0 then
      inputs.modify (fun ti => tiSetValue ti (priorityText t.Priority)) inputPriority
    else inputs.modify TextInput.clear inputPriority
  let inputs := inputs.map TextInput.Blur
  { v with todo := some todo, focusIndex := 0, err := "",
           inputs := inputs.modify TextInput.Focus 0 }

end InputView

namespace ListView

/-- `ListView.toggleTagSelection`. -/
def toggleTagSelection (l : ListView) : ListView :=
  if l.tagCursor = 0 then { l with selectedTags := [] }
  else
    let idx := l.tagCursor - 1
    if idx < (l.allTags.length : Int) then
      let tag := l.allTags.getD idx.toNat ""
      if tag ∈ l.selectedTags then
        { l with selectedTags := l.selectedTags.filter (fun x => decide (x ≠ tag)) }
      else { l with selectedTags := l.selectedTags ++ [tag] }
    else l

/-- `ListView.applyTagFilter`; `rangeTags` is the order in which `range` visits
the keys of `l.selectedTags`. -/
def applyTagFilter (rangeTags : List String → List String) (l : ListView) : ListView :=
  { l with filter := { l.filter with Tags := rangeTags l.selectedTags } }

/-- `ListView.UpdateSearch`; `tiUpdate` is the `Update` of bubbles' textinput. -/
def UpdateSearch (tiUpdate : TextInput → Msg → TextInput × List Cmd) (l : ListView) (msg : Msg) :
    ListView × List Cmd :=
  ({ l with searchInput := (tiUpdate l.searchInput msg).1 }, (tiUpdate l.searchInput msg).2)

end ListView

/-- What `App.Update` takes from outside the program: the `Update` and the
`SetValue` of bubbles' textinput, the order in which `range` visits the keys
of the map of selected tags, and the reading of `time.Now()`. -/
structure Host where
  tiUpdate : TextInput → Msg → TextInput × List Cmd
  tiSetValue : TextInput → String → TextInput
  rangeTags : List String → List String
  now : Time

namespace App

/-- `App.updateList`. -/
def updateList (host : Host) (a : App) (heap : Heap) (msg : Msg) : App × Heap × List Cmd :=
  let fallthrough : App × Heap × List Cmd :=
    ({ a with list := (a.list.Update msg).1 }, heap, (a.list.Update msg).2)
  match msg with
  | .KeyMsg key =>
    if key = "q" ∨ key = "esc" then ({ a with quitting := true }, heap, [.Quit])
    else if key = "enter" then
      match a.list.SelectedTodo with
      | some todo => ({ a with detail := a.detail.SetTodo todo, view := .ViewDetail }, heap, [])
      | none => (a, heap, [])
    else if key = "n" then
      ({ a with input := { a.input.Reset with mode := .InputModeAdd }, view := .ViewAdd }, heap,
       a.input.Init)
    else if key = "e" then
      match a.list.SelectedTodo with
      | some todo =>
        ({ a with input := { a.input.SetTodo host.tiSetValue heap todo with
                             mode := .InputModeEdit },
                  view := .ViewEdit }, heap, a.input.Init)
      | none => (a, heap, [])
    else if key = "/" then
      ({ a with list := { a.list with searchMode := true,
                                      searchInput := a.list.searchInput.Focus },
                view := .ViewSearch }, heap, [])
    else if key = "t" then ({ a with view := .ViewTagFilter }, heap, a.list.loadTags)
    else if key = " " then (a, heap, a.list.toggleComplete)
    else if key = "x" then ({ a with list := a.list.toggleSelect heap }, heap, [])
    else if key = "D" then (a, heap, a.list.deleteSelected)
    else if key = "p" then (a, heap, a.list.cyclePriority)
    else fallthrough
  | _ => fallthrough

/-- `App.updateDetail`. -/
def updateDetail (host : Host) (a : App) (heap : Heap) (msg : Msg) : App × Heap × List Cmd :=
  let fallthrough : App × Heap × List Cmd :=
    ({ a with detail := (a.detail.Update msg).1 }, heap, (a.detail.Update msg).2)
  match msg with
  | .KeyMsg key =>
    if key = "q" ∨ key = "esc" then ({ a with view := .ViewList }, heap, [])
    else if key = "e" then
      match a.detail.todo with
      | some todo =>
        ({ a with input := { a.input.SetTodo host.tiSetValue heap todo with
                             mode := .InputModeEdit },
                  view := .ViewEdit }, heap, a.input.Init)
      | none => (a, heap, [])
    else if key = " " then
      match a.detail.todo with
      | some _ => ({ a with view := .ViewList }, heap, a.detail.toggleComplete ++ a.list.loadTodos)
      | none => (a, heap, [])
    else fallthrough
  | _ => fallthrough

/-- `App.updateSearch`. -/
def updateSearch (host : Host) (a : App) (heap : Heap) (msg : Msg) : App × Heap × List Cmd :=
  let fallthrough : App × Heap × List Cmd :=
    ({ a with list := (a.list.UpdateSearch host.tiUpdate msg).1 }, heap,
     (a.list.UpdateSearch host.tiUpdate msg).2)
  match msg with
  | .KeyMsg key =>
    if key = "esc" then
      let l := { a.list with searchMode := false,
                             searchInput := a.list.searchInput.Blur.clear,
                             filter := { a.list.filter with Search := "" } }
      ({ a with list := l, view := .ViewList }, heap, l.loadTodos)
    else if key = "enter" then
      let l := { a.list with filter := { a.list.filter with Search := a.list.searchInput.Value },
                             searchMode := false,
                             searchInput := a.list.searchInput.Blur }
      ({ a with list := l, view := .ViewList }, heap, l.loadTodos)
    else fallthrough
  | _ => fallthrough

/-- `App.updateTagFilter`. -/
def updateTagFilter (host : Host) (a : App) (heap : Heap) (msg : Msg) :
    App × Heap × List Cmd :=
  match msg with
  | .KeyMsg key =>
    if key = "esc" ∨ key = "q" then ({ a with view := .ViewList }, heap, [])
    else if key = "enter" then
      let l := a.list.applyTagFilter host.rangeTags
      ({ a with list := l, view := .ViewList }, heap, l.loadTodos)
    else if key = "j" ∨ key = "down" then
      let l := { a.list with tagCursor := a.list.tagCursor + 1 }
      let l := if l.tagCursor ≥ (l.allTags.length : Int) + 1 then { l with tagCursor := 0 } else l
      ({ a with list := l }, heap, [])
    else if key = "k" ∨ key = "up" then
      let l := { a.list with tagCursor := a.list.tagCursor - 1 }
      let l := if l.tagCursor < (0 : Int) then
          { l with tagCursor := (l.allTags.length : Int) } else l
      ({ a with list := l }, heap, [])
    else if key = " " then ({ a with list := a.list.toggleTagSelection }, heap, [])
    else (a, heap, [])
  | _ => (a, heap, [])

/-- The routing of `App.Update` to the view that is active. -/
def route (host : Host) (a : App) (heap : Heap) (msg : Msg) : App × Heap × List Cmd :=
  match a.view with
  | .ViewList => a.updateList host heap msg
  | .ViewDetail => a.updateDetail host heap msg
  | .ViewAdd => a.updateInput host.tiUpdate heap msg host.now
  | .ViewEdit => a.updateInput host.tiUpdate heap msg host.now
  | .ViewSearch => a.updateSearch host heap msg
  | .ViewTagFilter => a.updateTagFilter host heap msg

/-- `App.Update`. -/
def Update (host : Host) (a : App) (heap : Heap) (msg : Msg) : App × Heap × List Cmd :=
  match msg with
  | .WindowSizeMsg width height =>
    ({ a with width := width, height := height, list := a.list.SetSize width (height - 4) },
     heap, [])
  | .KeyMsg key =>
    if key = "ctrl+c" then ({ a with quitting := true }, heap, [.Quit])
    else a.route host heap msg
  | .errMsg err => ({ a with err := some err }, heap, [])
  | .todosLoadedMsg => (a, heap, [])
  | .todoCreatedMsg => (a, heap, a.list.loadTodos)
  | .todoUpdatedMsg => (a, heap, a.list.loadTodos)
  | .todoDeletedMsg => (a, heap, a.list.loadTodos)
  | _ => a.route host heap msg

end App

/-! ## cmd/complete.go, cmd/reopen.go -/

/-- The `RunE` of `completeCmd` on its one argument: what it prints or the
error it returns, and the storage it leaves. -/
def completeCmd (db : SQLiteStorage) (arg : String) (env : Env) :
    Except String String × SQLiteStorage :=
  match ParseInt arg with
  | none => (.error ("invalid ID: " ++ arg), db)
  | some id =>
    match db.GetByID id (env.dbErr 0) with
    | .error e => (.error e, db)
    | .ok todo =>
      if todo.Completed then
        (.ok ("Todo #" ++ toString id ++ " is already completed.\n"), db)
      else
        let todo := { todo with Completed := true, CompletedAt := some env.nowUTC }
        match db.Update todo env.nowUTC (env.dbErr 1) with
        | (.error e, _) => (.error ("failed to complete todo: " ++ e), db)
        | (.ok db1, todo1) =>
          (.ok ("Completed todo #" ++ toString todo1.ID ++ ": " ++ todo1.Title ++ "\n"), db1)

/-- The `RunE` of `reopenCmd` on its one argument. -/
def reopenCmd (db : SQLiteStorage) (arg : String) (env : Env) :
    Except String String × SQLiteStorage :=
  match ParseInt arg with
  | none => (.error ("invalid ID: " ++ arg), db)
  | some id =>
    match db.GetByID id (env.dbErr 0) with
    | .error e => (.error e, db)
    | .ok todo =>
      if !todo.Completed then
        (.ok ("Todo #" ++ toString id ++ " is not completed.\n"), db)
      else
        let todo := { todo with Completed := false, CompletedAt := none }
        match db.Update todo env.nowUTC (env.dbErr 1) with
        | (.error e, _) => (.error ("failed to reopen todo: " ++ e), db)
        | (.ok db1, todo1) =>
          (.ok ("Reopened todo #" ++ toString todo1.ID ++ ": " ++ todo1.Title ++ "\n"), db1)

/-! ## Concrete inputs -/

/-- A pending task without tags or dates, with an identifier, a title and a
priority. -/
def sampleTodo (id : Int) (title : String) (priority : Int) : Todo :=
  { ID := id, Title := title, Description := "", Tags := none, DueDate := none,
    CreatedAt := { day := 20000, nsec := 0 }, UpdatedAt := { day := 20000, nsec := 0 },
    CompletedAt := none, Completed := false, Priority := priority }

/-- A filter with no condition, sorting by `sortBy` in the order `sortOrder`. -/
def sampleFilter (sortBy : SortField) (sortOrder : SortOrder) : Filter :=
  { Tags := [], Completed := none, DueDate := none, SortBy := sortBy, SortOrder := sortOrder,
    Search := "" }

/-- A reading of the clock. -/
def sampleNow : Time := { day := 20500, nsec := 36000000000000 }

/-- An environment in which no call of the driver fails and `range` visits the
keys of a map in the order given. -/
def sampleEnv : Env :=
  { now := sampleNow, nowUTC := { day := 20500, nsec := 28800000000000 },
    dbErr := fun _ => none, rangeOrder := fun keys => keys, rangeTags := fun keys => keys }

/-- A table of five tasks with the priorities 0, 3, 5, 1, 0. -/
def sampleStore : SQLiteStorage :=
  { rows := [sampleTodo 1 "a" 0, sampleTodo 2 "b" 3, sampleTodo 3 "c" 5, sampleTodo 4 "d" 1,
             sampleTodo 5 "e" 0],
    seq := 5 }


/-- A pending task with the given tags. -/
def taggedTodo (id : Int) (tags : List String) : Todo :=
  { sampleTodo id "t" 0 with Tags := some tags }

/-- A filter whose only condition is the list of tags. -/
def tagFilter (tags : List String) : Filter :=
  { sampleFilter "" "" with Tags := tags }

/-- A filter whose only condition is a due-date filter of the given type. -/
def dueFilter (typ : DueDateFilterType) : Filter :=
  { sampleFilter "" "" with DueDate := some { Typ := typ, SpecificDate := none } }

/-- The list view of a new session, holding the tasks at the given addresses,
with the cursor at the given row. -/
def sampleListView (todos : List Ptr) (cursor : Int) : ListView :=
  { NewListView with todos := todos, cursor := cursor }

/-- A session that has loaded the five tasks of `sampleStore` and marked the
tasks 2 and 4. -/
def sampleWorld : World :=
  { app := { NewApp with list := { sampleListView [0, 1, 2, 3, 4] 0 with selected := [2, 4] } },
    heap := sampleStore.rows,
    db := sampleStore }

/-- A task completed on day 20400. -/
def completedTodo : Todo :=
  { sampleTodo 1 "a" 0 with Completed := true, CompletedAt := some { day := 20400, nsec := 0 } }

/-- A session whose list and store hold the one task `completedTodo`. -/
def completedWorld : World :=
  { app := { NewApp with list := sampleListView [0] 0 },
    heap := [completedTodo],
    db := { rows := [completedTodo], seq := 1 } }

/-- The environment of `sampleEnv` a day later. -/
def laterEnv : Env :=
  { sampleEnv with now := { day := 20501, nsec := 36000000000000 },
                   nowUTC := { day := 20501, nsec := 28800000000000 } }

/-- The invariant of a task: it is completed exactly when it has a completion
time. -/
def completionInvariant (t : Todo) : Bool := t.Completed == t.CompletedAt.isSome

/-- The form with its five fields holding the given texts, each cut to the
`CharLimit` of its field, beyond which a text input holds no text, in the
given mode, bound to the given task. -/
def sampleForm (mode : InputMode) (todo : Option Ptr) (values : List String) : InputView :=
  { NewInputView with
    mode := mode, todo := todo,
    inputs := List.zipWith
      (fun ti value => { ti with value := String.mk (value.toList.take ti.CharLimit) })
      NewInputView.inputs values }

/-- A session in the add form, the title field holding three blanks. -/
def blankAddApp : App :=
  { NewApp with view := .ViewAdd,
                input := sampleForm .InputModeAdd none ["   ", "details", "#x", "", "3"] }

/-- A session editing the task at address 0, the title field emptied. -/
def blankEditApp : App :=
  { NewApp with view := .ViewEdit,
                list := sampleListView [0] 0,
                input := sampleForm .InputModeEdit (some 0) ["", "details", "#x", "", "3"] }

/-- A session editing the task at address 0 with a new title, description and
tag list and a due date that does not parse. -/
def badDueEditApp : App :=
  { NewApp with view := .ViewEdit,
                list := sampleListView [0] 0,
                input := sampleForm .InputModeEdit (some 0)
                  ["new title", "new text", "#x", "garbage", "3"] }

/-- A session editing the task at address 0 with a new title, description, tag
list and due date and a priority out of range. -/
def badPriorityEditApp : App :=
  { NewApp with view := .ViewEdit,
                list := sampleListView [0] 0,
                input := sampleForm .InputModeEdit (some 0)
                  ["new title", "new text", "#x", "2026-02-14", "9"] }

/-- A host whose text inputs ignore every message and take a value as it is
given, and whose `range` visits the selected tags in the order of the list. -/
def sampleHost : Host :=
  { tiUpdate := fun ti _ => (ti, []), tiSetValue := fun ti value => { ti with value := value },
    rangeTags := fun keys => keys, now := sampleNow }

/-- A session in the detail view of the task at address 0. -/
def detailApp : App :=
  { NewApp with view := .ViewDetail, list := sampleListView [0] 0,
                detail := { NewDetailView with todo := some 0 } }

/-- The environment of `sampleEnv` with every call of the driver failing. -/
def failingEnv : Env :=
  { sampleEnv with dbErr := fun _ => some "disk I/O error" }

/-- A session whose list and store hold one pending task. -/
def pendingWorld : World :=
  { app := { NewApp with list := sampleListView [0] 0 },
    heap := [sampleTodo 1 "a" 0],
    db := { rows := [sampleTodo 1 "a" 0], seq := 1 } }

/-- A command run once in each of the given environments, one after the
other. -/
def runCmds (envs : List Env) (c : Cmd) (w : World) : World :=
  envs.foldl (fun w env => (runCmd env c w).1) w

/-- The form after the given keys, pressed one after the other. -/
def pressAll (tiUpdate : TextInput → Msg → TextInput × List Cmd) (keys : List String)
    (v : InputView) : InputView :=
  keys.foldl (fun v key => (v.Update tiUpdate (.KeyMsg key)).1) v

/-- A session in the tag filter, the tags `#a` and `#b` loaded, nothing
selected or committed, the tag cursor on `#a`. -/
def tagFilterApp : App :=
  { NewApp with view := .ViewTagFilter,
                list := { NewListView with allTags := ["#a", "#b"], tagCursor := 1 } }

/-- The session after the given keys, pressed one after the other, on a heap
that no command changes in between. -/
def pressKeys (host : Host) (keys : List String) (a : App) (heap : Heap) : App :=
  keys.foldl (fun a key => (App.Update host a heap (.KeyMsg key)).1) a

/-- A session in the search view with the text `milk` typed. -/
def searchApp : App :=
  { NewApp with view := .ViewSearch,
                list := { NewListView with searchMode := true,
                                           searchInput := { NewListView.searchInput with
                                             value := "milk", focus := true } } }

/-- The environment of `sampleEnv` with the second call of the driver
failing. -/
def secondFailsEnv : Env :=
  { sampleEnv with dbErr := fun k => if k = 1 then some "disk I/O error" else none }

/-- A filter whose only condition is a search string. -/
def searchFilter (search : String) : Filter :=
  { sampleFilter "" "" with Search := search }

/-! ## internal/tui: rendering -/

/-- What the views take from lipgloss and from the text inputs: the `Render`
of the styles named, the line `renderTodoItem` lays out for a task, and the
texts of the views that only lay out styled text. -/
structure Renderer where
  titleStyle : String → String
  helpStyle : String → String
  statusBarStyle : String → String
  errorStyle : String → String
  appStyle : String → String
  renderTodoItem : ListView → Todo → Bool → String
  ViewSearch : ListView → String
  ViewTagFilter : ListView → String
  detailView : DetailView → Heap → String
  inputView : InputView → String

namespace ListView

/-- The `visibleHeight` of `ListView.View`. -/
def visibleHeight (l : ListView) : Int :=
  let visibleHeight := l.height - 6
  if visibleHeight < 1 then 10 else visibleHeight

/-- The `start` of `ListView.View`. -/
def windowStart (l : ListView) : Int :=
  if l.cursor ≥ l.visibleHeight then l.cursor - l.visibleHeight + 1 else 0

/-- The `end` of `ListView.View`. -/
def windowEnd (l : ListView) : Int :=
  let e := l.windowStart + l.visibleHeight
  if e > (l.todos.length : Int) then (l.todos.length : Int) else e

/-- The indices the loop `for i := start; i < end; i++` of `ListView.View`
visits, in order. -/
def windowIndices (l : ListView) : List Int :=
  (List.range (l.windowEnd - l.windowStart).toNat).map (fun (k : Nat) => l.windowStart + (k : Int))

/-- The index expression `l.todos[i]`: none when the index is out of range,
where the runtime stops the program. -/
def todoAt (l : ListView) (i : Int) : Option Ptr :=
  if i < 0 ∨ i ≥ (l.todos.length : Int) then none else l.todos.get? i.toNat

/-- The body of the loop of `ListView.View` over the indices given: the lines
of the rows, none when an index is out of range. -/
def renderRows (r : Renderer) (l : ListView) (heap : Heap) : List Int → Option String
  | [] => some ""
  | i :: rest =>
    match l.todoAt i with
    | none => none
    | some p =>
      (renderRows r l heap rest).map (fun s =>
        r.renderTodoItem l (readTodo heap p) (decide (i = l.cursor)) ++ "\n" ++ s)

/-- `ListView.View`: the text of the list, none when an index expression in it
is out of range. -/
def View (r : Renderer) (l : ListView) (heap : Heap) : Option String :=
  let title := "TODO List"
  let title := if l.filter.Search ≠ "" then title ++ " (search: " ++ l.filter.Search ++ ")"
    else title
  let title := if l.filter.Tags.length > 0
    then title ++ " (tags: " ++ ", ".intercalate l.filter.Tags ++ ")" else title
  let title := if !l.showPending then title ++ " [ALL]" else title
  let head := r.titleStyle title ++ "\n\n"
  let rows : Option String :=
    if l.todos.length = 0 then
      some (r.helpStyle "No todos found. Press \x27n\x27 to add one.")
    else l.renderRows r heap l.windowIndices
  let statusText := " " ++ toString l.todos.length ++ " todos "
  let statusText := if l.selected.length > 0
    then statusText ++ "| " ++ toString l.selected.length ++ " selected " else statusText
  let help :=
    "j/k:navigate  space:toggle  n:new  e:edit  /:search  t:tags  D:delete  tab:all/pending  q:quit"
  rows.map (fun rows =>
    head ++ rows ++ "\n" ++ r.statusBarStyle statusText ++ "\n" ++ r.helpStyle help)

end ListView

namespace App

/-- `App.View`: the frame, none when an index expression in the view is out
of range. -/
def View (r : Renderer) (a : App) (heap : Heap) : Option String :=
  if a.quitting then some ""
  else
    let content : Option String :=
      match a.view with
      | .ViewList => a.list.View r heap
      | .ViewDetail => some (r.detailView a.detail heap)
      | .ViewAdd => some (r.inputView a.input)
      | .ViewEdit => some (r.inputView a.input)
      | .ViewSearch => some (r.ViewSearch a.list)
      | .ViewTagFilter => some (r.ViewTagFilter a.list)
    content.map (fun content =>
      let content := match a.err with
        | some err => content ++ "\n" ++ r.errorStyle ("Error: " ++ err)
        | none => content
      r.appStyle content)

end App

/-- A renderer without styles: every `Render` returns its text, a row is the
title of its task with `>` before it at the cursor, and the other views are
their names. -/
def plainRenderer : Renderer :=
  { titleStyle := fun s => s, helpStyle := fun s => s, statusBarStyle := fun s => s,
    errorStyle := fun s => s, appStyle := fun s => s,
    renderTodoItem := fun _ todo selected => (if selected then "> " else "  ") ++ todo.Title,
    ViewSearch := fun _ => "Search Todos", ViewTagFilter := fun _ => "Filter by Tag",
    detailView := fun _ _ => "Todo", inputView := fun _ => "Add New Todo" }

/-! ## Runs of the session -/

/-- What the runtime does between two frames: it delivers a message to
`App.Update`, or it runs a command, in the environment the command finds. -/
inductive Step where
  | deliver (msg : Msg)
  | run (env : Env) (c : Cmd)

/-- One step of the runtime. -/
def stepWorld (host : Host) (w : World) : Step → World
  | .deliver msg =>
    let r := w.app.Update host w.heap msg
    { w with app := r.1, heap := r.2.1 }
  | .run env c => (runCmd env c w).1

/-- The steps of the runtime, one after the other. -/
def stepsWorld (host : Host) (w : World) (steps : List Step) : World :=
  steps.foldl (stepWorld host) w

/-- Whether the closure of a command calls a method of the store: every
command of the program does, `tea.Quit` and the blink of a text input do
not. -/
def Cmd.callsStore : Cmd → Bool
  | .Quit => false
  | .Blink => false
  | _ => true

/-- A session in the detail view of its one pending task. -/
def detailWorld : World :=
  { app := detailApp, heap := [sampleTodo 1 "a" 0],
    db := { rows := [sampleTodo 1 "a" 0], seq := 1 } }

/-! ## cmd/add.go, cmd/import.go -/

/-- The `RunE` of `addCmd` on its one argument and the values of its flags:
what it prints or the error it returns, the storage it leaves and the calls of
the store it made. -/
def addCmd (db : SQLiteStorage) (title addDescription addTags addDue : String)
    (addPriority : Int) (env : Env) :
    Except String String × SQLiteStorage × List StoreCall :=
  let todo : Todo :=
    { ID := 0, Title := title, Description := addDescription, Tags := ParseTags addTags,
      DueDate := none, CreatedAt := Time.zero, UpdatedAt := Time.zero, CompletedAt := none,
      Completed := false, Priority := addPriority }
  match (if addDue ≠ "" then ParseDueDate addDue env.now else .ok todo.DueDate) with
  | .error e => (.error ("invalid due date: " ++ e), db, [])
  | .ok dueDate =>
    let todo := { todo with DueDate := dueDate }
    if addPriority < 0 ∨ addPriority > 5 then
      (.error "priority must be between 0 and 5 (1=highest, 5=lowest, 0=none)", db, [])
    else
      match db.Create todo env.nowUTC (env.dbErr 0) with
      | (.error e, _) => (.error ("failed to create todo: " ++ e), db, [.Create todo])
      | (.ok db1, todo1) =>
        (.ok ("Created todo #" ++ toString todo1.ID ++ ": " ++ todo1.Title ++ "\n"), db1,
         [.Create todo])

/-- The loop of `importCmd` over the tasks read from the file, `k` calls of
the driver made before: the storage it leaves, the warnings it prints, the
number of tasks imported and the calls of the store it made. -/
def importLoop (env : Env) :
    Nat → List Todo → SQLiteStorage → SQLiteStorage × String × Nat × List StoreCall
  | _, [], db => (db, "", 0, [])
  | k, todo :: rest, db =>
    let newTodo : Todo :=
      { ID := 0, Title := todo.Title, Description := todo.Description, Tags := todo.Tags,
        DueDate := todo.DueDate, CreatedAt := Time.zero, UpdatedAt := Time.zero,
        CompletedAt := todo.CompletedAt, Completed := todo.Completed,
        Priority := todo.Priority }
    match db.Create newTodo env.nowUTC (env.dbErr k) with
    | (.error e, _) =>
      let r := importLoop env (k + 1) rest db
      (r.1, "Warning: failed to import todo \x27" ++ todo.Title ++ "\x27: " ++ e ++ "\n" ++ r.2.1,
       r.2.2.1, .Create newTodo :: r.2.2.2)
    | (.ok db1, _) =>
      let r := importLoop env (k + 1) rest db1
      (r.1, r.2.1, r.2.2.1 + 1, .Create newTodo :: r.2.2.2)

/-- The `RunE` of `importCmd` from where `json.Unmarshal` has read the tasks
`todos` from the file named: what it prints, the storage it leaves and the
calls of the store it made. -/
def importCmd (db : SQLiteStorage) (filename : String) (todos : List Todo) (env : Env) :
    Except String String × SQLiteStorage × List StoreCall :=
  let r := importLoop env 0 todos db
  (.ok (r.2.1 ++ "Imported " ++ toString r.2.2.1 ++ " todo(s) from " ++ filename ++ "\n"), r.1,
   r.2.2.2)

/-- The tasks read from a file that holds a task titled `x` of priority 9 and
a task titled `y` of priority -7. -/
def importedTodos : List Todo :=
  [{ (default : Todo) with Title := "x", Priority := 9 },
   { (default : Todo) with Title := "y", Priority := -7 }]

/-- `unicode.IsControl`. -/
def isControl (c : Char) : Bool :=
  decide (c.toNat < 32 ∨ (127 ≤ c.toNat ∧ c.toNat < 160))

/-- `SetValue` of bubbles' textinput on a text without control characters:
the text, cut to `CharLimit` characters when the limit is positive. -/
def limitSetValue (ti : TextInput) (s : String) : TextInput :=
  { ti with value := if ti.CharLimit > 0 ∧ s.length > ti.CharLimit
      then String.mk (s.toList.take ti.CharLimit) else s }

/-- A host as `sampleHost` whose text inputs cut a text at their limit. -/
def limitHost : Host := { sampleHost with tiSetValue := limitSetValue }

/-- A pending task whose title is the letter `a` 201 times. -/
def longTitleTodo : Todo := sampleTodo 1 (String.mk (List.replicate 201 'a')) 0

/-- A pending task due on 10000-01-01. -/
def farDueTodo : Todo :=
  { sampleTodo 1 "a" 0 with DueDate := some { day := 2932897, nsec := 86399 * 1000000000 } }

/-- A pending task with two tags, a due date and the priority 3. -/
def fullTodo : Todo :=
  { sampleTodo 1 "Buy milk" 3 with
    Description := "2 litres"
    Tags := some ["#home", "#shop"]
    DueDate := some { day := 20498, nsec := 43200000000000 } }

/-- The session of `sampleWorld` with no task marked and the cursor on the
third task. -/
def cursorWorld : World :=
  { sampleWorld with
    app := { NewApp with list := sampleListView [0, 1, 2, 3, 4] 2 } }

/-! # Theorems

## The order of `List` -/

theorem orderedInsert_perm {α : Type} (le : α → α → Bool) (a : α) (l : List α) :
    (orderedInsert le a l).Perm (a :: l) := by
  induction l with
  | nil => exact List.Perm.refl _
  | cons b l ih =>
    unfold orderedInsert
    split
    · exact List.Perm.refl _
    · exact (List.Perm.cons b ih).trans (List.Perm.swap a b l)

theorem orderBy_perm {α : Type} (le : α → α → Bool) (l : List α) :
    (orderBy le l).Perm l := by
  induction l with
  | nil => exact List.Perm.refl _
  | cons a l ih =>
    exact (orderedInsert_perm le a (orderBy le l)).trans (List.Perm.cons a ih)

theorem orderedInsert_pairwise {α : Type} (le : α → α → Bool)
    (htotal : ∀ a b, le a b = true ∨ le b a = true)
    (htrans : ∀ a b c, le a b = true → le b c = true → le a c = true)
    (a : α) (l : List α) (hl : l.Pairwise (fun x y => le x y = true)) :
    (orderedInsert le a l).Pairwise (fun x y => le x y = true) := by
  induction l with
  | nil => simp [orderedInsert]
  | cons b l ih =>
    unfold orderedInsert
    rw [List.pairwise_cons] at hl
    split
    · rename_i hab
      refine List.pairwise_cons.mpr ⟨?_, List.pairwise_cons.mpr hl⟩
      intro x hx
      rcases List.mem_cons.mp hx with rfl | hx
      · exact hab
      · exact htrans a b x hab (hl.1 x hx)
    · rename_i hab
      have hba : le b a = true := by
        rcases htotal a b with h | h
        · exact absurd h hab
        · exact h
      refine List.pairwise_cons.mpr ⟨?_, ih hl.2⟩
      intro x hx
      rcases List.mem_cons.mp ((orderedInsert_perm le a l).subset hx) with rfl | hx
      · exact hba
      · exact hl.1 x hx

theorem orderBy_pairwise {α : Type} (le : α → α → Bool)
    (htotal : ∀ a b, le a b = true ∨ le b a = true)
    (htrans : ∀ a b c, le a b = true → le b c = true → le a c = true)
    (l : List α) : (orderBy le l).Pairwise (fun x y => le x y = true) := by
  induction l with
  | nil => exact List.Pairwise.nil
  | cons a l ih => exact orderedInsert_pairwise le htotal htrans a (orderBy le l) ih

theorem orderClause_priority (filter : Filter) (h : filter.SortBy = SortByPriority)
    (a b : Todo) :
    orderClause filter a b =
      if filter.SortOrder = SortAsc then
        decide (priorityKey true a.Priority ≤ priorityKey true b.Priority)
      else decide (priorityKey false b.Priority ≤ priorityKey false a.Priority) := by
  unfold orderClause
  by_cases hasc : filter.SortOrder = SortAsc <;> simp [h, hasc]

theorem priority_orderClause_total (filter : Filter) (h : filter.SortBy = SortByPriority)
    (a b : Todo) : orderClause filter a b = true ∨ orderClause filter b a = true := by
  rw [orderClause_priority filter h, orderClause_priority filter h]
  by_cases hasc : filter.SortOrder = SortAsc <;> simp only [hasc, if_true, if_false,
    decide_eq_true_eq] <;> omega

theorem priority_orderClause_trans (filter : Filter) (h : filter.SortBy = SortByPriority)
    (a b c : Todo) (hab : orderClause filter a b = true) (hbc : orderClause filter b c = true) :
    orderClause filter a c = true := by
  rw [orderClause_priority filter h] at *
  by_cases hasc : filter.SortOrder = SortAsc <;> simp only [hasc, if_true, if_false,
    decide_eq_true_eq] at * <;> omega

theorem orderClause_zero_not_before (filter : Filter) (h : filter.SortBy = SortByPriority)
    (a b : Todo) (ha : a.Priority = 0) (hb1 : 1 ≤ b.Priority) (hb5 : b.Priority ≤ 5) :
    orderClause filter a b ≠ true := by
  have hb0 : b.Priority ≠ 0 := by omega
  rw [orderClause_priority filter h]
  by_cases hasc : filter.SortOrder = SortAsc <;>
    simp [hasc, priorityKey, ha, hb0] <;> omega

/-- C1: in the result of `List` with sort key priority, ascending or
descending, every task with priority 0 stands after every task with a priority
in 1..5; the result holds exactly the rows that satisfy the WHERE clause. -/
theorem C1_priority_zero_last (s : SQLiteStorage) (filter : Filter) (now : Time)
    (out : List Todo) (hsort : filter.SortBy = SortByPriority)
    (hout : s.ListTodos filter now none = .ok out) :
    out.Perm (s.rows.filter (whereClause filter now)) ∧
    ∀ (i j : Nat) (hi : i < out.length) (hj : j < out.length),
      (out.get ⟨i, hi⟩).Priority = 0 →
      1 ≤ (out.get ⟨j, hj⟩).Priority → (out.get ⟨j, hj⟩).Priority ≤ 5 → j < i := by
  simp only [SQLiteStorage.ListTodos, Except.ok.injEq] at hout
  subst hout
  refine ⟨orderBy_perm _ _, ?_⟩
  intro i j hi hj h0 h1 h5
  have hpw := orderBy_pairwise (orderClause filter)
    (priority_orderClause_total filter hsort) (priority_orderClause_trans filter hsort)
    (s.rows.filter (whereClause filter now))
  by_contra hlt
  have hne : i ≠ j := by
    rintro rfl
    omega
  have hij : i < j := by omega
  exact orderClause_zero_not_before filter hsort _ _ h0 h1 h5
    ((List.pairwise_iff_get.mp hpw) ⟨i, hi⟩ ⟨j, hj⟩ hij)

/-- The five tasks of `sampleStore`, sorted by priority in descending order:
the two tasks without a priority come last. -/
theorem C1_priority_zero_last_witness :
    ((sampleFilter SortByPriority SortDesc).SortBy = SortByPriority ∧
     sampleStore.ListTodos (sampleFilter SortByPriority SortDesc) sampleNow none =
       .ok [sampleTodo 3 "c" 5, sampleTodo 2 "b" 3, sampleTodo 4 "d" 1, sampleTodo 1 "a" 0,
            sampleTodo 5 "e" 0]) ∧
    ([sampleTodo 3 "c" 5, sampleTodo 2 "b" 3, sampleTodo 4 "d" 1, sampleTodo 1 "a" 0,
      sampleTodo 5 "e" 0].Perm
        (sampleStore.rows.filter
          (whereClause (sampleFilter SortByPriority SortDesc) sampleNow)) ∧
     ∀ (i j : Nat)
       (hi : i < [sampleTodo 3 "c" 5, sampleTodo 2 "b" 3, sampleTodo 4 "d" 1,
                  sampleTodo 1 "a" 0, sampleTodo 5 "e" 0].length)
       (hj : j < [sampleTodo 3 "c" 5, sampleTodo 2 "b" 3, sampleTodo 4 "d" 1,
                  sampleTodo 1 "a" 0, sampleTodo 5 "e" 0].length),
       ([sampleTodo 3 "c" 5, sampleTodo 2 "b" 3, sampleTodo 4 "d" 1, sampleTodo 1 "a" 0,
         sampleTodo 5 "e" 0].get ⟨i, hi⟩).Priority = 0 →
       1 ≤ ([sampleTodo 3 "c" 5, sampleTodo 2 "b" 3, sampleTodo 4 "d" 1, sampleTodo 1 "a" 0,
             sampleTodo 5 "e" 0].get ⟨j, hj⟩).Priority →
       ([sampleTodo 3 "c" 5, sampleTodo 2 "b" 3, sampleTodo 4 "d" 1, sampleTodo 1 "a" 0,
         sampleTodo 5 "e" 0].get ⟨j, hj⟩).Priority ≤ 5 → j < i) :=
  ⟨⟨by decide, by decide⟩,
   C1_priority_zero_last sampleStore (sampleFilter SortByPriority SortDesc) sampleNow _
     (by decide) (by decide)⟩


/-! ## `LIKE` -/

theorem likeAny_iff (rest : List Char → Bool) (s : List Char) :
    likeAny rest s = true ↔ ∃ pre post, s = pre ++ post ∧ rest post = true := by
  induction s with
  | nil =>
    constructor
    · intro h
      exact ⟨[], [], rfl, h⟩
    · rintro ⟨pre, post, hs, h⟩
      have hpost : post = [] := (List.append_eq_nil.mp hs.symm).2
      subst hpost
      exact h
  | cons c s ih =>
    simp only [likeAny, Bool.or_eq_true]
    constructor
    · rintro (h | h)
      · exact ⟨[], c :: s, rfl, h⟩
      · obtain ⟨pre, post, hs, hr⟩ := ih.mp h
        exact ⟨c :: pre, post, by rw [hs]; rfl, hr⟩
    · rintro ⟨pre, post, hs, hr⟩
      cases pre with
      | nil =>
        left
        simp only [List.nil_append] at hs
        rw [hs]
        exact hr
      | cons d pre =>
        right
        simp only [List.cons_append, List.cons.injEq] at hs
        exact ih.mpr ⟨pre, post, hs.2, hr⟩

theorem sqlLike_cons (p : Char) (ps s : List Char) :
    sqlLike (p :: ps) s =
      if p = '%' then likeAny (sqlLike ps) s
      else match s with
        | [] => false
        | c :: s' =>
          if p = '_' then sqlLike ps s'
          else asciiLower p == asciiLower c && sqlLike ps s' := by
  rw [sqlLike.eq_def]

/-- A pattern that begins with characters other than the two wildcards takes
off the text as many characters, equal to its own up to the case of ASCII
letters. -/
theorem sqlLike_literal (p q : List Char) (hp : ∀ c ∈ p, c ≠ '%' ∧ c ≠ '_') (s : List Char) :
    sqlLike (p ++ q) s = true ↔
      ∃ mid rest, s = mid ++ rest ∧ mid.map asciiLower = p.map asciiLower
        ∧ sqlLike q rest = true := by
  induction p generalizing s with
  | nil =>
    constructor
    · intro h
      exact ⟨[], s, rfl, rfl, h⟩
    · rintro ⟨mid, rest, hs, hm, h⟩
      have : mid = [] := by simpa using hm
      subst this
      simpa [hs] using h
  | cons a p ih =>
    have ha := hp a (List.mem_cons_self a p)
    have hp' : ∀ c ∈ p, c ≠ '%' ∧ c ≠ '_' := fun c hc => hp c (List.mem_cons_of_mem a hc)
    rw [List.cons_append, sqlLike_cons, if_neg ha.1]
    cases s with
    | nil =>
      constructor
      · intro h
        exact absurd h (by simp)
      · rintro ⟨mid, rest, hs, hm, -⟩
        have hmid : mid = [] := (List.append_eq_nil.mp hs.symm).1
        subst hmid
        simp at hm
    | cons c s =>
      simp only [if_neg ha.2, Bool.and_eq_true, beq_iff_eq]
      constructor
      · rintro ⟨hac, h⟩
        obtain ⟨mid, rest, hs, hm, hq⟩ := (ih hp' s).mp h
        exact ⟨c :: mid, rest, by rw [hs]; rfl, by simp [hm, hac], hq⟩
      · rintro ⟨mid, rest, hs, hm, hq⟩
        cases mid with
        | nil => simp at hm
        | cons d mid =>
          simp only [List.cons_append, List.cons.injEq] at hs
          simp only [List.map_cons, List.cons.injEq] at hm
          refine ⟨?_, (ih hp' s).mpr ⟨mid, rest, hs.2, hm.2, hq⟩⟩
          rw [hs.1]
          exact hm.1.symm

/-- The pattern `%tag%`, for a tag without wildcard characters, matches the
texts in which the tag occurs up to the case of ASCII letters. -/
theorem sqlLike_contains (p : List Char) (hp : ∀ c ∈ p, c ≠ '%' ∧ c ≠ '_') (s : List Char) :
    sqlLike ('%' :: (p ++ ['%'])) s = true ↔
      ∃ pre mid post, s = pre ++ (mid ++ post) ∧ mid.map asciiLower = p.map asciiLower := by
  rw [sqlLike_cons, if_pos rfl, likeAny_iff]
  constructor
  · rintro ⟨pre, rest, hs, h⟩
    obtain ⟨mid, post, hrest, hm, -⟩ := (sqlLike_literal p ['%'] hp rest).mp h
    exact ⟨pre, mid, post, by rw [hs, hrest], hm⟩
  · rintro ⟨pre, mid, post, hs, hm⟩
    refine ⟨pre, mid ++ post, hs, (sqlLike_literal p ['%'] hp _).mpr ⟨mid, post, rfl, hm, ?_⟩⟩
    rw [sqlLike_cons, if_pos rfl, likeAny_iff]
    exact ⟨post, [], by simp, rfl⟩

theorem mem_ListTodos (s : SQLiteStorage) (filter : Filter) (now : Time) (out : List Todo)
    (hout : s.ListTodos filter now none = .ok out) (t : Todo) :
    t ∈ out ↔ t ∈ s.rows ∧ whereClause filter now t = true := by
  simp only [SQLiteStorage.ListTodos, Except.ok.injEq] at hout
  subst hout
  rw [(orderBy_perm _ _).mem_iff, List.mem_filter]


/-! ## The tag filter of `List` -/

/-- C2, as stated, fails: with the filter `{"#work"}` `List` returns a task
whose only tag is `#workshop`, although `#work` is not one of its tags. -/
theorem C2_counterexample :
    ({ rows := [taggedTodo 1 ["#workshop"]], seq := 1 } : SQLiteStorage).ListTodos
        (tagFilter ["#work"]) sampleNow none = .ok [taggedTodo 1 ["#workshop"]]
    ∧ "#work" ∉ sliceElems (taggedTodo 1 ["#workshop"]).Tags := by
  decide

/-- C2, amended: `List` returns a task only if, for every requested tag, the
pattern `%tag%` matches the JSON text of the task's tag list under `LIKE`; for
a tag without the wildcards `%` and `_` that is: the tag occurs in that text,
up to the case of ASCII letters. -/
theorem C2_tag_filter_like (s : SQLiteStorage) (filter : Filter) (now : Time)
    (out : List Todo) (hout : s.ListTodos filter now none = .ok out)
    (t : Todo) (ht : t ∈ out) (tag : String) (htag : tag ∈ filter.Tags) :
    sqlLike ('%' :: (tag.toList ++ ['%'])) (jsonMarshalTags t.Tags) = true ∧
    ((∀ c ∈ tag.toList, c ≠ '%' ∧ c ≠ '_') →
      ∃ pre mid post, jsonMarshalTags t.Tags = pre ++ (mid ++ post)
        ∧ mid.map asciiLower = tag.toList.map asciiLower) := by
  have hw := ((mem_ListTodos s filter now out hout t).mp ht).2
  have hlike : sqlLike ('%' :: (tag.toList ++ ['%'])) (jsonMarshalTags t.Tags) = true := by
    simp only [whereClause, Bool.and_eq_true, List.all_eq_true] at hw
    exact hw.1.1.2 tag htag
  exact ⟨hlike, fun hp => (sqlLike_contains tag.toList hp _).mp hlike⟩

/-- The filter `{"#work"}` over tasks tagged `{"#work", "#x"}` and `{"#home"}`
returns only the first, whose JSON tag list contains `#work`. -/
theorem C2_tag_filter_like_witness :
    (({ rows := [taggedTodo 1 ["#work", "#x"], taggedTodo 2 ["#home"]], seq := 2 } :
        SQLiteStorage).ListTodos (tagFilter ["#work"]) sampleNow none
        = .ok [taggedTodo 1 ["#work", "#x"]]
     ∧ taggedTodo 1 ["#work", "#x"] ∈ [taggedTodo 1 ["#work", "#x"]]
     ∧ "#work" ∈ (tagFilter ["#work"]).Tags) ∧
    (sqlLike ('%' :: ("#work".toList ++ ['%']))
        (jsonMarshalTags (taggedTodo 1 ["#work", "#x"]).Tags) = true ∧
     ((∀ c ∈ "#work".toList, c ≠ '%' ∧ c ≠ '_') →
       ∃ pre mid post, jsonMarshalTags (taggedTodo 1 ["#work", "#x"]).Tags = pre ++ (mid ++ post)
         ∧ mid.map asciiLower = "#work".toList.map asciiLower)) :=
  ⟨⟨by decide, by decide, by decide⟩,
   C2_tag_filter_like _ (tagFilter ["#work"]) sampleNow _
     (by decide :
       ({ rows := [taggedTodo 1 ["#work", "#x"], taggedTodo 2 ["#home"]], seq := 2 } :
        SQLiteStorage).ListTodos (tagFilter ["#work"]) sampleNow none
        = .ok [taggedTodo 1 ["#work", "#x"]])
     (taggedTodo 1 ["#work", "#x"]) (by decide) "#work" (by decide)⟩


/-! ## The due-date filters `today` and `tomorrow` -/

theorem dueBetween_day (due : Option Time) (day : Int) :
    dueBetween due { day := day, nsec := 0 } { day := day + 1, nsec := 0 } = true ↔
      ∃ d, due = some d ∧ d.day = day := by
  cases due with
  | none => simp [dueBetween]
  | some d =>
    simp only [dueBetween, Time.ge, Time.Before, Bool.and_eq_true, Bool.or_eq_true,
      Bool.not_eq_true', Bool.or_eq_false_iff, Bool.and_eq_false_iff, decide_eq_true_eq,
      decide_eq_false_iff_not, Option.some.injEq, exists_eq_left', Nat.not_lt_zero]
    constructor
    · rintro ⟨⟨h1, -⟩, h2 | ⟨-, h3⟩⟩
      · omega
      · exact absurd h3 id
    · intro h
      exact ⟨⟨by omega, Or.inr id⟩, Or.inl (by omega)⟩

theorem dueDateClause_today (sd : Option Time) (now : Time) (t : Todo) :
    dueDateClause { Typ := DueToday, SpecificDate := sd } now t =
      dueBetween t.DueDate now.startOfDay (now.startOfDay.AddDate 1) := by
  simp [dueDateClause]

theorem dueDateClause_tomorrow (sd : Option Time) (now : Time) (t : Todo) :
    dueDateClause { Typ := DueTomorrow, SpecificDate := sd } now t =
      dueBetween t.DueDate (now.startOfDay.AddDate 1) ((now.startOfDay.AddDate 1).AddDate 1) := by
  have h : DueTomorrow ≠ DueToday := by decide
  simp [dueDateClause, h]

theorem dueDateClause_today_iff (sd : Option Time) (now : Time) (t : Todo) :
    dueDateClause { Typ := DueToday, SpecificDate := sd } now t = true ↔
      ∃ d, t.DueDate = some d ∧ d.day = now.day := by
  rw [dueDateClause_today]
  exact dueBetween_day t.DueDate now.day

theorem dueDateClause_tomorrow_iff (sd : Option Time) (now : Time) (t : Todo) :
    dueDateClause { Typ := DueTomorrow, SpecificDate := sd } now t = true ↔
      ∃ d, t.DueDate = some d ∧ d.day = now.day + 1 := by
  rw [dueDateClause_tomorrow]
  exact dueBetween_day t.DueDate (now.day + 1)

theorem whereClause_dueFilter (typ : DueDateFilterType) (now : Time) (t : Todo) :
    whereClause (dueFilter typ) now t =
      dueDateClause { Typ := typ, SpecificDate := none } now t := by
  simp [whereClause, dueFilter, sampleFilter]

/-- C3: for every reading `now` of the clock, the due-date filter `today`
matches exactly the due timestamps in [start-of-today, start-of-tomorrow),
which are those of the calendar day of `now`, and `tomorrow` exactly those in
[start-of-tomorrow, start-of-day-after), which are those of the next day; a
task due at start-of-tomorrow is excluded by `today` and included by
`tomorrow`, no task is matched by both, and `List` with either filter alone
returns exactly the rows the filter matches. -/
theorem C3_due_today_tomorrow (now : Time) (sd : Option Time) (t : Todo) (s : SQLiteStorage) :
    (dueDateClause { Typ := DueToday, SpecificDate := sd } now t = true ↔
      ∃ d, t.DueDate = some d ∧ d.Before now.startOfDay = false
        ∧ d.Before (now.startOfDay.AddDate 1) = true) ∧
    (dueDateClause { Typ := DueTomorrow, SpecificDate := sd } now t = true ↔
      ∃ d, t.DueDate = some d ∧ d.Before (now.startOfDay.AddDate 1) = false
        ∧ d.Before (now.startOfDay.AddDate 2) = true) ∧
    (dueDateClause { Typ := DueToday, SpecificDate := sd } now t = true ↔
      ∃ d, t.DueDate = some d ∧ d.day = now.day) ∧
    (dueDateClause { Typ := DueTomorrow, SpecificDate := sd } now t = true ↔
      ∃ d, t.DueDate = some d ∧ d.day = now.day + 1) ∧
    dueDateClause { Typ := DueToday, SpecificDate := sd } now
      { t with DueDate := some (now.startOfDay.AddDate 1) } = false ∧
    dueDateClause { Typ := DueTomorrow, SpecificDate := sd } now
      { t with DueDate := some (now.startOfDay.AddDate 1) } = true ∧
    ¬ (dueDateClause { Typ := DueToday, SpecificDate := sd } now t = true ∧
       dueDateClause { Typ := DueTomorrow, SpecificDate := sd } now t = true) ∧
    (∃ out, s.ListTodos (dueFilter DueToday) now none = .ok out ∧
      ∀ r, r ∈ out ↔ r ∈ s.rows ∧ ∃ d, r.DueDate = some d ∧ d.day = now.day) ∧
    (∃ out, s.ListTodos (dueFilter DueTomorrow) now none = .ok out ∧
      ∀ r, r ∈ out ↔ r ∈ s.rows ∧ ∃ d, r.DueDate = some d ∧ d.day = now.day + 1) := by
  refine ⟨?_, ?_, dueDateClause_today_iff sd now t, dueDateClause_tomorrow_iff sd now t,
    ?_, ?_, ?_, ?_, ?_⟩
  · rw [dueDateClause_today]
    cases t.DueDate with
    | none => simp [dueBetween]
    | some d => simp [dueBetween, Time.ge]
  · rw [dueDateClause_tomorrow]
    have h2 : (now.startOfDay.AddDate 1).AddDate 1 = now.startOfDay.AddDate 2 := by
      simp only [Time.AddDate, Time.startOfDay, Time.mk.injEq, and_true]
      omega
    rw [h2]
    cases t.DueDate with
    | none => simp [dueBetween]
    | some d => simp [dueBetween, Time.ge]
  · rw [Bool.eq_false_iff, Ne, dueDateClause_today_iff]
    rintro ⟨d, hd, hday⟩
    simp only [Option.some.injEq] at hd
    subst hd
    simp only [Time.AddDate, Time.startOfDay] at hday
    omega
  · rw [dueDateClause_tomorrow_iff]
    exact ⟨_, rfl, rfl⟩
  · rw [dueDateClause_today_iff, dueDateClause_tomorrow_iff]
    rintro ⟨⟨d, hd, hday⟩, ⟨e, he, heday⟩⟩
    rw [hd, Option.some.injEq] at he
    subst he
    omega
  · refine ⟨_, rfl, fun r => ?_⟩
    rw [mem_ListTodos s (dueFilter DueToday) now _ rfl, whereClause_dueFilter,
      dueDateClause_today_iff]
  · refine ⟨_, rfl, fun r => ?_⟩
    rw [mem_ListTodos s (dueFilter DueTomorrow) now _ rfl, whereClause_dueFilter,
      dueDateClause_tomorrow_iff]


/-! ## The cursor of the list view -/

theorem readTodo_append_range (heap todos : List Todo) :
    (List.range' heap.length todos.length).map (readTodo (heap ++ todos)) = todos := by
  apply List.ext_getElem
  · simp
  · intro i h1 h2
    simp [readTodo, List.getD, List.getElem?_append_right, List.getElem?_eq_getElem h2]

theorem loadTodosFn_ok (l : ListView) (heap : Heap) (db : SQLiteStorage) (env : Env)
    (todos : List Todo) (hload : db.ListTodos l.filter env.now (env.dbErr 0) = .ok todos) :
    l.loadTodosFn heap db env =
      ({ l with todos := List.range' heap.length todos.length,
                cursor := if l.cursor ≥ (todos.length : Int) then
                    max 0 ((todos.length : Int) - 1) else l.cursor },
       heap ++ todos, .todosLoadedMsg) := by
  simp only [ListView.loadTodosFn, hload]
  split <;> rfl

/-- C4: after a successful reload that returns `n` tasks the cursor is the
cursor before if that is below `n` and `max(0, n-1)` otherwise; so, for a
cursor that was not negative, it is at most `n-1` when `n > 0` and 0 when
`n = 0`.  The list view then holds the `n` tasks returned. -/
theorem C4_cursor_after_reload (l : ListView) (heap : Heap) (db : SQLiteStorage) (env : Env)
    (todos : List Todo) (hload : db.ListTodos l.filter env.now (env.dbErr 0) = .ok todos) :
    (l.loadTodosFn heap db env).2.2 = .todosLoadedMsg ∧
    (l.loadTodosFn heap db env).1.todos.map (readTodo (l.loadTodosFn heap db env).2.1) = todos ∧
    (l.loadTodosFn heap db env).1.cursor =
      (if l.cursor < (todos.length : Int) then l.cursor
       else max 0 ((todos.length : Int) - 1)) ∧
    (0 ≤ l.cursor → 0 < todos.length →
      (l.loadTodosFn heap db env).1.cursor ≤ (todos.length : Int) - 1) ∧
    (0 ≤ l.cursor → todos.length = 0 → (l.loadTodosFn heap db env).1.cursor = 0) := by
  rw [loadTodosFn_ok l heap db env todos hload]
  refine ⟨rfl, readTodo_append_range heap todos, ?_, ?_, ?_⟩
  · show (if l.cursor ≥ (todos.length : Int) then max 0 ((todos.length : Int) - 1)
      else l.cursor) = _
    unfold max
    split <;> split <;> omega
  · intro h0 hn
    show (if l.cursor ≥ (todos.length : Int) then max 0 ((todos.length : Int) - 1)
      else l.cursor) ≤ _
    unfold max
    split <;> (try split) <;> omega
  · intro h0 hn
    show (if l.cursor ≥ (todos.length : Int) then max 0 ((todos.length : Int) - 1)
      else l.cursor) = _
    unfold max
    split <;> (try split) <;> omega

/-- A reload that returns five tasks moves a cursor that stood at 7 to 4. -/
theorem C4_cursor_after_reload_witness :
    (sampleStore.ListTodos (sampleListView [] 7).filter sampleEnv.now (sampleEnv.dbErr 0)
      = .ok sampleStore.rows) ∧
    (((sampleListView [] 7).loadTodosFn [] sampleStore sampleEnv).2.2 = .todosLoadedMsg ∧
     ((sampleListView [] 7).loadTodosFn [] sampleStore sampleEnv).1.todos.map
        (readTodo ((sampleListView [] 7).loadTodosFn [] sampleStore sampleEnv).2.1)
        = sampleStore.rows ∧
     ((sampleListView [] 7).loadTodosFn [] sampleStore sampleEnv).1.cursor =
      (if (sampleListView [] 7).cursor < (sampleStore.rows.length : Int)
       then (sampleListView [] 7).cursor
       else max 0 ((sampleStore.rows.length : Int) - 1)) ∧
     (0 ≤ (sampleListView [] 7).cursor → 0 < sampleStore.rows.length →
       ((sampleListView [] 7).loadTodosFn [] sampleStore sampleEnv).1.cursor
         ≤ (sampleStore.rows.length : Int) - 1) ∧
     (0 ≤ (sampleListView [] 7).cursor → sampleStore.rows.length = 0 →
       ((sampleListView [] 7).loadTodosFn [] sampleStore sampleEnv).1.cursor = 0)) ∧
    ((sampleListView [] 7).loadTodosFn [] sampleStore sampleEnv).1.cursor = 4 :=
  ⟨by decide,
   C4_cursor_after_reload (sampleListView [] 7) [] sampleStore sampleEnv sampleStore.rows
     (by decide),
   by decide⟩

/-- C5: on a list of `n > 0` tasks with the cursor `c` in `[0, n)`, the keys
`j` and `down` set the cursor to `(c+1) mod n` and the keys `k` and `up` to
`(c-1+n) mod n`; on an empty list, the cursor being 0, all four leave it at 0.
Nothing else of the list view changes and no command is returned. -/
theorem C5_cursor_wraps (l : ListView) (key : String) :
    (0 < l.todos.length → 0 ≤ l.cursor → l.cursor < (l.todos.length : Int) →
      ((key = "j" ∨ key = "down") →
        l.Update (.KeyMsg key)
          = ({ l with cursor := (l.cursor + 1) % (l.todos.length : Int) }, [])) ∧
      ((key = "k" ∨ key = "up") →
        l.Update (.KeyMsg key)
          = ({ l with cursor := (l.cursor - 1 + (l.todos.length : Int)) % (l.todos.length : Int) },
             []))) ∧
    (l.todos.length = 0 → l.cursor = 0 →
      (key = "j" ∨ key = "down" ∨ key = "k" ∨ key = "up") →
        l.Update (.KeyMsg key) = (l, [])) := by
  refine ⟨fun hn h0 hc => ⟨?_, ?_⟩, ?_⟩
  · intro hkey
    have hstep : (if l.cursor + 1 ≥ (l.todos.length : Int) then (0 : Int) else l.cursor + 1)
        = (l.cursor + 1) % (l.todos.length : Int) := by
      split
      · have : l.cursor + 1 = (l.todos.length : Int) := by omega
        rw [this, Int.emod_self]
      · rw [Int.emod_eq_of_lt (by omega) (by omega)]
    rw [← hstep]
    rcases hkey with rfl | rfl <;> simp +decide only [ListView.Update, if_true, if_false,
      or_true, true_or] <;> split <;> rfl
  · intro hkey
    have hstep : (if l.cursor - 1 < 0 then max 0 ((l.todos.length : Int) - 1) else l.cursor - 1)
        = (l.cursor - 1 + (l.todos.length : Int)) % (l.todos.length : Int) := by
      unfold max
      split
      · have hc0 : l.cursor = 0 := by omega
        rw [hc0]
        rw [Int.emod_eq_of_lt (by omega) (by omega)]
        split <;> omega
      · rw [Int.add_emod_self, Int.emod_eq_of_lt (by omega) (by omega)]
    rw [← hstep]
    rcases hkey with rfl | rfl <;> simp +decide only [ListView.Update, if_true, if_false,
      or_true, true_or] <;> split <;> rfl
  · intro hn hc hkey
    rcases hkey with rfl | rfl | rfl | rfl <;>
      simp +decide [ListView.Update, hn, hc, max] <;> (cases l; simp_all)

/-- On a list of three tasks, `down` moves the cursor from the last row to
the first. -/
theorem C5_cursor_wraps_witness :
    (0 < (sampleListView [0, 1, 2] 2).todos.length ∧ 0 ≤ (sampleListView [0, 1, 2] 2).cursor
      ∧ (sampleListView [0, 1, 2] 2).cursor < ((sampleListView [0, 1, 2] 2).todos.length : Int)) ∧
    (sampleListView [0, 1, 2] 2).Update (.KeyMsg "down")
      = ({ sampleListView [0, 1, 2] 2 with
           cursor := ((sampleListView [0, 1, 2] 2).cursor + 1)
             % ((sampleListView [0, 1, 2] 2).todos.length : Int) }, []) ∧
    ((sampleListView [0, 1, 2] 2).Update (.KeyMsg "down")).1.cursor = 0 :=
  ⟨by decide,
   ((C5_cursor_wraps (sampleListView [0, 1, 2] 2) "down").1 (by decide) (by decide)
     (by decide)).1 (Or.inr rfl),
   by decide⟩


/-! ## Bulk delete -/

theorem Delete_ok (db db1 : SQLiteStorage) (id : Int) (e : Option String)
    (h : db.Delete id e = .ok db1) :
    db1.rows = db.rows.filter (fun r => decide (r.ID ≠ id)) := by
  unfold SQLiteStorage.Delete at h
  split at h
  · exact absurd h (by simp)
  · split at h
    · simp only [Except.ok.injEq] at h
      rw [← h]
    · exact absurd h (by simp)

theorem deleteLoop_calls (dbErr : Nat → Option String) (ids : List Int) (k : Nat)
    (db : SQLiteStorage) :
    ∃ n, (deleteLoop dbErr k ids db).2.2 = (ids.take n).map StoreCall.Delete := by
  induction ids generalizing k db with
  | nil => exact ⟨0, rfl⟩
  | cons id ids ih =>
    unfold deleteLoop
    cases hd : db.Delete id (dbErr k) with
    | error e => exact ⟨1, by simp⟩
    | ok db1 =>
      obtain ⟨n, hn⟩ := ih (k + 1) db1
      exact ⟨n + 1, by simp [hn]⟩

theorem deleteLoop_ok (dbErr : Nat → Option String) (ids : List Int) (k : Nat)
    (db : SQLiteStorage) (h : (deleteLoop dbErr k ids db).2.1 = none) :
    (deleteLoop dbErr k ids db).2.2 = ids.map StoreCall.Delete ∧
    (deleteLoop dbErr k ids db).1.rows = db.rows.filter (fun r => decide (r.ID ∉ ids)) := by
  induction ids generalizing k db with
  | nil => simp [deleteLoop]
  | cons id ids ih =>
    unfold deleteLoop at h ⊢
    cases hd : db.Delete id (dbErr k) with
    | error e => simp [hd] at h
    | ok db1 =>
      simp only [hd] at h ⊢
      obtain ⟨hc, hr⟩ := ih (k + 1) db1 h
      refine ⟨by simp [hc], ?_⟩
      rw [hr, Delete_ok db db1 id _ hd, List.filter_filter]
      congr 1
      funext r
      simp only [List.mem_cons, not_or, Bool.decide_and, Bool.and_comm]

/-- Bulk delete dispatches the loop over the marked set when that set is not
empty, and otherwise a delete of the task `SelectedTodo` returns, or nothing
when it returns none.  The loop calls `Delete` for marked identifiers only,
one after the other, up to the first that fails; when every delete has
succeeded it has called `Delete` for each marked identifier, no row with such
an identifier is left in the store and the marked set is empty.  The single
delete calls `Delete` for its task alone and, when it succeeds, leaves no row
with its identifier. -/
theorem bulk_delete_run (w : World) (env : Env)
    (horder : (env.rangeOrder w.app.list.selected).Perm w.app.list.selected) :
    (w.app.list.selected ≠ [] →
      w.app.list.deleteSelected = [.deleteAllSelected] ∧
      (∃ n, (runCmd env .deleteAllSelected w).2.2
          = ((env.rangeOrder w.app.list.selected).take n).map StoreCall.Delete) ∧
      ((runCmd env .deleteAllSelected w).2.1 = some .todoDeletedMsg →
        (runCmd env .deleteAllSelected w).2.2
          = (env.rangeOrder w.app.list.selected).map StoreCall.Delete ∧
        (∀ id ∈ w.app.list.selected, ∀ r ∈ (runCmd env .deleteAllSelected w).1.db.rows,
          r.ID ≠ id) ∧
        (∀ r ∈ w.db.rows, r.ID ∉ w.app.list.selected →
          r ∈ (runCmd env .deleteAllSelected w).1.db.rows) ∧
        (runCmd env .deleteAllSelected w).1.app.list.selected = [])) ∧
    (w.app.list.selected = [] →
      (w.app.list.SelectedTodo = none → w.app.list.deleteSelected = []) ∧
      (w.app.list.todos = [] → w.app.list.SelectedTodo = none) ∧
      ∀ p, w.app.list.SelectedTodo = some p →
        w.app.list.deleteSelected = [.deleteCurrent p] ∧
        (runCmd env (.deleteCurrent p) w).2.2 = [.Delete (readTodo w.heap p).ID] ∧
        ((runCmd env (.deleteCurrent p) w).2.1 = some .todoDeletedMsg →
          (∀ r ∈ (runCmd env (.deleteCurrent p) w).1.db.rows, r.ID ≠ (readTodo w.heap p).ID) ∧
          (∀ r ∈ w.db.rows, r.ID ≠ (readTodo w.heap p).ID →
            r ∈ (runCmd env (.deleteCurrent p) w).1.db.rows) ∧
          (runCmd env (.deleteCurrent p) w).1.app.list.selected = [])) := by
  constructor
  · intro hsel
    have hlen : w.app.list.selected.length ≠ 0 := fun h => hsel (List.length_eq_zero.mp h)
    refine ⟨by simp [ListView.deleteSelected, hlen], ?_, ?_⟩
    · obtain ⟨n, hn⟩ := deleteLoop_calls env.dbErr (env.rangeOrder w.app.list.selected) 0 w.db
      refine ⟨n, ?_⟩
      simp only [runCmd, deleteAllSelectedFn]
      rw [← hn]
      split <;> simp_all
    · intro hmsg
      cases herr : (deleteLoop env.dbErr 0 (env.rangeOrder w.app.list.selected) w.db).2.1 with
      | some e =>
        simp only [runCmd, deleteAllSelectedFn] at hmsg
        split at hmsg <;> simp_all
      | none =>
        obtain ⟨hc, hr⟩ := deleteLoop_ok env.dbErr _ 0 w.db herr
        have hrun : runCmd env .deleteAllSelected w =
            ({ w with app := { w.app with list := { w.app.list with selected := [] } },
                      db := (deleteLoop env.dbErr 0 (env.rangeOrder w.app.list.selected) w.db).1 },
             some .todoDeletedMsg,
             (deleteLoop env.dbErr 0 (env.rangeOrder w.app.list.selected) w.db).2.2) := by
          simp only [runCmd, deleteAllSelectedFn]
          split <;> simp_all
        rw [hrun]
        refine ⟨hc, ?_, ?_, rfl⟩
        · intro id hid r hr'
          simp only [hr, List.mem_filter, decide_eq_true_eq] at hr'
          intro h
          exact hr'.2 (horder.mem_iff.mpr (h ▸ hid))
        · intro r hr' hnot
          simp only [hr, List.mem_filter, decide_eq_true_eq]
          exact ⟨hr', fun h => hnot (horder.mem_iff.mp h)⟩
  · intro hsel
    refine ⟨fun hnone => by simp [ListView.deleteSelected, hsel, hnone], ?_, ?_⟩
    · intro ht
      simp [ListView.SelectedTodo, ht]
    · intro p hp
      refine ⟨by simp [ListView.deleteSelected, hsel, hp], ?_, ?_⟩
      · simp only [runCmd, deleteCurrentFn]
        split <;> rfl
      · intro hmsg
        simp only [runCmd, deleteCurrentFn] at hmsg ⊢
        cases hd : w.db.Delete (readTodo w.heap p).ID (env.dbErr 0) with
        | error e => simp [hd] at hmsg
        | ok db1 =>
          simp only [hd]
          have hr := Delete_ok w.db db1 _ _ hd
          refine ⟨?_, ?_, hsel⟩
          · intro r hr'
            simp only [hr, List.mem_filter, decide_eq_true_eq] at hr'
            exact hr'.2
          · intro r hr' hne
            simp only [hr, List.mem_filter, decide_eq_true_eq]
            exact ⟨hr', hne⟩


/-- The task `SelectedTodo` returns is the one at the cursor: `l.todos[l.cursor]`
when the cursor is a row of the list, none otherwise. -/
theorem SelectedTodo_cursor (l : ListView) :
    (l.SelectedTodo = none ↔ (l.cursor < 0 ∨ l.cursor ≥ (l.todos.length : Int))) ∧
    (∀ p, l.SelectedTodo = some p ↔
      (0 ≤ l.cursor ∧ l.cursor < (l.todos.length : Int)
        ∧ l.todos.get? l.cursor.toNat = some p)) ∧
    (l.todos = [] → l.SelectedTodo = none) := by
  unfold ListView.SelectedTodo
  by_cases h : l.cursor < 0 ∨ l.cursor ≥ (l.todos.length : Int)
  · simp only [h, if_true, true_iff, false_iff, not_and, true_and]
    refine ⟨fun p => ?_, fun _ => trivial⟩
    simp only [reduceCtorEq, false_iff, not_and]
    intro h0 h1
    omega
  · simp only [h, if_false, iff_false]
    have hlt : l.cursor.toNat < l.todos.length := by omega
    refine ⟨?_, fun p => ?_, fun hnil => ?_⟩
    · rw [List.get?_eq_get hlt]
      simp
    · constructor
      · intro hp
        exact ⟨by omega, by omega, hp⟩
      · intro hp
        exact hp.2.2
    · rw [hnil] at h
      simp at h
      omega

theorem updateList_key_D (host : Host) (a : App) (heap : Heap) (hv : a.view = .ViewList) :
    App.Update host a heap (.KeyMsg "D") = (a, heap, a.list.deleteSelected) := by
  have h1 : ("D" : String) ≠ "ctrl+c" := by decide
  have h2 : ¬ (("D" : String) = "q" ∨ ("D" : String) = "esc") := by decide
  have h3 : ("D" : String) ≠ "enter" := by decide
  have h4 : ("D" : String) ≠ "n" := by decide
  have h5 : ("D" : String) ≠ "e" := by decide
  have h6 : ("D" : String) ≠ "/" := by decide
  have h7 : ("D" : String) ≠ "t" := by decide
  have h8 : ("D" : String) ≠ " " := by decide
  have h9 : ("D" : String) ≠ "x" := by decide
  simp only [App.Update, h1, if_false, App.route, hv, App.updateList, h2, h3, h4, h5, h6, h7, h8,
    h9, if_true]

/-- C6: in the list view the key `D` dispatches what `deleteSelected` returns:
the loop over the marked set when that set is not empty, and otherwise a
delete of the task at the cursor, `l.todos[l.cursor]`, or nothing when the
cursor is on no row, as in an empty list.  The loop calls `Delete` for marked
identifiers only, one after the other, up to the first that fails; when every
delete has succeeded it has called `Delete` for each marked identifier, no row
with such an identifier is left in the store, every other row is left, and the
marked set is empty.  The delete of the task at the cursor calls `Delete` for
the identifier of that task alone and, when it succeeds, leaves no row with
that identifier and every other row. -/
theorem C6_bulk_delete (host : Host) (w : World) (env : Env)
    (horder : (env.rangeOrder w.app.list.selected).Perm w.app.list.selected) :
    (w.app.view = .ViewList →
      App.Update host w.app w.heap (.KeyMsg "D") = (w.app, w.heap, w.app.list.deleteSelected)) ∧
    (w.app.list.selected ≠ [] →
      w.app.list.deleteSelected = [.deleteAllSelected] ∧
      (∃ n, (runCmd env .deleteAllSelected w).2.2
          = ((env.rangeOrder w.app.list.selected).take n).map StoreCall.Delete) ∧
      ((runCmd env .deleteAllSelected w).2.1 = some .todoDeletedMsg →
        (runCmd env .deleteAllSelected w).2.2
          = (env.rangeOrder w.app.list.selected).map StoreCall.Delete ∧
        (∀ id ∈ w.app.list.selected, ∀ r ∈ (runCmd env .deleteAllSelected w).1.db.rows,
          r.ID ≠ id) ∧
        (∀ r ∈ w.db.rows, r.ID ∉ w.app.list.selected →
          r ∈ (runCmd env .deleteAllSelected w).1.db.rows) ∧
        (runCmd env .deleteAllSelected w).1.app.list.selected = [])) ∧
    (w.app.list.selected = [] →
      (w.app.list.todos = [] → w.app.list.deleteSelected = []) ∧
      ((w.app.list.cursor < 0 ∨ w.app.list.cursor ≥ (w.app.list.todos.length : Int)) →
        w.app.list.deleteSelected = []) ∧
      ∀ p, (0 ≤ w.app.list.cursor ∧ w.app.list.cursor < (w.app.list.todos.length : Int)
          ∧ w.app.list.todos.get? w.app.list.cursor.toNat = some p) →
        w.app.list.deleteSelected = [.deleteCurrent p] ∧
        (runCmd env (.deleteCurrent p) w).2.2 = [.Delete (readTodo w.heap p).ID] ∧
        ((runCmd env (.deleteCurrent p) w).2.1 = some .todoDeletedMsg →
          (∀ r ∈ (runCmd env (.deleteCurrent p) w).1.db.rows, r.ID ≠ (readTodo w.heap p).ID) ∧
          (∀ r ∈ w.db.rows, r.ID ≠ (readTodo w.heap p).ID →
            r ∈ (runCmd env (.deleteCurrent p) w).1.db.rows) ∧
          (runCmd env (.deleteCurrent p) w).1.app.list.selected = [])) ∧
    (∀ p, w.app.list.SelectedTodo = some p ↔
      (0 ≤ w.app.list.cursor ∧ w.app.list.cursor < (w.app.list.todos.length : Int)
        ∧ w.app.list.todos.get? w.app.list.cursor.toNat = some p)) := by
  obtain ⟨hmarked, hcursor⟩ := bulk_delete_run w env horder
  obtain ⟨hnone, hsome, hempty⟩ := SelectedTodo_cursor w.app.list
  refine ⟨updateList_key_D host w.app w.heap, hmarked, fun hsel => ?_, hsome⟩
  obtain ⟨h1, -, h3⟩ := hcursor hsel
  exact ⟨fun ht => h1 (hempty ht), fun hout => h1 (hnone.mpr hout),
    fun p hp => h3 p ((hsome p).mpr hp)⟩

/-- With the tasks 2 and 4 of five marked, the key `D` dispatches the loop,
which removes these two rows and empties the marked set; with no task marked
and the cursor on the third task it dispatches the delete of that task, which
removes the row 3. -/
theorem C6_bulk_delete_witness :
    ((sampleEnv.rangeOrder sampleWorld.app.list.selected).Perm sampleWorld.app.list.selected ∧
     sampleWorld.app.view = .ViewList ∧ sampleWorld.app.list.selected ≠ [] ∧
     (runCmd sampleEnv .deleteAllSelected sampleWorld).2.1 = some .todoDeletedMsg) ∧
    App.Update sampleHost sampleWorld.app sampleWorld.heap (.KeyMsg "D")
      = (sampleWorld.app, sampleWorld.heap, [.deleteAllSelected]) ∧
    ((runCmd sampleEnv .deleteAllSelected sampleWorld).2.2 = [.Delete 2, .Delete 4] ∧
     (∀ id ∈ sampleWorld.app.list.selected,
       ∀ r ∈ (runCmd sampleEnv .deleteAllSelected sampleWorld).1.db.rows, r.ID ≠ id) ∧
     (∀ r ∈ sampleWorld.db.rows, r.ID ∉ sampleWorld.app.list.selected →
       r ∈ (runCmd sampleEnv .deleteAllSelected sampleWorld).1.db.rows) ∧
     (runCmd sampleEnv .deleteAllSelected sampleWorld).1.app.list.selected = []) ∧
    (runCmd sampleEnv .deleteAllSelected sampleWorld).1.db.rows.map (fun r => r.ID) = [1, 3, 5] ∧
    (cursorWorld.app.list.selected = [] ∧ cursorWorld.app.list.cursor = 2 ∧
     cursorWorld.app.list.todos.get? 2 = some 2 ∧ (readTodo cursorWorld.heap 2).ID = 3) ∧
    App.Update sampleHost cursorWorld.app cursorWorld.heap (.KeyMsg "D")
      = (cursorWorld.app, cursorWorld.heap, [.deleteCurrent 2]) ∧
    (cursorWorld.app.list.deleteSelected = [.deleteCurrent 2] ∧
     (runCmd sampleEnv (.deleteCurrent 2) cursorWorld).2.2
       = [.Delete (readTodo cursorWorld.heap 2).ID] ∧
     ((runCmd sampleEnv (.deleteCurrent 2) cursorWorld).2.1 = some .todoDeletedMsg →
       (∀ r ∈ (runCmd sampleEnv (.deleteCurrent 2) cursorWorld).1.db.rows,
         r.ID ≠ (readTodo cursorWorld.heap 2).ID) ∧
       (∀ r ∈ cursorWorld.db.rows, r.ID ≠ (readTodo cursorWorld.heap 2).ID →
         r ∈ (runCmd sampleEnv (.deleteCurrent 2) cursorWorld).1.db.rows) ∧
       (runCmd sampleEnv (.deleteCurrent 2) cursorWorld).1.app.list.selected = [])) ∧
    (runCmd sampleEnv (.deleteCurrent 2) cursorWorld).1.db.rows.map (fun r => r.ID)
      = [1, 2, 4, 5] :=
  ⟨⟨List.Perm.refl _, by decide, by decide, by decide⟩,
   (C6_bulk_delete sampleHost sampleWorld sampleEnv (List.Perm.refl _)).1 (by decide),
   ((C6_bulk_delete sampleHost sampleWorld sampleEnv (List.Perm.refl _)).2.1
     (by decide)).2.2 (by decide),
   by decide,
   ⟨by decide, by decide, by decide, by decide⟩,
   (C6_bulk_delete sampleHost cursorWorld sampleEnv (List.Perm.refl _)).1 (by decide),
   ((C6_bulk_delete sampleHost cursorWorld sampleEnv (List.Perm.refl _)).2.2.1
     (by decide)).2.2 2 (by decide),
   by decide⟩

/-! ## Completion -/

theorem readTodo_writeTodo_same (heap : Heap) (p : Ptr) (t : Todo) (hp : p < heap.length) :
    readTodo (writeTodo heap p t) p = t := by
  simp [readTodo, writeTodo, List.getD, List.getElem?_set, hp]

theorem readTodo_writeTodo_other (heap : Heap) (p q : Ptr) (t : Todo) (hq : q ≠ p) :
    readTodo (writeTodo heap p t) q = readTodo heap q := by
  simp [readTodo, writeTodo, List.getD, List.getElem?_set, Ne.symm hq]

theorem length_writeTodo (heap : Heap) (p : Ptr) (t : Todo) :
    (writeTodo heap p t).length = heap.length := by
  simp [writeTodo]

theorem Update_snd (db : SQLiteStorage) (todo : Todo) (now : Time) (e : Option String) :
    (db.Update todo now e).2 = { todo with UpdatedAt := now } := by
  unfold SQLiteStorage.Update
  cases e with
  | some e => rfl
  | none => simp only []; split <;> rfl

theorem Update_ok (db db1 : SQLiteStorage) (todo : Todo) (now : Time) (e : Option String)
    (h : (db.Update todo now e).1 = .ok db1) :
    db1.rows = db.rows.map (fun r =>
      if r.ID = todo.ID then { todo with UpdatedAt := now, CreatedAt := r.CreatedAt } else r) := by
  unfold SQLiteStorage.Update at h
  cases e with
  | some e => simp at h
  | none =>
    simp only [] at h
    split at h
    · simp only [Except.ok.injEq] at h
      rw [← h]
    · simp at h

/-- What the closure of `toggleComplete` leaves at the address of its task. -/
theorem toggleCompleteFn_heap (p : Ptr) (heap : Heap) (db : SQLiteStorage) (env : Env) :
    (toggleCompleteFn p heap db env).1 =
      writeTodo heap p { toggleCompleted (readTodo heap p) env.nowUTC with
        UpdatedAt := env.nowUTC } := by
  have h := Update_snd db (toggleCompleted (readTodo heap p) env.nowUTC) env.nowUTC (env.dbErr 0)
  unfold toggleCompleteFn
  simp only []
  split <;> rename_i heq <;> rw [heq] at h <;> simp only [] at h <;> rw [h]

/-- What the closure of `toggleComplete` leaves in the store when its update
succeeds. -/
theorem toggleCompleteFn_db (p : Ptr) (heap : Heap) (db : SQLiteStorage) (env : Env)
    (h : (toggleCompleteFn p heap db env).2.2.1 = .todoUpdatedMsg) :
    (toggleCompleteFn p heap db env).2.1.rows = db.rows.map (fun r =>
      if r.ID = (readTodo heap p).ID then
        { toggleCompleted (readTodo heap p) env.nowUTC with
          UpdatedAt := env.nowUTC, CreatedAt := r.CreatedAt }
      else r) := by
  unfold toggleCompleteFn at h ⊢
  simp only [] at h ⊢
  split at h
  · simp at h
  · rename_i db1 todo1 heq
    have := Update_ok db db1 _ env.nowUTC (env.dbErr 0) (by rw [heq])
    show db1.rows = _
    rw [this]
    have hid : (toggleCompleted (readTodo heap p) env.nowUTC).ID = (readTodo heap p).ID := by
      unfold toggleCompleted
      simp only []
      split <;> rfl
    simp only [hid]

theorem toggleCompleted_Completed (t : Todo) (now : Time) :
    (toggleCompleted t now).Completed = !t.Completed := by
  unfold toggleCompleted
  simp only []
  split <;> rfl

theorem toggleCompleted_CompletedAt (t : Todo) (now : Time) :
    (toggleCompleted t now).CompletedAt = if t.Completed then none else some now := by
  unfold toggleCompleted
  cases h : t.Completed <;> simp

theorem toggleCompleted_ID (t : Todo) (now : Time) : (toggleCompleted t now).ID = t.ID := by
  unfold toggleCompleted
  simp only []
  split <;> rfl

/-- The toggle commands of the list view and of the detail view run the same
closure on the task they refer to. -/
theorem runCmd_toggle (env : Env) (c : Cmd) (w : World) (p : Ptr)
    (hc : c = .listToggleComplete p ∨ (c = .detailToggleComplete ∧ w.app.detail.todo = some p)) :
    runCmd env c w =
      ({ w with heap := (toggleCompleteFn p w.heap w.db env).1,
                db := (toggleCompleteFn p w.heap w.db env).2.1 },
       some (toggleCompleteFn p w.heap w.db env).2.2.1,
       (toggleCompleteFn p w.heap w.db env).2.2.2) := by
  rcases hc with rfl | ⟨rfl, hd⟩
  · rfl
  · simp only [runCmd, hd]

/-- C7, as stated, fails for a task that is already completed: after two
toggles, both updates succeeding, the task is completed again but its
completion time is that of the second toggle, not the original one. -/
theorem C7_counterexample :
    (runCmd sampleEnv (.listToggleComplete 0) completedWorld).2.1 = some .todoUpdatedMsg ∧
    (runCmd laterEnv (.listToggleComplete 0)
      (runCmd sampleEnv (.listToggleComplete 0) completedWorld).1).2.1 = some .todoUpdatedMsg ∧
    (readTodo (runCmd laterEnv (.listToggleComplete 0)
      (runCmd sampleEnv (.listToggleComplete 0) completedWorld).1).1.heap 0).Completed
      = (readTodo completedWorld.heap 0).Completed ∧
    (readTodo completedWorld.heap 0).CompletedAt = some { day := 20400, nsec := 0 } ∧
    (readTodo (runCmd laterEnv (.listToggleComplete 0)
      (runCmd sampleEnv (.listToggleComplete 0) completedWorld).1).1.heap 0).CompletedAt
      = some { day := 20501, nsec := 28800000000000 } := by
  decide

/-- C7, amended: toggle-complete applied twice to a task, from the list or
from the detail view, returns the task to its original completed flag; its
completion time is then absent if the task was pending, which is the original
one for a task that had none, and the time of the second toggle if the task
was completed.  When both updates succeed the stored row agrees. -/
theorem C7_toggle_twice (w : World) (env1 env2 : Env) (c : Cmd) (p : Ptr)
    (hp : p < w.heap.length)
    (hc : c = .listToggleComplete p ∨ (c = .detailToggleComplete ∧ w.app.detail.todo = some p))
    (h1 : (runCmd env1 c w).2.1 = some .todoUpdatedMsg)
    (h2 : (runCmd env2 c (runCmd env1 c w).1).2.1 = some .todoUpdatedMsg) :
    (readTodo (runCmd env2 c (runCmd env1 c w).1).1.heap p).Completed
      = (readTodo w.heap p).Completed ∧
    (readTodo (runCmd env2 c (runCmd env1 c w).1).1.heap p).CompletedAt
      = (if (readTodo w.heap p).Completed then some env2.nowUTC else none) ∧
    ((readTodo w.heap p).Completed = false → (readTodo w.heap p).CompletedAt = none →
      (readTodo (runCmd env2 c (runCmd env1 c w).1).1.heap p).CompletedAt
        = (readTodo w.heap p).CompletedAt) ∧
    (∀ r ∈ (runCmd env2 c (runCmd env1 c w).1).1.db.rows, r.ID = (readTodo w.heap p).ID →
      r.Completed = (readTodo w.heap p).Completed ∧
      r.CompletedAt = (if (readTodo w.heap p).Completed then some env2.nowUTC else none)) := by
  have hc1 : c = .listToggleComplete p ∨
      (c = .detailToggleComplete ∧ (runCmd env1 c w).1.app.detail.todo = some p) := by
    rcases hc with h | ⟨h, hd⟩
    · exact Or.inl h
    · exact Or.inr ⟨h, by rw [runCmd_toggle env1 c w p (Or.inr ⟨h, hd⟩)]; exact hd⟩
  rw [runCmd_toggle env2 c _ p hc1] at h2 ⊢
  rw [runCmd_toggle env1 c w p hc] at h1 h2 ⊢
  simp only [Option.some.injEq] at h1 h2
  simp only []
  have hheap1 := toggleCompleteFn_heap p w.heap w.db env1
  have hread1 : readTodo (toggleCompleteFn p w.heap w.db env1).1 p
      = { toggleCompleted (readTodo w.heap p) env1.nowUTC with UpdatedAt := env1.nowUTC } := by
    rw [hheap1]
    exact readTodo_writeTodo_same _ _ _ hp
  have hp1 : p < (toggleCompleteFn p w.heap w.db env1).1.length := by
    rw [hheap1, length_writeTodo]
    exact hp
  have hread2 : readTodo (toggleCompleteFn p (toggleCompleteFn p w.heap w.db env1).1
        (toggleCompleteFn p w.heap w.db env1).2.1 env2).1 p
      = { toggleCompleted (readTodo (toggleCompleteFn p w.heap w.db env1).1 p) env2.nowUTC with
          UpdatedAt := env2.nowUTC } := by
    rw [toggleCompleteFn_heap]
    exact readTodo_writeTodo_same _ _ _ hp1
  have hflag : (toggleCompleted (readTodo (toggleCompleteFn p w.heap w.db env1).1 p)
      env2.nowUTC).Completed = (readTodo w.heap p).Completed := by
    rw [toggleCompleted_Completed, hread1]
    simp only [toggleCompleted_Completed, Bool.not_not]
  have htime : (toggleCompleted (readTodo (toggleCompleteFn p w.heap w.db env1).1 p)
      env2.nowUTC).CompletedAt
        = (if (readTodo w.heap p).Completed then some env2.nowUTC else none) := by
    rw [toggleCompleted_CompletedAt, hread1]
    simp only [toggleCompleted_Completed]
    cases (readTodo w.heap p).Completed <;> simp
  refine ⟨?_, ?_, ?_, ?_⟩
  · rw [hread2]
    exact hflag
  · rw [hread2]
    exact htime
  · intro hpend hnone
    rw [hread2]
    simp only [htime, hpend, hnone]
    rfl
  · intro r hr hid
    rw [toggleCompleteFn_db _ _ _ _ h2, toggleCompleteFn_db _ _ _ _ h1] at hr
    simp only [List.map_map, List.mem_map, Function.comp] at hr
    obtain ⟨r0, -, rfl⟩ := hr
    have hid1 : (readTodo (toggleCompleteFn p w.heap w.db env1).1 p).ID = (readTodo w.heap p).ID := by
      rw [hread1]
      exact toggleCompleted_ID _ _
    by_cases h0 : r0.ID = (readTodo w.heap p).ID
    · simp only [h0, if_true, toggleCompleted_ID, hid1]
      exact ⟨hflag, htime⟩
    · simp only [h0, if_false, hid1] at hid

/-- Two toggles of a completed task, a day apart: the task is completed again,
at the time of the second toggle. -/
theorem C7_toggle_twice_witness :
    (0 < completedWorld.heap.length ∧
     (runCmd sampleEnv (.listToggleComplete 0) completedWorld).2.1 = some .todoUpdatedMsg ∧
     (runCmd laterEnv (.listToggleComplete 0)
       (runCmd sampleEnv (.listToggleComplete 0) completedWorld).1).2.1
         = some .todoUpdatedMsg) ∧
    ((readTodo (runCmd laterEnv (.listToggleComplete 0)
        (runCmd sampleEnv (.listToggleComplete 0) completedWorld).1).1.heap 0).Completed
        = (readTodo completedWorld.heap 0).Completed ∧
     (readTodo (runCmd laterEnv (.listToggleComplete 0)
        (runCmd sampleEnv (.listToggleComplete 0) completedWorld).1).1.heap 0).CompletedAt
        = (if (readTodo completedWorld.heap 0).Completed then some laterEnv.nowUTC else none) ∧
     ((readTodo completedWorld.heap 0).Completed = false →
       (readTodo completedWorld.heap 0).CompletedAt = none →
       (readTodo (runCmd laterEnv (.listToggleComplete 0)
          (runCmd sampleEnv (.listToggleComplete 0) completedWorld).1).1.heap 0).CompletedAt
          = (readTodo completedWorld.heap 0).CompletedAt) ∧
     (∀ r ∈ (runCmd laterEnv (.listToggleComplete 0)
          (runCmd sampleEnv (.listToggleComplete 0) completedWorld).1).1.db.rows,
       r.ID = (readTodo completedWorld.heap 0).ID →
       r.Completed = (readTodo completedWorld.heap 0).Completed ∧
       r.CompletedAt
         = (if (readTodo completedWorld.heap 0).Completed then some laterEnv.nowUTC else none))) :=
  ⟨⟨by decide, by decide, by decide⟩,
   C7_toggle_twice completedWorld sampleEnv laterEnv (.listToggleComplete 0) 0 (by decide)
     (Or.inl rfl) (by decide) (by decide)⟩


theorem completionInvariant_toggleCompleted (t : Todo) (now : Time) :
    completionInvariant (toggleCompleted t now) = true := by
  unfold completionInvariant toggleCompleted
  cases h : t.Completed <;> simp [h]

theorem completionInvariant_stamp (t : Todo) (updated created : Time) :
    completionInvariant { t with UpdatedAt := updated, CreatedAt := created }
      = completionInvariant t := rfl

theorem Update_rows_invariant (db db1 : SQLiteStorage) (todo : Todo) (now : Time)
    (e : Option String) (h : (db.Update todo now e).1 = .ok db1)
    (htodo : completionInvariant todo = true)
    (hdb : ∀ r ∈ db.rows, completionInvariant r = true) :
    ∀ r ∈ db1.rows, completionInvariant r = true := by
  intro r hr
  rw [Update_ok db db1 todo now e h, List.mem_map] at hr
  obtain ⟨r0, hr0, rfl⟩ := hr
  split
  · exact htodo
  · exact hdb r0 hr0

theorem Update_rows_of_id (db db1 : SQLiteStorage) (todo : Todo) (now : Time)
    (e : Option String) (h : (db.Update todo now e).1 = .ok db1) :
    ∀ r ∈ db1.rows, r.ID = todo.ID →
      r.Completed = todo.Completed ∧ r.CompletedAt = todo.CompletedAt := by
  intro r hr hid
  rw [Update_ok db db1 todo now e h, List.mem_map] at hr
  obtain ⟨r0, -, rfl⟩ := hr
  split at hid
  · rename_i h0
    rw [if_pos h0]
    exact ⟨rfl, rfl⟩
  · rename_i h0
    exact absurd hid h0

theorem GetByID_ok (db : SQLiteStorage) (id : Int) (e : Option String) (t : Todo)
    (h : db.GetByID id e = .ok t) : t ∈ db.rows ∧ t.ID = id := by
  unfold SQLiteStorage.GetByID at h
  cases e with
  | some e => simp at h
  | none =>
    simp only [] at h
    cases hf : db.rows.find? (fun r => decide (r.ID = id)) with
    | none => simp [hf] at h
    | some t0 =>
      simp only [hf, Except.ok.injEq] at h
      subst h
      exact ⟨List.mem_of_find?_eq_some hf, by simpa using List.find?_some hf⟩

theorem toggleCompleteFn_rows_invariant (p : Ptr) (heap : Heap) (db : SQLiteStorage) (env : Env)
    (hdb : ∀ r ∈ db.rows, completionInvariant r = true) :
    ∀ r ∈ (toggleCompleteFn p heap db env).2.1.rows, completionInvariant r = true := by
  unfold toggleCompleteFn
  simp only []
  split
  · exact hdb
  · rename_i db1 todo1 heq
    exact Update_rows_invariant db db1 _ env.nowUTC (env.dbErr 0) (by rw [heq])
      (completionInvariant_toggleCompleted _ _) hdb

theorem completeCmd_cases (db : SQLiteStorage) (arg : String) (env : Env) :
    (completeCmd db arg env).2 = db ∨
    ∃ id t db1, ParseInt arg = some id ∧ db.GetByID id (env.dbErr 0) = .ok t ∧
      t.Completed = false ∧
      (db.Update { t with Completed := true, CompletedAt := some env.nowUTC } env.nowUTC
        (env.dbErr 1)).1 = .ok db1 ∧
      (completeCmd db arg env).2 = db1 := by
  unfold completeCmd
  cases hparse : ParseInt arg with
  | none => exact Or.inl rfl
  | some id =>
    simp only []
    cases hget : db.GetByID id (env.dbErr 0) with
    | error e => exact Or.inl rfl
    | ok t =>
      simp only []
      cases hcompl : t.Completed with
      | true => exact Or.inl (by simp)
      | false =>
        simp only [Bool.false_eq_true, if_false]
        split
        · exact Or.inl rfl
        · rename_i db1 todo1 heq
          exact Or.inr ⟨id, t, db1, rfl, hget, hcompl, by rw [heq], rfl⟩

theorem reopenCmd_cases (db : SQLiteStorage) (arg : String) (env : Env) :
    (reopenCmd db arg env).2 = db ∨
    ∃ id t db1, ParseInt arg = some id ∧ db.GetByID id (env.dbErr 0) = .ok t ∧
      t.Completed = true ∧
      (db.Update { t with Completed := false, CompletedAt := none } env.nowUTC
        (env.dbErr 1)).1 = .ok db1 ∧
      (reopenCmd db arg env).2 = db1 := by
  unfold reopenCmd
  cases hparse : ParseInt arg with
  | none => exact Or.inl rfl
  | some id =>
    simp only []
    cases hget : db.GetByID id (env.dbErr 0) with
    | error e => exact Or.inl rfl
    | ok t =>
      simp only []
      cases hcompl : t.Completed with
      | false => exact Or.inl (by simp)
      | true =>
        simp only [Bool.not_true, Bool.false_eq_true, if_false]
        split
        · exact Or.inl rfl
        · rename_i db1 todo1 heq
          exact Or.inr ⟨id, t, db1, rfl, hget, hcompl, by rw [heq], rfl⟩

/-- C8: the invariant `completed iff a completion time is set` is preserved
by every operation that changes completion.  Toggle-complete, from the list
and from the detail view, leaves it on every task in memory and on every
stored row, setting the time when the flag goes from false to true and
clearing it when the flag goes from true to false; `complete` and `reopen`
leave it on every stored row, `complete` changing only a pending task, to
completed with the time set, and `reopen` only a completed task, to pending
with the time cleared. -/
theorem C8_completion_invariant (w : World) (env : Env) (c : Cmd) (p : Ptr) (arg : String)
    (hc : c = .listToggleComplete p ∨ (c = .detailToggleComplete ∧ w.app.detail.todo = some p))
    (hdb : ∀ r ∈ w.db.rows, completionInvariant r = true) :
    (∀ q, completionInvariant (readTodo w.heap q) = true →
      completionInvariant (readTodo (runCmd env c w).1.heap q) = true) ∧
    (p < w.heap.length →
      completionInvariant (readTodo (runCmd env c w).1.heap p) = true ∧
      (readTodo (runCmd env c w).1.heap p).Completed = !(readTodo w.heap p).Completed ∧
      (readTodo (runCmd env c w).1.heap p).CompletedAt
        = (if (readTodo w.heap p).Completed then none else some env.nowUTC)) ∧
    (∀ r ∈ (runCmd env c w).1.db.rows, completionInvariant r = true) ∧
    (∀ r ∈ (completeCmd w.db arg env).2.rows, completionInvariant r = true) ∧
    (∀ id t, ParseInt arg = some id → w.db.GetByID id (env.dbErr 0) = .ok t →
      (t.Completed = true → (completeCmd w.db arg env).2 = w.db) ∧
      (t.Completed = false → (completeCmd w.db arg env).2 ≠ w.db →
        ∀ r ∈ (completeCmd w.db arg env).2.rows, r.ID = id →
          r.Completed = true ∧ r.CompletedAt = some env.nowUTC)) ∧
    (∀ r ∈ (reopenCmd w.db arg env).2.rows, completionInvariant r = true) ∧
    (∀ id t, ParseInt arg = some id → w.db.GetByID id (env.dbErr 0) = .ok t →
      (t.Completed = false → (reopenCmd w.db arg env).2 = w.db) ∧
      (t.Completed = true → (reopenCmd w.db arg env).2 ≠ w.db →
        ∀ r ∈ (reopenCmd w.db arg env).2.rows, r.ID = id →
          r.Completed = false ∧ r.CompletedAt = none)) := by
  rw [runCmd_toggle env c w p hc]
  simp only []
  rw [toggleCompleteFn_heap]
  refine ⟨?_, ?_, toggleCompleteFn_rows_invariant p w.heap w.db env hdb, ?_, ?_, ?_, ?_⟩
  · intro q hq
    by_cases hqp : q = p
    · subst hqp
      by_cases hlt : q < w.heap.length
      · rw [readTodo_writeTodo_same _ _ _ hlt]
        exact completionInvariant_toggleCompleted _ _
      · have : writeTodo w.heap q { toggleCompleted (readTodo w.heap q) env.nowUTC with
            UpdatedAt := env.nowUTC } = w.heap := by
          simp [writeTodo, List.set_eq_of_length_le (not_lt.mp hlt)]
        rw [this]
        exact hq
    · rw [readTodo_writeTodo_other _ _ _ _ hqp]
      exact hq
  · intro hlt
    rw [readTodo_writeTodo_same _ _ _ hlt]
    refine ⟨completionInvariant_toggleCompleted _ _, toggleCompleted_Completed _ _, ?_⟩
    exact toggleCompleted_CompletedAt _ _
  · rcases completeCmd_cases w.db arg env with h | ⟨id, t, db1, -, -, -, hupd, h⟩
    · rw [h]
      exact hdb
    · rw [h]
      exact Update_rows_invariant w.db db1 _ env.nowUTC (env.dbErr 1) hupd rfl hdb
  · intro id t hparse hget
    constructor
    · intro hcompl
      simp [completeCmd, hparse, hget, hcompl]
    · intro hcompl hne r hr hid
      rcases completeCmd_cases w.db arg env with h | ⟨id1, t1, db1, hp1, hg1, -, hupd, h⟩
      · exact absurd h hne
      · rw [hparse, Option.some.injEq] at hp1
        subst hp1
        rw [hget, Except.ok.injEq] at hg1
        subst hg1
        rw [h] at hr
        exact Update_rows_of_id w.db db1 _ env.nowUTC (env.dbErr 1) hupd r hr
          (by rw [hid]; exact (GetByID_ok w.db id _ t hget).2.symm)
  · rcases reopenCmd_cases w.db arg env with h | ⟨id, t, db1, -, -, -, hupd, h⟩
    · rw [h]
      exact hdb
    · rw [h]
      exact Update_rows_invariant w.db db1 _ env.nowUTC (env.dbErr 1) hupd rfl hdb
  · intro id t hparse hget
    constructor
    · intro hcompl
      simp [reopenCmd, hparse, hget, hcompl]
    · intro hcompl hne r hr hid
      rcases reopenCmd_cases w.db arg env with h | ⟨id1, t1, db1, hp1, hg1, -, hupd, h⟩
      · exact absurd h hne
      · rw [hparse, Option.some.injEq] at hp1
        subst hp1
        rw [hget, Except.ok.injEq] at hg1
        subst hg1
        rw [h] at hr
        exact Update_rows_of_id w.db db1 _ env.nowUTC (env.dbErr 1) hupd r hr
          (by rw [hid]; exact (GetByID_ok w.db id _ t hget).2.symm)

/-- On the five pending tasks of `sampleStore`, a toggle of the first and
`complete 2` both leave every row with the invariant. -/
theorem C8_completion_invariant_witness :
    ((Cmd.listToggleComplete 0 = .listToggleComplete 0 ∨
        (Cmd.listToggleComplete 0 = .detailToggleComplete ∧
          sampleWorld.app.detail.todo = some 0)) ∧
     (∀ r ∈ sampleWorld.db.rows, completionInvariant r = true)) ∧
    (∀ r ∈ (runCmd sampleEnv (.listToggleComplete 0) sampleWorld).1.db.rows,
      completionInvariant r = true) ∧
    (∀ r ∈ (completeCmd sampleWorld.db "2" sampleEnv).2.rows, completionInvariant r = true) ∧
    (completeCmd sampleWorld.db "2" sampleEnv).1 = .ok "Completed todo #2: b\n" ∧
    (readTodo (runCmd sampleEnv (.listToggleComplete 0) sampleWorld).1.heap 0).CompletedAt
      = some sampleEnv.nowUTC :=
  ⟨⟨Or.inl rfl, by decide⟩,
   (C8_completion_invariant sampleWorld sampleEnv (.listToggleComplete 0) 0 "2" (Or.inl rfl)
     (by decide)).2.2.1,
   (C8_completion_invariant sampleWorld sampleEnv (.listToggleComplete 0) 0 "2" (Or.inl rfl)
     (by decide)).2.2.2.1,
   by decide, by decide⟩


/-! ## Saving the form -/

/-- C9, at a failing input: a save with a blank title, in the add form and in
the edit form, sets the error `Title is required` and returns no command, yet
the view is the list afterwards, not the form. -/
theorem C9_blank_title_leaves_form (tiUpdate : TextInput → Msg → TextInput × List Cmd) :
    (blankAddApp.view = .ViewAdd ∧
     (App.updateInput tiUpdate blankAddApp [] (.KeyMsg "ctrl+s") sampleNow).1.input.err
       = "Title is required" ∧
     (App.updateInput tiUpdate blankAddApp [] (.KeyMsg "ctrl+s") sampleNow).2.2 = [] ∧
     (App.updateInput tiUpdate blankAddApp [] (.KeyMsg "ctrl+s") sampleNow).1.view = .ViewList) ∧
    (blankEditApp.view = .ViewEdit ∧
     (App.updateInput tiUpdate blankEditApp [sampleTodo 1 "a" 2] (.KeyMsg "ctrl+s")
       sampleNow).1.input.err = "Title is required" ∧
     (App.updateInput tiUpdate blankEditApp [sampleTodo 1 "a" 2] (.KeyMsg "ctrl+s")
       sampleNow).2.2 = [] ∧
     (App.updateInput tiUpdate blankEditApp [sampleTodo 1 "a" 2] (.KeyMsg "ctrl+s")
       sampleNow).2.1 = [sampleTodo 1 "a" 2] ∧
     (App.updateInput tiUpdate blankEditApp [sampleTodo 1 "a" 2] (.KeyMsg "ctrl+s")
       sampleNow).1.view = .ViewList) := by
  refine ⟨⟨rfl, ?_, ?_, ?_⟩, ⟨rfl, ?_, ?_, ?_, ?_⟩⟩ <;> rfl

/-- C10, at a failing input: a save in the edit form that fails on the due
date has already overwritten title, description and tags of the bound task,
and one that fails on the priority also its due date; in both cases no update
command is returned.  The task so overwritten is the one the list shows, and
the next toggle of its completion writes the rejected title to the store. -/
theorem C10_failed_save_mutates_task (tiUpdate : TextInput → Msg → TextInput × List Cmd) :
    ((App.updateInput tiUpdate badDueEditApp [sampleTodo 1 "a" 2] (.KeyMsg "ctrl+s")
        sampleNow).1.input.err = "Invalid due date format" ∧
     (App.updateInput tiUpdate badDueEditApp [sampleTodo 1 "a" 2] (.KeyMsg "ctrl+s")
        sampleNow).2.2 = [] ∧
     (App.updateInput tiUpdate badDueEditApp [sampleTodo 1 "a" 2] (.KeyMsg "ctrl+s")
        sampleNow).2.1
       = [{ sampleTodo 1 "a" 2 with Title := "new title", Description := "new text",
                                     Tags := some ["#x"] }]) ∧
    ((App.updateInput tiUpdate badPriorityEditApp [sampleTodo 1 "a" 2] (.KeyMsg "ctrl+s")
        sampleNow).1.input.err = "Priority must be 1-5" ∧
     (App.updateInput tiUpdate badPriorityEditApp [sampleTodo 1 "a" 2] (.KeyMsg "ctrl+s")
        sampleNow).2.2 = [] ∧
     (App.updateInput tiUpdate badPriorityEditApp [sampleTodo 1 "a" 2] (.KeyMsg "ctrl+s")
        sampleNow).2.1
       = [{ sampleTodo 1 "a" 2 with Title := "new title", Description := "new text",
                                     Tags := some ["#x"],
                                     DueDate := some { day := 20498, nsec := 86399000000000 } }]) ∧
    ((runCmd sampleEnv (.listToggleComplete 0)
        { app := (App.updateInput tiUpdate badDueEditApp [sampleTodo 1 "a" 2] (.KeyMsg "ctrl+s")
                    sampleNow).1,
          heap := (App.updateInput tiUpdate badDueEditApp [sampleTodo 1 "a" 2] (.KeyMsg "ctrl+s")
                    sampleNow).2.1,
          db := { rows := [sampleTodo 1 "a" 2], seq := 1 } }).1.db.rows.map (fun r => r.Title)
      = ["new title"]) := by
  refine ⟨⟨?_, ?_, ?_⟩, ⟨?_, ?_, ?_⟩, ?_⟩ <;> rfl


/-! ## The priority field -/

theorem firstByte_priority (c : Char) :
    (1 ≤ (((firstByte c + 256 - 48) % 256 : Nat) : Int) ∧
      (((firstByte c + 256 - 48) % 256 : Nat) : Int) ≤ 5) ↔ (49 ≤ c.toNat ∧ c.toNat ≤ 53) := by
  have hc : c.toNat < 1114112 := by
    rcases c.valid with h | ⟨_, h⟩
    · exact Nat.lt_trans h (by decide)
    · exact h
  unfold firstByte
  simp only []
  split
  · omega
  · split
    · omega
    · split <;> omega

theorem priorityOfByte_digit (s : String) (c : Char) (rest : List Char)
    (hs : s.toList = c :: rest) (hc : 49 ≤ c.toNat ∧ c.toNat ≤ 53) :
    priorityOfByte s = (c.toNat : Int) - 48 := by
  have h128 : c.toNat < 128 := by omega
  simp only [priorityOfByte, hs, firstByte, h128, if_true]
  omega

theorem priorityOfByte_range (s : String) (c : Char) (rest : List Char)
    (hs : s.toList = c :: rest) :
    (priorityOfByte s < 1 ∨ priorityOfByte s > 5) ↔ ¬ (49 ≤ c.toNat ∧ c.toNat ≤ 53) := by
  rw [← firstByte_priority c]
  simp only [priorityOfByte, hs]
  omega

theorem ne_empty_of_toList (s : String) (c : Char) (rest : List Char)
    (hs : s.toList = c :: rest) : s ≠ "" := by
  intro h
  rw [h] at hs
  exact absurd hs (by simp)

theorem createTodo_priority (v : InputView) (now : Time) (due : Option Time)
    (htitle : TrimSpace (v.Value inputTitle) ≠ "")
    (hdue : (if TrimSpace (v.Value inputDueDate) ≠ "" then
        ParseDueDate (TrimSpace (v.Value inputDueDate)) now else .ok none) = .ok due)
    (hprio : TrimSpace (v.Value inputPriority) ≠ "") :
    v.createTodo now =
      if priorityOfByte (TrimSpace (v.Value inputPriority)) < 1
          ∨ priorityOfByte (TrimSpace (v.Value inputPriority)) > 5 then
        ({ v with err := "Priority must be 1-5" }, [])
      else
        (v, [.createTodo
          { ID := 0, Title := TrimSpace (v.Value inputTitle),
            Description := TrimSpace (v.Value inputDescription),
            Tags := ParseTags (v.Value inputTags), DueDate := due, CreatedAt := Time.zero,
            UpdatedAt := Time.zero, CompletedAt := none, Completed := false,
            Priority := priorityOfByte (TrimSpace (v.Value inputPriority)) }]) := by
  unfold InputView.createTodo
  simp only [htitle, if_false, hdue, hprio, ne_eq, not_false_eq_true, if_true]

theorem updateTodo_priority (v : InputView) (heap : Heap) (now : Time) (p : Ptr)
    (due : Option Time) (htodo : v.todo = some p) (hp : p < heap.length)
    (htitle : TrimSpace (v.Value inputTitle) ≠ "")
    (hdue : (if TrimSpace (v.Value inputDueDate) ≠ "" then
        ParseDueDate (TrimSpace (v.Value inputDueDate)) now else .ok none) = .ok due)
    (hprio : TrimSpace (v.Value inputPriority) ≠ "") :
    (priorityOfByte (TrimSpace (v.Value inputPriority)) < 1
        ∨ priorityOfByte (TrimSpace (v.Value inputPriority)) > 5 →
      (v.updateTodo heap now).1 = { v with err := "Priority must be 1-5" } ∧
      (v.updateTodo heap now).2.2 = []) ∧
    (¬ (priorityOfByte (TrimSpace (v.Value inputPriority)) < 1
        ∨ priorityOfByte (TrimSpace (v.Value inputPriority)) > 5) →
      (v.updateTodo heap now).1 = v ∧
      (v.updateTodo heap now).2.2 = [.updateTodo p] ∧
      (readTodo (v.updateTodo heap now).2.1 p).Priority
        = priorityOfByte (TrimSpace (v.Value inputPriority))) := by
  unfold InputView.updateTodo
  simp only [htodo, htitle, if_false, hdue, hprio, ne_eq, not_false_eq_true, if_true]
  constructor
  · intro h
    simp only [h, if_true, and_self]
  · intro h
    simp only [h, if_false, true_and]
    rw [readTodo_writeTodo_same]
    simp only [length_writeTodo]
    exact hp

/-- For a priority field text that is not empty after trimming (title and due
date being valid), save in the add form and in the edit form accepts the text
iff the first character of the trimmed text is a digit in 1..5, the priority
of the task being that digit; otherwise it sets the error
`Priority must be 1-5` and returns no command.  For a text of at most one
character that is: iff the text is one of `1`, `2`, `3`, `4`, `5`. -/
theorem priority_first_char (v : InputView) (heap : Heap) (now : Time) (p : Ptr)
    (due : Option Time) (c : Char) (rest : List Char)
    (htitle : TrimSpace (v.Value inputTitle) ≠ "")
    (hdue : (if TrimSpace (v.Value inputDueDate) ≠ "" then
        ParseDueDate (TrimSpace (v.Value inputDueDate)) now else .ok none) = .ok due)
    (hprio : (TrimSpace (v.Value inputPriority)).toList = c :: rest)
    (htodo : v.todo = some p) (hp : p < heap.length) :
    ((49 ≤ c.toNat ∧ c.toNat ≤ 53) →
      (∃ todo, v.createTodo now = (v, [.createTodo todo])
        ∧ todo.Priority = (c.toNat : Int) - 48) ∧
      (v.updateTodo heap now).1 = v ∧
      (v.updateTodo heap now).2.2 = [.updateTodo p] ∧
      (readTodo (v.updateTodo heap now).2.1 p).Priority = (c.toNat : Int) - 48) ∧
    (¬ (49 ≤ c.toNat ∧ c.toNat ≤ 53) →
      v.createTodo now = ({ v with err := "Priority must be 1-5" }, []) ∧
      (v.updateTodo heap now).1 = { v with err := "Priority must be 1-5" } ∧
      (v.updateTodo heap now).2.2 = []) ∧
    ((v.Value inputPriority).length ≤ 1 →
      ((49 ≤ c.toNat ∧ c.toNat ≤ 53) ↔ v.Value inputPriority ∈ ["1", "2", "3", "4", "5"])) := by
  have hne := ne_empty_of_toList _ c rest hprio
  have hrange := priorityOfByte_range _ c rest hprio
  have hcreate := createTodo_priority v now due htitle hdue hne
  have hupdate := updateTodo_priority v heap now p due htodo hp htitle hdue hne
  refine ⟨?_, ?_, ?_⟩
  · intro hc
    have hgood : ¬ (priorityOfByte (TrimSpace (v.Value inputPriority)) < 1
        ∨ priorityOfByte (TrimSpace (v.Value inputPriority)) > 5) := by
      rw [hrange]
      exact not_not.mpr hc
    have hval := priorityOfByte_digit _ c rest hprio hc
    constructor
    · refine Exists.intro _ (And.intro (by rw [hcreate, if_neg hgood]) ?_)
      exact hval
    · rw [← hval]
      exact hupdate.2 hgood
  · intro hc
    have hbad := hrange.mpr hc
    refine ⟨?_, hupdate.1 hbad⟩
    rw [hcreate, if_pos hbad]
  · intro hlen
    have hval : (v.Value inputPriority).toList = [c] := by
      have hl : (v.Value inputPriority).toList.length ≤ 1 := hlen
      have ht : trimSpaceChars (v.Value inputPriority).toList = c :: rest := hprio
      rcases hv : (v.Value inputPriority).toList with _ | ⟨x, _ | ⟨y, tl⟩⟩
      · rw [hv] at ht
        simp [trimSpaceChars] at ht
      · rw [hv] at ht
        by_cases hx : isSpace x = true
        · simp [trimSpaceChars, hx] at ht
        · simp [trimSpaceChars, hx] at ht
          rw [ht.1]
      · rw [hv] at hl
        simp at hl
    constructor
    · rintro ⟨h1, h2⟩
      have hcc : c = Char.ofNat c.toNat := (Char.ofNat_toNat c).symm
      have hcases : c.toNat = 49 ∨ c.toNat = 50 ∨ c.toNat = 51 ∨ c.toNat = 52 ∨ c.toNat = 53 := by
        omega
      have hc5 : c = '1' ∨ c = '2' ∨ c = '3' ∨ c = '4' ∨ c = '5' := by
        rcases hcases with h | h | h | h | h <;> rw [hcc, h] <;> decide
      simp only [List.mem_cons, List.mem_singleton, List.not_mem_nil, or_false]
      rcases hc5 with h | h | h | h | h <;> rw [h] at hval
      · exact Or.inl (String.ext hval)
      · exact Or.inr (Or.inl (String.ext hval))
      · exact Or.inr (Or.inr (Or.inl (String.ext hval)))
      · exact Or.inr (Or.inr (Or.inr (Or.inl (String.ext hval))))
      · exact Or.inr (Or.inr (Or.inr (Or.inr (String.ext hval))))
    · intro h
      simp only [List.mem_cons, List.mem_singleton, List.not_mem_nil, or_false] at h
      rcases h with h | h | h | h | h <;>
        (rw [h] at hval; have hceq := (List.cons.inj hval).1; rw [← hceq]; decide)

/-- C11: the priority field is created with `CharLimit` 1, and a text input
holds no more characters than its limit.  For such a form, with a priority
text that is not empty after trimming (title and due date being valid), the
text is one character, and save in the add form and in the edit form accepts
it iff it is one of the digits `1` to `5`, the priority of the task being that
digit; for every other text save sets the error `Priority must be 1-5` and
returns no command. -/
theorem C11_priority_field (v : InputView) (heap : Heap) (now : Time) (p : Ptr)
    (due : Option Time)
    (htitle : TrimSpace (v.Value inputTitle) ≠ "")
    (hdue : (if TrimSpace (v.Value inputDueDate) ≠ "" then
        ParseDueDate (TrimSpace (v.Value inputDueDate)) now else .ok none) = .ok due)
    (hne : TrimSpace (v.Value inputPriority) ≠ "")
    (htodo : v.todo = some p) (hp : p < heap.length)
    (hlimit : (v.inputs.getD inputPriority default).CharLimit = 1)
    (hfit : (v.Value inputPriority).length ≤ (v.inputs.getD inputPriority default).CharLimit) :
    (NewInputView.inputs.getD inputPriority default).CharLimit = 1 ∧
    ∃ c : Char, v.Value inputPriority = String.singleton c ∧
      ((49 ≤ c.toNat ∧ c.toNat ≤ 53) ↔ v.Value inputPriority ∈ ["1", "2", "3", "4", "5"]) ∧
      (v.Value inputPriority ∈ ["1", "2", "3", "4", "5"] →
        1 ≤ (c.toNat : Int) - 48 ∧ (c.toNat : Int) - 48 ≤ 5 ∧
        (∃ todo, v.createTodo now = (v, [.createTodo todo])
          ∧ todo.Priority = (c.toNat : Int) - 48) ∧
        (v.updateTodo heap now).1 = v ∧
        (v.updateTodo heap now).2.2 = [.updateTodo p] ∧
        (readTodo (v.updateTodo heap now).2.1 p).Priority = (c.toNat : Int) - 48) ∧
      (v.Value inputPriority ∉ ["1", "2", "3", "4", "5"] →
        v.createTodo now = ({ v with err := "Priority must be 1-5" }, []) ∧
        (v.updateTodo heap now).1 = { v with err := "Priority must be 1-5" } ∧
        (v.updateTodo heap now).2.2 = []) ∧
      (v.Value inputPriority = "1" → (c.toNat : Int) - 48 = 1) ∧
      (v.Value inputPriority = "2" → (c.toNat : Int) - 48 = 2) ∧
      (v.Value inputPriority = "3" → (c.toNat : Int) - 48 = 3) ∧
      (v.Value inputPriority = "4" → (c.toNat : Int) - 48 = 4) ∧
      (v.Value inputPriority = "5" → (c.toNat : Int) - 48 = 5) := by
  refine ⟨by decide, ?_⟩
  have hlen : (v.Value inputPriority).length ≤ 1 := by rw [← hlimit]; exact hfit
  obtain ⟨c, rest, hprio⟩ : ∃ c rest, (TrimSpace (v.Value inputPriority)).toList = c :: rest := by
    cases h : (TrimSpace (v.Value inputPriority)).toList with
    | nil => exact absurd (String.ext h) hne
    | cons c rest => exact ⟨c, rest, rfl⟩
  have hval : (v.Value inputPriority).toList = [c] := by
    have hl : (v.Value inputPriority).toList.length ≤ 1 := hlen
    have ht : trimSpaceChars (v.Value inputPriority).toList = c :: rest := hprio
    rcases hv : (v.Value inputPriority).toList with _ | ⟨x, _ | ⟨y, tl⟩⟩
    · rw [hv] at ht
      simp [trimSpaceChars] at ht
    · rw [hv] at ht
      by_cases hx : isSpace x = true
      · simp [trimSpaceChars, hx] at ht
      · simp [trimSpaceChars, hx] at ht
        rw [ht.1]
    · rw [hv] at hl
      simp at hl
  have hsingle : v.Value inputPriority = String.singleton c := String.ext hval
  obtain ⟨hacc, hrej, hiff⟩ := priority_first_char v heap now p due c rest htitle hdue hprio htodo hp
  have hiff' := hiff hlen
  have hdigit : ∀ (d : Char), v.Value inputPriority = String.singleton d → c = d := by
    intro d hd
    have h1 : [c] = [d] := by rw [← hval, hd]; rfl
    exact (List.cons.inj h1).1
  refine ⟨c, hsingle, hiff', ?_, ?_, ?_, ?_, ?_, ?_, ?_⟩
  · intro hmem
    have hc := hiff'.mpr hmem
    exact ⟨by omega, by omega, hacc hc⟩
  · intro hmem
    exact hrej (fun hc => hmem (hiff'.mp hc))
  · intro h
    rw [hdigit '1' h]
    decide
  · intro h
    rw [hdigit '2' h]
    decide
  · intro h
    rw [hdigit '3' h]
    decide
  · intro h
    rw [hdigit '4' h]
    decide
  · intro h
    rw [hdigit '5' h]
    decide

/-- The edit form with the priority text `4`: the save is accepted and the
bound task gets the priority 4; with the text `9` the save is refused. -/
theorem C11_priority_field_witness :
    (TrimSpace ((sampleForm .InputModeEdit (some 0) ["title", "", "", "", "4"]).Value inputTitle)
        ≠ "" ∧
     TrimSpace ((sampleForm .InputModeEdit (some 0) ["title", "", "", "", "4"]).Value
        inputPriority) ≠ "" ∧
     (sampleForm .InputModeEdit (some 0) ["title", "", "", "", "4"]).todo = some 0 ∧
     0 < [sampleTodo 1 "a" 2].length ∧
     ((sampleForm .InputModeEdit (some 0) ["title", "", "", "", "4"]).inputs.getD inputPriority
        default).CharLimit = 1) ∧
    (∃ c : Char,
      (sampleForm .InputModeEdit (some 0) ["title", "", "", "", "4"]).Value inputPriority
        = String.singleton c ∧
      ((sampleForm .InputModeEdit (some 0) ["title", "", "", "", "4"]).Value inputPriority
          ∈ ["1", "2", "3", "4", "5"] →
        (readTodo ((sampleForm .InputModeEdit (some 0) ["title", "", "", "", "4"]).updateTodo
          [sampleTodo 1 "a" 2] sampleNow).2.1 0).Priority = (c.toNat : Int) - 48) ∧
      ((sampleForm .InputModeEdit (some 0) ["title", "", "", "", "4"]).Value inputPriority = "4"
        → (c.toNat : Int) - 48 = 4)) ∧
    (readTodo ((sampleForm .InputModeEdit (some 0) ["title", "", "", "", "4"]).updateTodo
      [sampleTodo 1 "a" 2] sampleNow).2.1 0).Priority = 4 ∧
    ((sampleForm .InputModeEdit (some 0) ["title", "", "", "", "9"]).updateTodo
      [sampleTodo 1 "a" 2] sampleNow).2.2 = [] :=
  ⟨⟨by decide, by decide, by decide, by decide, by decide⟩,
   (C11_priority_field (sampleForm .InputModeEdit (some 0) ["title", "", "", "", "4"])
      [sampleTodo 1 "a" 2] sampleNow 0 none (by decide) (by decide) (by decide) (by decide)
      (by decide) (by decide) (by decide)).2.elim
     (fun c h => ⟨c, h.1, fun hm => (h.2.2.1 hm).2.2.2.2.2, h.2.2.2.2.2.2.2.1⟩),
   by decide, by decide⟩

/-! ## Quitting -/

theorem createTodo_no_quit (v : InputView) (now : Time) : Cmd.Quit ∉ (v.createTodo now).2 := by
  unfold InputView.createTodo
  simp only []
  split
  · simp
  · split
    · simp
    · split
      · split <;> simp
      · simp

theorem updateTodo_no_quit (v : InputView) (heap : Heap) (now : Time) :
    Cmd.Quit ∉ (v.updateTodo heap now).2.2 := by
  unfold InputView.updateTodo
  split
  · simp
  · simp only []
    split
    · simp
    · split
      · simp
      · split
        · split <;> simp
        · simp

theorem updateFocus_no_quit (v : InputView) : Cmd.Quit ∉ v.updateFocus.2 := by
  unfold InputView.updateFocus
  simp only []
  split <;> simp

theorem inputUpdate_no_quit (tiUpdate : TextInput → Msg → TextInput × List Cmd)
    (hlib : ∀ ti m, Cmd.Quit ∉ (tiUpdate ti m).2) (v : InputView) (msg : Msg) :
    Cmd.Quit ∉ (v.Update tiUpdate msg).2 := by
  unfold InputView.Update
  simp only []
  split
  · split
    · exact updateFocus_no_quit _
    · split
      · exact updateFocus_no_quit _
      · exact hlib _ _
  · exact hlib _ _

theorem updateInput_no_quit (tiUpdate : TextInput → Msg → TextInput × List Cmd)
    (hlib : ∀ ti m, Cmd.Quit ∉ (tiUpdate ti m).2) (a : App) (heap : Heap) (msg : Msg)
    (now : Time) : Cmd.Quit ∉ (a.updateInput tiUpdate heap msg now).2.2 := by
  unfold App.updateInput
  simp only []
  split
  · split
    · simp
    · split
      · split
        · split
          · exact createTodo_no_quit _ _
          · exact updateTodo_no_quit _ _ _
        · exact inputUpdate_no_quit tiUpdate hlib _ _
      · exact inputUpdate_no_quit tiUpdate hlib _ _
  · exact inputUpdate_no_quit tiUpdate hlib _ _

theorem listUpdate_no_quit (l : ListView) (msg : Msg) : Cmd.Quit ∉ (l.Update msg).2 := by
  unfold ListView.Update
  split
  · split
    · simp
    · split
      · simp
      · split
        · simp
        · split
          · simp
          · split <;> simp [ListView.loadTodos]
  · simp

theorem updateList_quit (host : Host) (a : App) (heap : Heap) (key : String) :
    Cmd.Quit ∈ (a.updateList host heap (.KeyMsg key)).2.2 ↔ (key = "q" ∨ key = "esc") := by
  unfold App.updateList
  simp only []
  by_cases hq : key = "q" ∨ key = "esc"
  · simp [hq]
  · simp only [hq, if_false, iff_false]
    split
    · split <;> simp
    · split
      · simp [InputView.Init]
      · split
        · split <;> simp [InputView.Init]
        · split
          · simp
          · split
            · simp [ListView.loadTags]
            · split
              · simp only [ListView.toggleComplete]
                split <;> simp
              · split
                · simp
                · split
                  · simp only [ListView.deleteSelected]
                    split
                    · split <;> simp
                    · simp
                  · split
                    · simp only [ListView.cyclePriority]
                      split <;> simp
                    · exact listUpdate_no_quit _ _

theorem updateDetail_no_quit (host : Host) (a : App) (heap : Heap) (msg : Msg) :
    Cmd.Quit ∉ (a.updateDetail host heap msg).2.2 := by
  unfold App.updateDetail
  simp only []
  split
  · split
    · simp
    · split
      · split <;> simp [InputView.Init]
      · split
        · split
          · simp [DetailView.toggleComplete, ListView.loadTodos]
            split <;> simp
          · simp
        · simp [DetailView.Update]
  · simp [DetailView.Update]

theorem updateSearch_no_quit (host : Host) (hlib : ∀ ti m, Cmd.Quit ∉ (host.tiUpdate ti m).2)
    (a : App) (heap : Heap) (msg : Msg) : Cmd.Quit ∉ (a.updateSearch host heap msg).2.2 := by
  unfold App.updateSearch
  simp only []
  split
  · split
    · simp [ListView.loadTodos]
    · split
      · simp [ListView.loadTodos]
      · exact hlib _ _
  · exact hlib _ _

theorem updateTagFilter_no_quit (host : Host) (a : App) (heap : Heap) (msg : Msg) :
    Cmd.Quit ∉ (a.updateTagFilter host heap msg).2.2 := by
  unfold App.updateTagFilter
  split
  · split
    · simp
    · split
      · simp [ListView.loadTodos]
      · split
        · simp
        · split
          · simp
          · split <;> simp
  · simp

/-- C12, as stated, fails on both sides: in the detail view `q` (and `esc`)
returns to the list without ending the session, and in the add form `ctrl+c`
ends the session. -/
theorem C12_counterexample :
    (detailApp.view = .ViewDetail ∧
     (App.Update sampleHost detailApp [sampleTodo 1 "a" 0] (.KeyMsg "q")).2.2 = [] ∧
     (App.Update sampleHost detailApp [sampleTodo 1 "a" 0] (.KeyMsg "q")).1.quitting = false ∧
     (App.Update sampleHost detailApp [sampleTodo 1 "a" 0] (.KeyMsg "q")).1.view = .ViewList ∧
     (App.Update sampleHost detailApp [sampleTodo 1 "a" 0] (.KeyMsg "esc")).2.2 = []) ∧
    (blankAddApp.view = .ViewAdd ∧
     (App.Update sampleHost blankAddApp [] (.KeyMsg "ctrl+c")).2.2 = [.Quit] ∧
     (App.Update sampleHost blankAddApp [] (.KeyMsg "ctrl+c")).1.quitting = true) := by
  decide

/-- C12, amended: a key event ends the session, that is `Update` returns
`tea.Quit`, exactly when the key is `ctrl+c`, in whatever state, or the key is
`q` or `esc` and the state is Browsing; in Detail `q` and `esc` return to
Browsing.  The text inputs of the library are taken not to return `tea.Quit`
themselves. -/
theorem C12_quit_keys (host : Host) (hlib : ∀ ti m, Cmd.Quit ∉ (host.tiUpdate ti m).2)
    (a : App) (heap : Heap) (key : String) :
    (Cmd.Quit ∈ (App.Update host a heap (.KeyMsg key)).2.2 ↔
      (key = "ctrl+c" ∨ (a.view = .ViewList ∧ (key = "q" ∨ key = "esc")))) ∧
    (a.view = .ViewDetail → (key = "q" ∨ key = "esc") →
      (App.Update host a heap (.KeyMsg key)).1.view = .ViewList ∧
      (App.Update host a heap (.KeyMsg key)).2.2 = []) := by
  constructor
  · unfold App.Update
    by_cases hc : key = "ctrl+c"
    · simp [hc]
    · simp only [hc, if_false, false_or]
      unfold App.route
      cases hv : a.view
      · simp only [true_and]
        exact updateList_quit host a heap key
      · simp only [false_and, iff_false, reduceCtorEq]
        exact updateDetail_no_quit host a heap _
      · simp only [false_and, iff_false, reduceCtorEq]
        exact updateInput_no_quit host.tiUpdate hlib a heap _ _
      · simp only [false_and, iff_false, reduceCtorEq]
        exact updateInput_no_quit host.tiUpdate hlib a heap _ _
      · simp only [false_and, iff_false, reduceCtorEq]
        exact updateSearch_no_quit host hlib a heap _
      · simp only [false_and, iff_false, reduceCtorEq]
        exact updateTagFilter_no_quit host a heap _
  · intro hv hkey
    have hc : key ≠ "ctrl+c" := by
      rcases hkey with h | h <;> rw [h] <;> decide
    simp only [App.Update, hc, if_false, App.route, hv, App.updateDetail, hkey, if_true,
      and_self]

/-- In the list view `q` ends the session; so does `ctrl+c` in the add form;
`x` in the list view does not. -/
theorem C12_quit_keys_witness :
    (∀ ti m, Cmd.Quit ∉ (sampleHost.tiUpdate ti m).2) ∧
    (Cmd.Quit ∈ (App.Update sampleHost NewApp [] (.KeyMsg "q")).2.2 ↔
      ("q" = "ctrl+c" ∨ (NewApp.view = .ViewList ∧ ("q" = "q" ∨ "q" = "esc")))) ∧
    Cmd.Quit ∈ (App.Update sampleHost NewApp [] (.KeyMsg "q")).2.2 :=
  ⟨fun _ _ => List.not_mem_nil _,
   (C12_quit_keys sampleHost (fun _ _ => List.not_mem_nil _) NewApp [] "q").1,
   by decide⟩


/-! ## A toggle whose update fails -/

/-- C13, at a failing input: in Browsing, with one pending task and a store
whose update fails, toggle-complete returns the error message and leaves the
store as it was, and the error event records the error, keeps the view and
schedules no reload; yet the task of the loaded list is completed and has a
completion time afterwards. -/
theorem C13_failed_toggle_keeps_flag :
    (App.Update sampleHost pendingWorld.app pendingWorld.heap (.KeyMsg " ")).2.2
      = [.listToggleComplete 0] ∧
    (runCmd failingEnv (.listToggleComplete 0) pendingWorld).2.1
      = some (.errMsg "failed to update todo: disk I/O error") ∧
    (runCmd failingEnv (.listToggleComplete 0) pendingWorld).1.db = pendingWorld.db ∧
    (App.Update sampleHost (runCmd failingEnv (.listToggleComplete 0) pendingWorld).1.app
        (runCmd failingEnv (.listToggleComplete 0) pendingWorld).1.heap
        (.errMsg "failed to update todo: disk I/O error"))
      = ({ pendingWorld.app with err := some "failed to update todo: disk I/O error" },
         (runCmd failingEnv (.listToggleComplete 0) pendingWorld).1.heap, []) ∧
    pendingWorld.app.list.todos.map (fun p => (readTodo pendingWorld.heap p).Completed)
      = [false] ∧
    pendingWorld.app.list.todos.map (fun p => (readTodo pendingWorld.heap p).CompletedAt)
      = [none] ∧
    (runCmd failingEnv (.listToggleComplete 0) pendingWorld).1.app.list.todos.map
      (fun p => (readTodo (runCmd failingEnv (.listToggleComplete 0) pendingWorld).1.heap
        p).Completed) = [true] ∧
    (runCmd failingEnv (.listToggleComplete 0) pendingWorld).1.app.list.todos.map
      (fun p => (readTodo (runCmd failingEnv (.listToggleComplete 0) pendingWorld).1.heap
        p).CompletedAt) = [some failingEnv.nowUTC] := by
  decide


/-! ## Cycling the priority -/

/-- What the closure of `cyclePriority` leaves at the address of its task. -/
theorem cyclePriorityFn_heap (p : Ptr) (heap : Heap) (db : SQLiteStorage) (env : Env) :
    (cyclePriorityFn p heap db env).1 =
      writeTodo heap p { readTodo heap p with
        Priority := (readTodo heap p).Priority.tmod 5 + 1, UpdatedAt := env.nowUTC } := by
  have h := Update_snd db { readTodo heap p with
    Priority := (readTodo heap p).Priority.tmod 5 + 1 } env.nowUTC (env.dbErr 0)
  unfold cyclePriorityFn
  simp only []
  split <;> rename_i heq <;> rw [heq] at h <;> simp only [] at h <;> rw [h]

theorem runCmd_cyclePriority_read (env : Env) (w : World) (p : Ptr) (hp : p < w.heap.length) :
    (readTodo (runCmd env (.cyclePriority p) w).1.heap p).Priority
      = (readTodo w.heap p).Priority.tmod 5 + 1 ∧
    p < (runCmd env (.cyclePriority p) w).1.heap.length := by
  simp only [runCmd, cyclePriorityFn_heap, length_writeTodo]
  rw [readTodo_writeTodo_same _ _ _ hp]
  exact ⟨rfl, hp⟩

/-- The closure of `cyclePriority` sets the priority of its task to
`(priority mod 5) + 1`; for a priority in 0..5 the result lies in 1..5, is
never 0, and follows 0→1, 1→2, 2→3, 3→4, 4→5, 5→1; when the update succeeds the
stored row has the new priority; and from a priority in 1..5 five runs in a
row lead back to it. -/
theorem cyclePriority_run (w : World) (env e1 e2 e3 e4 e5 : Env) (p : Ptr)
    (hp : p < w.heap.length) :
    (readTodo (runCmd env (.cyclePriority p) w).1.heap p).Priority
      = (readTodo w.heap p).Priority.tmod 5 + 1 ∧
    (0 ≤ (readTodo w.heap p).Priority → (readTodo w.heap p).Priority ≤ 5 →
      (readTodo (runCmd env (.cyclePriority p) w).1.heap p).Priority
        = (readTodo w.heap p).Priority % 5 + 1 ∧
      1 ≤ (readTodo (runCmd env (.cyclePriority p) w).1.heap p).Priority ∧
      (readTodo (runCmd env (.cyclePriority p) w).1.heap p).Priority ≤ 5 ∧
      (readTodo (runCmd env (.cyclePriority p) w).1.heap p).Priority
        = (if (readTodo w.heap p).Priority = 5 then 1 else (readTodo w.heap p).Priority + 1)) ∧
    ((runCmd env (.cyclePriority p) w).2.1 = some .todoUpdatedMsg →
      ∀ r ∈ (runCmd env (.cyclePriority p) w).1.db.rows, r.ID = (readTodo w.heap p).ID →
        r.Priority = (readTodo w.heap p).Priority.tmod 5 + 1) ∧
    (1 ≤ (readTodo w.heap p).Priority → (readTodo w.heap p).Priority ≤ 5 →
      (readTodo (runCmds [e1, e2, e3, e4, e5] (.cyclePriority p) w).heap p).Priority
        = (readTodo w.heap p).Priority) := by
  have h1 := runCmd_cyclePriority_read env w p hp
  refine ⟨h1.1, ?_, ?_, ?_⟩
  · intro h0 h5
    rw [h1.1]
    have : (readTodo w.heap p).Priority.tmod 5 = (readTodo w.heap p).Priority % 5 := by
      rw [Int.tmod_eq_emod h0 (by decide)]
    rw [this]
    refine ⟨rfl, ?_, ?_, ?_⟩ <;> (try split) <;> omega
  · intro hmsg r hr hid
    simp only [runCmd, cyclePriorityFn] at hmsg hr
    split at hmsg
    · simp at hmsg
    · rename_i db1 todo1 heq
      simp only [cyclePriorityFn, heq] at hr
      have hrows := Update_ok w.db db1 _ env.nowUTC (env.dbErr 0) (by rw [heq])
      rw [hrows, List.mem_map] at hr
      obtain ⟨r0, -, rfl⟩ := hr
      split at hid
      · rename_i h0
        rw [if_pos h0]
      · rename_i h0
        exact absurd hid h0
  · intro hlo hhi
    simp only [runCmds, List.foldl]
    have a1 := runCmd_cyclePriority_read e1 w p hp
    have a2 := runCmd_cyclePriority_read e2 _ p a1.2
    have a3 := runCmd_cyclePriority_read e3 _ p a2.2
    have a4 := runCmd_cyclePriority_read e4 _ p a3.2
    have a5 := runCmd_cyclePriority_read e5 _ p a4.2
    rw [a5.1, a4.1, a3.1, a2.1, a1.1]
    have hcases : (readTodo w.heap p).Priority = 1 ∨ (readTodo w.heap p).Priority = 2 ∨
        (readTodo w.heap p).Priority = 3 ∨ (readTodo w.heap p).Priority = 4 ∨
        (readTodo w.heap p).Priority = 5 := by omega
    rcases hcases with h | h | h | h | h <;> rw [h] <;> decide

theorem updateList_key_p (host : Host) (a : App) (heap : Heap) (hv : a.view = .ViewList) :
    App.Update host a heap (.KeyMsg "p") = (a, heap, a.list.cyclePriority) := by
  have h1 : ("p" : String) ≠ "ctrl+c" := by decide
  have h2 : ¬ (("p" : String) = "q" ∨ ("p" : String) = "esc") := by decide
  have h3 : ("p" : String) ≠ "enter" := by decide
  have h4 : ("p" : String) ≠ "n" := by decide
  have h5 : ("p" : String) ≠ "e" := by decide
  have h6 : ("p" : String) ≠ "/" := by decide
  have h7 : ("p" : String) ≠ "t" := by decide
  have h8 : ("p" : String) ≠ " " := by decide
  have h9 : ("p" : String) ≠ "x" := by decide
  have h10 : ("p" : String) ≠ "D" := by decide
  simp only [App.Update, h1, if_false, App.route, hv, App.updateList, h2, h3, h4, h5, h6, h7, h8,
    h9, h10, if_true]

/-- C14: in the list view the key `p` dispatches what `cyclePriority` returns:
nothing when the cursor is on no row, and otherwise the update of the selected
task, the one at the cursor, `l.todos[l.cursor]`.  Run, that command sets the
priority of this task to `(priority mod 5) + 1`; for a priority in 0..5 the
result lies in 1..5, is never 0, and follows 0→1, 1→2, 2→3, 3→4, 4→5, 5→1; when
the update succeeds the stored row has the new priority; and from a priority
in 1..5 five cycles in a row lead back to it. -/
theorem C14_cycle_priority (host : Host) (w : World) (env e1 e2 e3 e4 e5 : Env) (p : Ptr)
    (hcur : 0 ≤ w.app.list.cursor ∧ w.app.list.cursor < (w.app.list.todos.length : Int)
      ∧ w.app.list.todos.get? w.app.list.cursor.toNat = some p)
    (hp : p < w.heap.length) :
    (w.app.view = .ViewList →
      App.Update host w.app w.heap (.KeyMsg "p") = (w.app, w.heap, [.cyclePriority p])) ∧
    w.app.list.cyclePriority = [.cyclePriority p] ∧
    w.app.list.SelectedTodo = some p ∧
    (∀ l : ListView, (l.cursor < 0 ∨ l.cursor ≥ (l.todos.length : Int)) → l.cyclePriority = []) ∧
    (readTodo (runCmd env (.cyclePriority p) w).1.heap p).Priority
      = (readTodo w.heap p).Priority.tmod 5 + 1 ∧
    (∀ q, q ≠ p → readTodo (runCmd env (.cyclePriority p) w).1.heap q = readTodo w.heap q) ∧
    (0 ≤ (readTodo w.heap p).Priority → (readTodo w.heap p).Priority ≤ 5 →
      (readTodo (runCmd env (.cyclePriority p) w).1.heap p).Priority
        = (readTodo w.heap p).Priority % 5 + 1 ∧
      1 ≤ (readTodo (runCmd env (.cyclePriority p) w).1.heap p).Priority ∧
      (readTodo (runCmd env (.cyclePriority p) w).1.heap p).Priority ≤ 5 ∧
      (readTodo (runCmd env (.cyclePriority p) w).1.heap p).Priority
        = (if (readTodo w.heap p).Priority = 5 then 1 else (readTodo w.heap p).Priority + 1)) ∧
    ((runCmd env (.cyclePriority p) w).2.1 = some .todoUpdatedMsg →
      ∀ r ∈ (runCmd env (.cyclePriority p) w).1.db.rows, r.ID = (readTodo w.heap p).ID →
        r.Priority = (readTodo w.heap p).Priority.tmod 5 + 1) ∧
    (1 ≤ (readTodo w.heap p).Priority → (readTodo w.heap p).Priority ≤ 5 →
      (readTodo (runCmds [e1, e2, e3, e4, e5] (.cyclePriority p) w).heap p).Priority
        = (readTodo w.heap p).Priority) := by
  obtain ⟨hnone, hsome, -⟩ := SelectedTodo_cursor w.app.list
  have hsel : w.app.list.SelectedTodo = some p := (hsome p).mpr hcur
  have hcmd : w.app.list.cyclePriority = [.cyclePriority p] := by
    simp only [ListView.cyclePriority, hsel]
  obtain ⟨h1, h2, h3, h4⟩ := cyclePriority_run w env e1 e2 e3 e4 e5 p hp
  refine ⟨fun hv => ?_, hcmd, hsel, fun l hl => ?_, h1, fun q hq => ?_, h2, h3, h4⟩
  · rw [updateList_key_p host w.app w.heap hv, hcmd]
  · have hn := (SelectedTodo_cursor l).1.mpr hl
    simp only [ListView.cyclePriority, hn]
  · simp only [runCmd, cyclePriorityFn_heap]
    exact readTodo_writeTodo_other _ _ _ _ hq

/-- The cursor on the second task of five, whose priority is 3: the key `p`
dispatches the update of that task, one cycle gives the priority 4, five
cycles the priority 3 again. -/
theorem C14_cycle_priority_witness :
    ((0 ≤ ({ sampleWorld with app := { NewApp with list := sampleListView [0, 1, 2, 3, 4] 1 } }
          : World).app.list.cursor ∧
      ({ sampleWorld with app := { NewApp with list := sampleListView [0, 1, 2, 3, 4] 1 } }
          : World).app.list.todos.get? 1 = some 1) ∧
     1 < sampleWorld.heap.length ∧ 1 ≤ (readTodo sampleWorld.heap 1).Priority ∧
     (readTodo sampleWorld.heap 1).Priority ≤ 5) ∧
    App.Update sampleHost { NewApp with list := sampleListView [0, 1, 2, 3, 4] 1 }
        sampleWorld.heap (.KeyMsg "p")
      = ({ NewApp with list := sampleListView [0, 1, 2, 3, 4] 1 }, sampleWorld.heap,
         [.cyclePriority 1]) ∧
    (readTodo (runCmds [sampleEnv, sampleEnv, laterEnv, laterEnv, laterEnv] (.cyclePriority 1)
        { sampleWorld with app := { NewApp with list := sampleListView [0, 1, 2, 3, 4] 1 } }).heap
        1).Priority = (readTodo sampleWorld.heap 1).Priority ∧
    (readTodo (runCmd sampleEnv (.cyclePriority 1) sampleWorld).1.heap 1).Priority = 4 :=
  ⟨⟨⟨by decide, by decide⟩, by decide, by decide, by decide⟩,
   (C14_cycle_priority sampleHost
     { sampleWorld with app := { NewApp with list := sampleListView [0, 1, 2, 3, 4] 1 } }
     sampleEnv sampleEnv sampleEnv laterEnv laterEnv laterEnv 1
     ⟨by decide, by decide, by decide⟩ (by decide)).1 (by decide),
   (C14_cycle_priority sampleHost
     { sampleWorld with app := { NewApp with list := sampleListView [0, 1, 2, 3, 4] 1 } }
     sampleEnv sampleEnv sampleEnv laterEnv laterEnv laterEnv 1
     ⟨by decide, by decide, by decide⟩ (by decide)).2.2.2.2.2.2.2.2 (by decide) (by decide),
   by decide⟩

/-! ## The focus of the form -/

theorem updateFocus_fst (v : InputView) :
    v.updateFocus.1.focusIndex = v.focusIndex ∧
    v.updateFocus.1.inputs.length = v.inputs.length := by
  simp [InputView.updateFocus]

theorem Update_next (tiUpdate : TextInput → Msg → TextInput × List Cmd) (v : InputView)
    (key : String) (hkey : key = "tab" ∨ key = "down") (hlen : v.inputs.length = 5)
    (h0 : 0 ≤ v.focusIndex) (h4 : v.focusIndex ≤ 4) :
    (v.Update tiUpdate (.KeyMsg key)).1.focusIndex = (v.focusIndex + 1) % 5 ∧
    (v.Update tiUpdate (.KeyMsg key)).1.inputs.length = 5 := by
  simp only [InputView.Update, hkey, if_true, hlen]
  split
  · rw [(updateFocus_fst _).1, (updateFocus_fst _).2]
    refine ⟨?_, hlen⟩
    show (0 : Int) = _
    rename_i h
    simp only [Nat.cast_ofNat] at h
    omega
  · rw [(updateFocus_fst _).1, (updateFocus_fst _).2]
    refine ⟨?_, hlen⟩
    show v.focusIndex + 1 = _
    rename_i h
    simp only [Nat.cast_ofNat] at h
    omega

theorem Update_prev (tiUpdate : TextInput → Msg → TextInput × List Cmd) (v : InputView)
    (key : String) (hkey : key = "shift+tab" ∨ key = "up") (hlen : v.inputs.length = 5)
    (h0 : 0 ≤ v.focusIndex) (h4 : v.focusIndex ≤ 4) :
    (v.Update tiUpdate (.KeyMsg key)).1.focusIndex = (v.focusIndex + 4) % 5 ∧
    (v.Update tiUpdate (.KeyMsg key)).1.inputs.length = 5 := by
  have hne : ¬ (key = "tab" ∨ key = "down") := by
    rcases hkey with h | h <;> rw [h] <;> decide
  simp only [InputView.Update, hne, hkey, if_true, if_false, hlen]
  split
  · rw [(updateFocus_fst _).1, (updateFocus_fst _).2]
    refine ⟨?_, hlen⟩
    show ((5 : Nat) : Int) - 1 = _
    rename_i h
    simp only [Nat.cast_ofNat]
    omega
  · rw [(updateFocus_fst _).1, (updateFocus_fst _).2]
    refine ⟨?_, hlen⟩
    show v.focusIndex - 1 = _
    rename_i h
    omega

theorem pressAll_range (tiUpdate : TextInput → Msg → TextInput × List Cmd) (keys : List String)
    (hkeys : ∀ key ∈ keys, key = "tab" ∨ key = "down" ∨ key = "shift+tab" ∨ key = "up")
    (v : InputView) (hlen : v.inputs.length = 5) (h0 : 0 ≤ v.focusIndex)
    (h4 : v.focusIndex ≤ 4) :
    0 ≤ (pressAll tiUpdate keys v).focusIndex ∧ (pressAll tiUpdate keys v).focusIndex ≤ 4 ∧
    (pressAll tiUpdate keys v).inputs.length = 5 := by
  induction keys generalizing v with
  | nil => exact ⟨h0, h4, hlen⟩
  | cons key keys ih =>
    have hk := hkeys key (List.mem_cons_self key keys)
    have hrest : ∀ k ∈ keys, k = "tab" ∨ k = "down" ∨ k = "shift+tab" ∨ k = "up" :=
      fun k hk => hkeys k (List.mem_cons_of_mem key hk)
    have hstep : 0 ≤ (v.Update tiUpdate (.KeyMsg key)).1.focusIndex ∧
        (v.Update tiUpdate (.KeyMsg key)).1.focusIndex ≤ 4 ∧
        (v.Update tiUpdate (.KeyMsg key)).1.inputs.length = 5 := by
      rcases hk with h | h | h | h
      · have := Update_next tiUpdate v key (Or.inl h) hlen h0 h4
        exact ⟨by omega, by omega, this.2⟩
      · have := Update_next tiUpdate v key (Or.inr h) hlen h0 h4
        exact ⟨by omega, by omega, this.2⟩
      · have := Update_prev tiUpdate v key (Or.inl h) hlen h0 h4
        exact ⟨by omega, by omega, this.2⟩
      · have := Update_prev tiUpdate v key (Or.inr h) hlen h0 h4
        exact ⟨by omega, by omega, this.2⟩
    exact ih hrest _ hstep.2.2 hstep.1 hstep.2.1

/-- C15: in the form of five fields, with the focus index `i` in 0..4, the
keys `tab` and `down` move the focus to `(i+1) mod 5` and the keys `shift+tab`
and `up` to `(i+4) mod 5`; the index stays in 0..4 under every sequence of
these keys, an advance followed by its opposite leads back to `i`, and so do
five advances in one direction. -/
theorem C15_focus_cycles (tiUpdate : TextInput → Msg → TextInput × List Cmd) (v : InputView)
    (next prev : String) (keys : List String)
    (hnext : next = "tab" ∨ next = "down") (hprev : prev = "shift+tab" ∨ prev = "up")
    (hkeys : ∀ key ∈ keys, key = "tab" ∨ key = "down" ∨ key = "shift+tab" ∨ key = "up")
    (hlen : v.inputs.length = 5) (h0 : 0 ≤ v.focusIndex) (h4 : v.focusIndex ≤ 4) :
    (v.Update tiUpdate (.KeyMsg next)).1.focusIndex = (v.focusIndex + 1) % 5 ∧
    (v.Update tiUpdate (.KeyMsg prev)).1.focusIndex = (v.focusIndex + 4) % 5 ∧
    (0 ≤ (pressAll tiUpdate keys v).focusIndex ∧ (pressAll tiUpdate keys v).focusIndex ≤ 4) ∧
    (pressAll tiUpdate [next, prev] v).focusIndex = v.focusIndex ∧
    (pressAll tiUpdate [prev, next] v).focusIndex = v.focusIndex ∧
    (pressAll tiUpdate [next, next, next, next, next] v).focusIndex = v.focusIndex ∧
    (pressAll tiUpdate [prev, prev, prev, prev, prev] v).focusIndex = v.focusIndex := by
  have hn := Update_next tiUpdate v next hnext hlen h0 h4
  have hp := Update_prev tiUpdate v prev hprev hlen h0 h4
  have hr := pressAll_range tiUpdate keys hkeys v hlen h0 h4
  refine ⟨hn.1, hp.1, ⟨hr.1, hr.2.1⟩, ?_, ?_, ?_, ?_⟩
  · simp only [pressAll, List.foldl]
    have h2 := Update_prev tiUpdate _ prev hprev hn.2 (by omega) (by omega)
    rw [h2.1, hn.1]
    omega
  · simp only [pressAll, List.foldl]
    have h2 := Update_next tiUpdate _ next hnext hp.2 (by omega) (by omega)
    rw [h2.1, hp.1]
    omega
  · simp only [pressAll, List.foldl]
    have a2 := Update_next tiUpdate _ next hnext hn.2 (by omega) (by omega)
    have a3 := Update_next tiUpdate _ next hnext a2.2 (by omega) (by omega)
    have a4 := Update_next tiUpdate _ next hnext a3.2 (by omega) (by omega)
    have a5 := Update_next tiUpdate _ next hnext a4.2 (by omega) (by omega)
    rw [a5.1, a4.1, a3.1, a2.1, hn.1]
    omega
  · simp only [pressAll, List.foldl]
    have a2 := Update_prev tiUpdate _ prev hprev hp.2 (by omega) (by omega)
    have a3 := Update_prev tiUpdate _ prev hprev a2.2 (by omega) (by omega)
    have a4 := Update_prev tiUpdate _ prev hprev a3.2 (by omega) (by omega)
    have a5 := Update_prev tiUpdate _ prev hprev a4.2 (by omega) (by omega)
    rw [a5.1, a4.1, a3.1, a2.1, hp.1]
    omega

/-- The new form, focus on the title: `tab` moves to the description and
`shift+tab` to the priority. -/
theorem C15_focus_cycles_witness :
    (("tab" = "tab" ∨ "tab" = "down") ∧ ("shift+tab" = "shift+tab" ∨ "shift+tab" = "up") ∧
     (∀ key ∈ ["tab", "up", "up"],
        key = "tab" ∨ key = "down" ∨ key = "shift+tab" ∨ key = "up") ∧
     NewInputView.inputs.length = 5 ∧ 0 ≤ NewInputView.focusIndex ∧
     NewInputView.focusIndex ≤ 4) ∧
    ((NewInputView.Update sampleHost.tiUpdate (.KeyMsg "tab")).1.focusIndex
        = (NewInputView.focusIndex + 1) % 5 ∧
     (NewInputView.Update sampleHost.tiUpdate (.KeyMsg "shift+tab")).1.focusIndex
        = (NewInputView.focusIndex + 4) % 5 ∧
     (0 ≤ (pressAll sampleHost.tiUpdate ["tab", "up", "up"] NewInputView).focusIndex ∧
      (pressAll sampleHost.tiUpdate ["tab", "up", "up"] NewInputView).focusIndex ≤ 4) ∧
     (pressAll sampleHost.tiUpdate ["tab", "shift+tab"] NewInputView).focusIndex
        = NewInputView.focusIndex ∧
     (pressAll sampleHost.tiUpdate ["shift+tab", "tab"] NewInputView).focusIndex
        = NewInputView.focusIndex ∧
     (pressAll sampleHost.tiUpdate ["tab", "tab", "tab", "tab", "tab"] NewInputView).focusIndex
        = NewInputView.focusIndex ∧
     (pressAll sampleHost.tiUpdate ["shift+tab", "shift+tab", "shift+tab", "shift+tab",
        "shift+tab"] NewInputView).focusIndex = NewInputView.focusIndex) ∧
    (pressAll sampleHost.tiUpdate ["tab", "up", "up"] NewInputView).focusIndex = 4 :=
  ⟨⟨by decide, by decide, by decide, by decide, by decide, by decide⟩,
   C15_focus_cycles sampleHost.tiUpdate NewInputView "tab" "shift+tab" ["tab", "up", "up"]
     (by decide) (by decide) (by decide) (by decide) (by decide) (by decide),
   by decide⟩


/-! ## The tag filter and the search of the list view -/

/-- C16, as stated, fails: a tag toggled before a cancel is still selected
after the cancel, while no tag is committed, and the next confirm commits
it. -/
theorem C16_counterexample :
    (pressKeys sampleHost [" ", "esc"] tagFilterApp []).view = .ViewList ∧
    (pressKeys sampleHost [" ", "esc"] tagFilterApp []).list.filter.Tags = [] ∧
    (pressKeys sampleHost [" ", "esc"] tagFilterApp []).list.selectedTags = ["#a"] ∧
    (pressKeys sampleHost [" ", "esc", "t"] tagFilterApp []).view = .ViewTagFilter ∧
    (pressKeys sampleHost [" ", "esc", "t", "enter"] tagFilterApp []).list.filter.Tags
      = ["#a"] := by
  decide

/-- C16, amended: cancelling from the tag filter, with `esc` or `q`, returns
to Browsing and changes nothing else: the committed tags stay as they are and
so does the tentative selection, which the next confirm then commits. -/
theorem C16_tag_cancel (host : Host) (a : App) (heap : Heap) (key : String)
    (hview : a.view = .ViewTagFilter) (hkey : key = "esc" ∨ key = "q") :
    App.Update host a heap (.KeyMsg key) = ({ a with view := .ViewList }, heap, []) ∧
    (App.Update host a heap (.KeyMsg key)).1.list.filter.Tags = a.list.filter.Tags ∧
    (App.Update host a heap (.KeyMsg key)).1.list.selectedTags = a.list.selectedTags ∧
    (App.Update host { (App.Update host a heap (.KeyMsg key)).1 with view := .ViewTagFilter }
        heap (.KeyMsg "enter")).1.list.filter.Tags = host.rangeTags a.list.selectedTags := by
  have hc : key ≠ "ctrl+c" := by
    rcases hkey with h | h <;> rw [h] <;> decide
  have h1 : App.Update host a heap (.KeyMsg key) = ({ a with view := .ViewList }, heap, []) := by
    simp only [App.Update, hc, if_false, App.route, hview, App.updateTagFilter, hkey, if_true]
  rw [h1]
  refine ⟨rfl, rfl, rfl, ?_⟩
  have he : ("enter" : String) ≠ "ctrl+c" := by decide
  have he2 : ¬ (("enter" : String) = "esc" ∨ ("enter" : String) = "q") := by decide
  simp only [App.Update, he, if_false, App.route, App.updateTagFilter, he2, if_true,
    ListView.applyTagFilter]

/-- The tag filter with `#a` selected and nothing committed: `esc` returns to
the list and keeps the selection. -/
theorem C16_tag_cancel_witness :
    ((pressKeys sampleHost [" "] tagFilterApp []).view = .ViewTagFilter ∧
      ("esc" = "esc" ∨ "esc" = "q")) ∧
    (App.Update sampleHost (pressKeys sampleHost [" "] tagFilterApp []) [] (.KeyMsg "esc")
        = ({ pressKeys sampleHost [" "] tagFilterApp [] with view := .ViewList }, [], []) ∧
     (App.Update sampleHost (pressKeys sampleHost [" "] tagFilterApp []) []
        (.KeyMsg "esc")).1.list.filter.Tags
        = (pressKeys sampleHost [" "] tagFilterApp []).list.filter.Tags ∧
     (App.Update sampleHost (pressKeys sampleHost [" "] tagFilterApp []) []
        (.KeyMsg "esc")).1.list.selectedTags
        = (pressKeys sampleHost [" "] tagFilterApp []).list.selectedTags ∧
     (App.Update sampleHost
        { (App.Update sampleHost (pressKeys sampleHost [" "] tagFilterApp []) []
            (.KeyMsg "esc")).1 with view := .ViewTagFilter }
        [] (.KeyMsg "enter")).1.list.filter.Tags
        = sampleHost.rangeTags (pressKeys sampleHost [" "] tagFilterApp []).list.selectedTags) :=
  ⟨⟨by decide, by decide⟩,
   C16_tag_cancel sampleHost (pressKeys sampleHost [" "] tagFilterApp []) [] "esc" (by decide)
     (by decide)⟩

/-- C17: from the search view, `enter` moves to Browsing with the search of
the query equal to the text of the search field, and `esc` moves to Browsing
with the search of the query empty and the search field cleared; both return
the command that reloads the list, and neither changes another field of the
query. -/
theorem C17_search_confirm_cancel (host : Host) (a : App) (heap : Heap)
    (hview : a.view = .ViewSearch) :
    ((App.Update host a heap (.KeyMsg "enter")).1.view = .ViewList ∧
     (App.Update host a heap (.KeyMsg "enter")).1.list.filter
       = { a.list.filter with Search := a.list.searchInput.value } ∧
     (App.Update host a heap (.KeyMsg "enter")).1.list.searchInput.value
       = a.list.searchInput.value ∧
     (App.Update host a heap (.KeyMsg "enter")).2.2 = [.loadTodos]) ∧
    ((App.Update host a heap (.KeyMsg "esc")).1.view = .ViewList ∧
     (App.Update host a heap (.KeyMsg "esc")).1.list.filter = { a.list.filter with Search := "" } ∧
     (App.Update host a heap (.KeyMsg "esc")).1.list.searchInput.value = "" ∧
     (App.Update host a heap (.KeyMsg "esc")).2.2 = [.loadTodos]) := by
  have he : ("enter" : String) ≠ "ctrl+c" := by decide
  have he2 : ("enter" : String) ≠ "esc" := by decide
  have hx : ("esc" : String) ≠ "ctrl+c" := by decide
  constructor
  · simp only [App.Update, he, if_false, App.route, hview, App.updateSearch, he2, if_true,
      ListView.loadTodos, TextInput.Value, TextInput.Blur, and_self]
  · simp only [App.Update, hx, if_false, App.route, hview, App.updateSearch, if_true,
      ListView.loadTodos, TextInput.clear, TextInput.Blur, and_self]

/-- The search view with `milk` typed: `enter` commits it. -/
theorem C17_search_confirm_cancel_witness :
    searchApp.view = .ViewSearch ∧
    (App.Update sampleHost searchApp [] (.KeyMsg "enter")).1.list.filter.Search = "milk" ∧
    ((App.Update sampleHost searchApp [] (.KeyMsg "esc")).1.view = .ViewList ∧
     (App.Update sampleHost searchApp [] (.KeyMsg "esc")).1.list.filter
       = { searchApp.list.filter with Search := "" } ∧
     (App.Update sampleHost searchApp [] (.KeyMsg "esc")).1.list.searchInput.value = "" ∧
     (App.Update sampleHost searchApp [] (.KeyMsg "esc")).2.2 = [.loadTodos]) :=
  ⟨by decide, by decide, (C17_search_confirm_cancel sampleHost searchApp [] (by decide)).2⟩

/-- C18: toggle-scope flips the completed filter between `pending only`
(completed = false) and `all` (no completed filter).  From a list view in one
of these two states, the initial one being `pending only`, the key `tab`
leads to the other, returns the command that reloads the list and changes no
other field of the query; `showPending` is true exactly when the filter is
completed = false, before and after; and two toggles restore the list view. -/
theorem C18_toggle_scope (l : ListView)
    (hscope : (l.showPending = true ∧ l.filter.Completed = some false) ∨
      (l.showPending = false ∧ l.filter.Completed = none)) :
    (NewListView.showPending = true ∧ NewListView.filter.Completed = some false) ∧
    (l.Update (.KeyMsg "tab")).1.showPending = !l.showPending ∧
    (l.Update (.KeyMsg "tab")).1.filter
      = { l.filter with Completed := if l.showPending then none else some false } ∧
    ((l.Update (.KeyMsg "tab")).1.showPending = true ↔
      (l.Update (.KeyMsg "tab")).1.filter.Completed = some false) ∧
    (l.showPending = true ↔ l.filter.Completed = some false) ∧
    (l.Update (.KeyMsg "tab")).2 = [.loadTodos] ∧
    ((l.Update (.KeyMsg "tab")).1.Update (.KeyMsg "tab")).1 = l := by
  have h1 : ¬ (("tab" : String) = "j" ∨ ("tab" : String) = "down") := by decide
  have h2 : ¬ (("tab" : String) = "k" ∨ ("tab" : String) = "up") := by decide
  have h3 : ("tab" : String) ≠ "g" := by decide
  have h4 : ("tab" : String) ≠ "G" := by decide
  refine ⟨⟨rfl, rfl⟩, ?_⟩
  rcases hscope with ⟨hs, hf⟩ | ⟨hs, hf⟩
  · simp only [ListView.Update, h1, h2, h3, h4, if_false, if_true, hs, hf, ListView.loadTodos,
      Bool.not_true, Bool.false_eq_true, true_and, and_true, reduceCtorEq]
    cases l with
    | mk todos cursor selected filter width height searchMode searchInput allTags selectedTags
        tagCursor showPending =>
      cases filter
      simp_all
  · simp only [ListView.Update, h1, h2, h3, h4, if_false, if_true, hs, hf, ListView.loadTodos,
      Bool.not_false, Bool.false_eq_true, true_and, and_true, reduceCtorEq]
    cases l with
    | mk todos cursor selected filter width height searchMode searchInput allTags selectedTags
        tagCursor showPending =>
      cases filter
      simp_all

/-- The list view of a new session: `tab` shows all tasks, a second `tab` only
the pending ones again. -/
theorem C18_toggle_scope_witness :
    ((NewListView.showPending = true ∧ NewListView.filter.Completed = some false) ∨
      (NewListView.showPending = false ∧ NewListView.filter.Completed = none)) ∧
    ((NewListView.Update (.KeyMsg "tab")).1.Update (.KeyMsg "tab")).1 = NewListView ∧
    (NewListView.Update (.KeyMsg "tab")).1.filter.Completed = none :=
  ⟨by decide, (C18_toggle_scope NewListView (by decide)).2.2.2.2.2.2, by decide⟩


/-! ## `ParseTags` -/

/-- The fields `fieldsFrom` returns are the pieces between the white space
characters that are not empty, the first piece continuing the field under
way. -/
theorem fieldsFrom_splitOnP (s cur : List Char) :
    (fieldsFrom s cur).map String.toList =
      ((s.splitOnP isSpace).modifyHead (fun l => cur.reverse ++ l)).filter
        (fun tok => !tok.isEmpty) := by
  induction s generalizing cur with
  | nil =>
    cases cur with
    | nil => simp [fieldsFrom, List.splitOnP_nil, List.modifyHead]
    | cons c cur => simp [fieldsFrom, List.splitOnP_nil, List.modifyHead]
  | cons c s ih =>
    rw [List.splitOnP_cons]
    unfold fieldsFrom
    by_cases hc : isSpace c = true
    · simp only [hc, if_true, List.modifyHead_cons, List.append_nil]
      cases cur with
      | nil =>
        have := ih []
        simp only [List.reverse_nil, List.nil_append] at this
        have hid : (List.splitOnP isSpace s).modifyHead (fun l => l) = List.splitOnP isSpace s := by
          cases List.splitOnP isSpace s <;> rfl
        rw [hid] at this
        simp [this]
      | cons d cur =>
        have := ih []
        simp only [List.reverse_nil, List.nil_append] at this
        have hid : (List.splitOnP isSpace s).modifyHead (fun l => l) = List.splitOnP isSpace s := by
          cases List.splitOnP isSpace s <;> rfl
        rw [hid] at this
        simp [this]
    · simp only [hc, if_false, Bool.false_eq_true]
      rw [ih (c :: cur), List.modifyHead_modifyHead]
      congr 2
      funext l
      simp

/-- Every field is non-empty and free of white space, provided the field under
way is. -/
theorem fieldsFrom_tokens (s cur : List Char) (hcur : ∀ c ∈ cur, isSpace c = false) :
    ∀ tok ∈ fieldsFrom s cur, tok.toList ≠ [] ∧ ∀ c ∈ tok.toList, isSpace c = false := by
  induction s generalizing cur with
  | nil =>
    intro tok htok
    unfold fieldsFrom at htok
    cases cur with
    | nil => simp at htok
    | cons d cur =>
      simp only [List.isEmpty_cons, Bool.false_eq_true, if_false, List.mem_singleton] at htok
      subst htok
      refine ⟨by simp, ?_⟩
      intro c hc
      exact hcur c (by simpa [or_comm] using hc)
  | cons c s ih =>
    intro tok htok
    unfold fieldsFrom at htok
    by_cases hc : isSpace c = true
    · simp only [hc, if_true] at htok
      cases cur with
      | nil =>
        simp only [List.isEmpty_nil, if_true] at htok
        exact ih [] (by simp) tok htok
      | cons d cur =>
        simp only [List.isEmpty_cons, Bool.false_eq_true, if_false, List.mem_cons] at htok
        rcases htok with rfl | htok
        · refine ⟨by simp, ?_⟩
          intro x hx
          exact hcur x (by simpa [or_comm] using hx)
        · exact ih [] (by simp) tok htok
    · simp only [hc, if_false, Bool.false_eq_true] at htok
      refine ih (c :: cur) ?_ tok htok
      intro x hx
      rcases List.mem_cons.mp hx with rfl | hx
      · simpa using hc
      · exact hcur x hx

theorem dropWhile_isSpace_eq (l : List Char) (h : ∀ c ∈ l, isSpace c = false) :
    l.dropWhile isSpace = l := by
  cases l with
  | nil => rfl
  | cons c l => simp [List.dropWhile, h c (List.mem_cons_self c l)]

theorem trimSpaceChars_eq (l : List Char) (h : ∀ c ∈ l, isSpace c = false) :
    trimSpaceChars l = l := by
  unfold trimSpaceChars
  rw [dropWhile_isSpace_eq l h, dropWhile_isSpace_eq l.reverse (by simpa using h),
    List.reverse_reverse]

theorem TrimSpace_token (tok : String) (h : ∀ c ∈ tok.toList, isSpace c = false) :
    TrimSpace tok = tok := by
  unfold TrimSpace
  rw [trimSpaceChars_eq _ h]
  cases tok
  rfl

theorem toList_ne_nil (s : String) (h : s.toList ≠ []) : s ≠ "" := by
  intro hs
  rw [hs] at h
  exact h rfl

theorem ParseTags_eq (tagStr : String) :
    sliceElems (ParseTags tagStr) =
      (Fields tagStr).map (fun tok => if hasHashPrefix tok then tok else "#" ++ tok) := by
  unfold ParseTags
  by_cases he : tagStr = ""
  · subst he
    simp [sliceElems, Fields, fieldsFrom]
  · simp only [he, if_false, sliceElems, Option.getD_some]
    have htok := fieldsFrom_tokens tagStr.toList [] (by simp)
    unfold Fields
    generalize fieldsFrom tagStr.toList [] = toks at htok
    induction toks with
    | nil => rfl
    | cons tok toks ih =>
      have h1 := htok tok (List.mem_cons_self tok toks)
      have h2 : ∀ t ∈ toks, t.toList ≠ [] ∧ ∀ c ∈ t.toList, isSpace c = false :=
        fun t ht => htok t (List.mem_cons_of_mem tok ht)
      rw [List.filterMap_cons, List.map_cons, ← ih h2]
      simp only [TrimSpace_token tok h1.2, toList_ne_nil tok h1.1, ne_eq, not_false_eq_true,
        if_true]
      cases hasHashPrefix tok <;> simp

theorem fieldsFrom_blank (s : List Char) (h : ∀ c ∈ s, isSpace c = true) :
    fieldsFrom s [] = [] := by
  induction s with
  | nil => rfl
  | cons c s ih =>
    unfold fieldsFrom
    simp only [h c (List.mem_cons_self c s), if_true, List.isEmpty_nil]
    exact ih (fun x hx => h x (List.mem_cons_of_mem c hx))

/-- C19: `ParseTags` returns, in the order of the input, one tag for each field
of the input, the fields being the non-empty pieces between its white space
characters: the field itself when it begins with `#`, the field with `#` put
before it otherwise.  Every tag returned is non-empty, free of white space and
begins with `#`; an input of white space only yields no tag, and the empty
input the nil slice. -/
theorem C19_ParseTags (tagStr : String) :
    sliceElems (ParseTags tagStr) =
      (Fields tagStr).map (fun tok => if hasHashPrefix tok then tok else "#" ++ tok) ∧
    (Fields tagStr).map String.toList =
      (tagStr.toList.splitOnP isSpace).filter (fun tok => !tok.isEmpty) ∧
    (∀ tag ∈ sliceElems (ParseTags tagStr),
      tag ≠ "" ∧ (∀ c ∈ tag.toList, isSpace c = false) ∧ hasHashPrefix tag = true) ∧
    ((∀ c ∈ tagStr.toList, isSpace c = true) → sliceElems (ParseTags tagStr) = []) ∧
    (tagStr = "" → ParseTags tagStr = none) := by
  refine ⟨ParseTags_eq tagStr, ?_, ?_, ?_, ?_⟩
  · have h := fieldsFrom_splitOnP tagStr.toList []
    have hid : (List.splitOnP isSpace tagStr.toList).modifyHead (fun l => [].reverse ++ l)
        = List.splitOnP isSpace tagStr.toList := by
      cases List.splitOnP isSpace tagStr.toList <;> rfl
    rw [hid] at h
    exact h
  · intro tag htag
    rw [ParseTags_eq, List.mem_map] at htag
    obtain ⟨tok, htok, rfl⟩ := htag
    have ht := fieldsFrom_tokens tagStr.toList [] (by simp) tok htok
    by_cases hh : hasHashPrefix tok = true
    · simp only [hh, if_true]
      exact ⟨toList_ne_nil tok ht.1, ht.2, trivial⟩
    · simp only [hh, if_false, Bool.false_eq_true]
      have hl : ("#" ++ tok).toList = '#' :: tok.toList := by
        simp [String.toList]
      refine ⟨toList_ne_nil _ (by rw [hl]; simp), ?_, ?_⟩
      · intro c hc
        rw [hl] at hc
        rcases List.mem_cons.mp hc with rfl | hc
        · decide
        · exact ht.2 c hc
      · simp [hasHashPrefix, hl]
  · intro hblank
    rw [ParseTags_eq]
    unfold Fields
    rw [fieldsFrom_blank _ hblank]
    rfl
  · intro he
    simp [ParseTags, he]

/-- The input `  work #x  y ` has the three fields `work`, `#x` and `y`. -/
theorem C19_ParseTags_witness :
    ParseTags "  work #x  y " = some ["#work", "#x", "#y"] ∧
    Fields "  work #x  y " = ["work", "#x", "y"] ∧
    ParseTags " \t " = some [] ∧
    sliceElems (ParseTags "  work #x  y ") =
      (Fields "  work #x  y ").map (fun tok => if hasHashPrefix tok then tok else "#" ++ tok) :=
  ⟨by decide, by decide, by decide, (C19_ParseTags "  work #x  y ").1⟩


/-! ## `ParseDueDate` -/

theorem parseFormats_some (fs : List (List Chunk)) (dateStr : String) (t : Time)
    (h : parseFormats fs dateStr = some t) :
    t.nsec = 86399 * 1000000000 ∧
    ∃ f ∈ fs, ∃ d, timeParse f dateStr = some d ∧ t.day = civilDay d.year d.month d.day := by
  induction fs with
  | nil => simp [parseFormats] at h
  | cons f fs ih =>
    unfold parseFormats at h
    cases hp : timeParse f dateStr with
    | some d =>
      simp only [hp, Option.some.injEq] at h
      subst h
      exact ⟨rfl, f, List.mem_cons_self f fs, d, hp, rfl⟩
    | none =>
      simp only [hp] at h
      obtain ⟨h1, g, hg, d, hd, hday⟩ := ih h
      exact ⟨h1, g, List.mem_cons_of_mem f hg, d, hd, hday⟩

theorem parseFormats_isSome (fs : List (List Chunk)) (dateStr : String) :
    (∃ t, parseFormats fs dateStr = some t) ↔ ∃ f ∈ fs, (timeParse f dateStr).isSome = true := by
  induction fs with
  | nil => simp [parseFormats]
  | cons f fs ih =>
    unfold parseFormats
    cases hp : timeParse f dateStr with
    | some d => simp [hp]
    | none => simp [hp, ih]

theorem timeParse_day (f : List Chunk) (dateStr : String) (d : Parsed)
    (h : timeParse f dateStr = some d) : 1 ≤ d.day ∧ d.day ≤ daysIn d.month d.year := by
  unfold timeParse at h
  split at h
  · simp at h
  · split at h
    · simp at h
    · simp only [Option.some.injEq] at h
      subst h
      omega

/-- C20, as stated, fails: for the empty input `ParseDueDate` returns neither
a timestamp nor an error, and for `nextweek`, which is none of `today`,
`tomorrow`, `next-week` and has none of the layouts, it returns a timestamp. -/
theorem C20_counterexample :
    ParseDueDate "" sampleNow = .ok none ∧
    ParseDueDate "nextweek" sampleNow
      = .ok (some { day := sampleNow.day + 7, nsec := 86399 * 1000000000 }) ∧
    ToLower "nextweek" ∉ ["today", "tomorrow", "next-week"] ∧
    (∀ f ∈ formats, timeParse f "nextweek" = none) := by
  decide

/-- C20, amended: for the empty input `ParseDueDate` returns no timestamp and
no error.  For any other input it returns a timestamp iff the input, in lower
case, is `today`, `tomorrow`, `next-week` or `nextweek`, or `time.Parse`
accepts it under one of the six layouts, and otherwise fails with the error
`invalid date format`.  Every timestamp returned is 23:59:59 of the day
recognised: today, the day after, the seventh day after, or the date read
under the first layout that accepts the input, which is a day that exists in
its month. -/
theorem C20_ParseDueDate (dateStr : String) (now : Time) :
    (dateStr = "" → ParseDueDate dateStr now = .ok none) ∧
    (dateStr ≠ "" →
      ((∃ t, ParseDueDate dateStr now = .ok (some t)) ↔
        (ToLower dateStr = "today" ∨ ToLower dateStr = "tomorrow"
          ∨ ToLower dateStr = "next-week" ∨ ToLower dateStr = "nextweek"
          ∨ ∃ f ∈ formats, (timeParse f dateStr).isSome = true)) ∧
      ((¬ ∃ t, ParseDueDate dateStr now = .ok (some t)) →
        ParseDueDate dateStr now = .error ("invalid date format: " ++ dateStr))) ∧
    (∀ t, ParseDueDate dateStr now = .ok (some t) →
      t.nsec = 86399 * 1000000000 ∧
      (ToLower dateStr = "today" → t.day = now.day) ∧
      (ToLower dateStr = "tomorrow" → t.day = now.day + 1) ∧
      (ToLower dateStr = "next-week" ∨ ToLower dateStr = "nextweek" → t.day = now.day + 7) ∧
      (¬ (ToLower dateStr = "today" ∨ ToLower dateStr = "tomorrow"
          ∨ ToLower dateStr = "next-week" ∨ ToLower dateStr = "nextweek") →
        ∃ f ∈ formats, ∃ d, timeParse f dateStr = some d
          ∧ t.day = civilDay d.year d.month d.day
          ∧ 1 ≤ d.day ∧ d.day ≤ daysIn d.month d.year)) := by
  have h12 : ("today" : String) ≠ "tomorrow" := by decide
  have h13 : ("today" : String) ≠ "next-week" := by decide
  have h14 : ("today" : String) ≠ "nextweek" := by decide
  have h23 : ("tomorrow" : String) ≠ "next-week" := by decide
  have h24 : ("tomorrow" : String) ≠ "nextweek" := by decide
  have h21 : ("tomorrow" : String) ≠ "today" := by decide
  refine ⟨fun he => by simp [ParseDueDate, he], ?_, ?_⟩
  · intro hne
    by_cases h1 : ToLower dateStr = "today"
    · simp [ParseDueDate, hne, h1]
    · by_cases h2 : ToLower dateStr = "tomorrow"
      · simp [ParseDueDate, hne, h2, h21]
      · by_cases h3 : ToLower dateStr = "next-week" ∨ ToLower dateStr = "nextweek"
        · have hsome : ∃ t, ParseDueDate dateStr now = .ok (some t) := by
            unfold ParseDueDate
            simp only [hne, h1, h2, h3, if_true, if_false]
            exact ⟨_, rfl⟩
          refine ⟨⟨fun _ => ?_, fun _ => hsome⟩, fun hn => absurd hsome hn⟩
          rcases h3 with h | h
          · exact Or.inr (Or.inr (Or.inl h))
          · exact Or.inr (Or.inr (Or.inr (Or.inl h)))
        · have hn3 : ToLower dateStr ≠ "next-week" := fun h => h3 (Or.inl h)
          have hn4 : ToLower dateStr ≠ "nextweek" := fun h => h3 (Or.inr h)
          cases hp : parseFormats formats dateStr with
          | some t =>
            have hres : ParseDueDate dateStr now = .ok (some t) := by
              unfold ParseDueDate
              simp only [hne, h1, h2, h3, if_false, hp]
            have hf := (parseFormats_isSome formats dateStr).mp ⟨t, hp⟩
            refine ⟨⟨fun _ => Or.inr (Or.inr (Or.inr (Or.inr hf))), fun _ => ⟨t, hres⟩⟩,
              fun hn => absurd ⟨t, hres⟩ hn⟩
          | none =>
            have hres : ParseDueDate dateStr now = .error ("invalid date format: " ++ dateStr) := by
              unfold ParseDueDate
              simp only [hne, h1, h2, h3, if_false, hp]
            have hnf : ¬ ∃ f ∈ formats, (timeParse f dateStr).isSome = true := by
              intro hf
              obtain ⟨t, ht⟩ := (parseFormats_isSome formats dateStr).mpr hf
              rw [hp] at ht
              exact absurd ht (by simp)
            refine ⟨⟨fun hs => ?_, fun hs => ?_⟩, fun _ => hres⟩
            · obtain ⟨t, ht⟩ := hs
              rw [hres] at ht
              exact absurd ht (by simp)
            · rcases hs with h | h | h | h | h
              · exact absurd h h1
              · exact absurd h h2
              · exact absurd h hn3
              · exact absurd h hn4
              · exact absurd h hnf
  · intro t ht
    have hne : dateStr ≠ "" := by
      intro he
      simp [ParseDueDate, he] at ht
    unfold ParseDueDate at ht
    simp only [hne, if_false] at ht
    by_cases h1 : ToLower dateStr = "today"
    · simp only [h1, if_true, Except.ok.injEq, Option.some.injEq] at ht
      subst ht
      refine ⟨rfl, fun _ => rfl, fun h => absurd (h1.symm.trans h) h12, ?_,
        fun h => absurd (Or.inl h1) h⟩
      rintro (h | h)
      · exact absurd (h1.symm.trans h) h13
      · exact absurd (h1.symm.trans h) h14
    · simp only [h1, if_false] at ht
      by_cases h2 : ToLower dateStr = "tomorrow"
      · simp only [h2, if_true, Except.ok.injEq, Option.some.injEq] at ht
        subst ht
        refine ⟨rfl, fun h => absurd h h1, fun _ => rfl, ?_,
          fun h => absurd (Or.inr (Or.inl h2)) h⟩
        rintro (h | h)
        · exact absurd (h2.symm.trans h) h23
        · exact absurd (h2.symm.trans h) h24
      · simp only [h2, if_false] at ht
        by_cases h3 : ToLower dateStr = "next-week" ∨ ToLower dateStr = "nextweek"
        · simp only [h3, if_true, Except.ok.injEq, Option.some.injEq] at ht
          subst ht
          refine ⟨rfl, fun h => absurd h h1, fun h => absurd h h2, fun _ => rfl, ?_⟩
          intro h
          rcases h3 with h3 | h3
          · exact absurd (Or.inr (Or.inr (Or.inl h3))) h
          · exact absurd (Or.inr (Or.inr (Or.inr h3))) h
        · simp only [h3, if_false] at ht
          cases hp : parseFormats formats dateStr with
          | none => simp [hp] at ht
          | some t0 =>
            simp only [hp, Except.ok.injEq, Option.some.injEq] at ht
            subst ht
            obtain ⟨hn, f, hf, d, hd, hday⟩ := parseFormats_some formats dateStr t0 hp
            refine ⟨hn, fun h => absurd h h1, fun h => absurd h h2, fun h => absurd h h3, ?_⟩
            intro _
            exact ⟨f, hf, d, hd, hday, timeParse_day f dateStr d hd⟩

/-- The inputs `ToDay`, `2026-02-14`, `Feb 14, 2026` and `02/14/2026` give the
end of the day each names; `2026-02-30` and `14.02.2026` are rejected. -/
theorem C20_ParseDueDate_witness :
    ("2026-02-14" : String) ≠ "" ∧
    ((∃ t, ParseDueDate "2026-02-14" sampleNow = .ok (some t)) ↔
      (ToLower "2026-02-14" = "today" ∨ ToLower "2026-02-14" = "tomorrow"
        ∨ ToLower "2026-02-14" = "next-week" ∨ ToLower "2026-02-14" = "nextweek"
        ∨ ∃ f ∈ formats, (timeParse f "2026-02-14").isSome = true)) ∧
    ParseDueDate "2026-02-14" sampleNow = .ok (some { day := 20498, nsec := 86399000000000 }) ∧
    ParseDueDate "Feb 14, 2026" sampleNow = .ok (some { day := 20498, nsec := 86399000000000 }) ∧
    ParseDueDate "02/14/2026" sampleNow = .ok (some { day := 20498, nsec := 86399000000000 }) ∧
    ParseDueDate "ToDay" sampleNow = .ok (some { day := 20500, nsec := 86399000000000 }) ∧
    ParseDueDate "2026-02-30" sampleNow = .error "invalid date format: 2026-02-30" ∧
    ParseDueDate "14.02.2026" sampleNow = .error "invalid date format: 14.02.2026" ∧
    formatDate { day := 20498, nsec := 86399000000000 } = "2026-02-14" :=
  ⟨by decide, ((C20_ParseDueDate "2026-02-14" sampleNow).2.1 (by decide)).1, by decide,
   by decide, by decide, by decide, by decide, by decide, by decide⟩

/-! ## Due dates entered by name against the due-date filters -/

theorem ParseDueDate_today (now : Time) :
    ParseDueDate "today" now = .ok (some now.endOfDay) := by
  have h0 : ("today" : String) ≠ "" := by decide
  have h1 : ToLower "today" = "today" := by decide
  simp [ParseDueDate, h0, h1]

theorem ParseDueDate_tomorrow (now : Time) :
    ParseDueDate "tomorrow" now = .ok (some (now.endOfDay.AddDate 1)) := by
  have h0 : ("tomorrow" : String) ≠ "" := by decide
  have h1 : ToLower "tomorrow" = "tomorrow" := by decide
  have h2 : ("tomorrow" : String) ≠ "today" := by decide
  simp [ParseDueDate, h0, h1, h2]

theorem ParseDueDate_next_week (now : Time) :
    ParseDueDate "next-week" now = .ok (some (now.endOfDay.AddDate 7)) := by
  have h0 : ("next-week" : String) ≠ "" := by decide
  have h1 : ToLower "next-week" = "next-week" := by decide
  have h2 : ("next-week" : String) ≠ "today" := by decide
  have h3 : ("next-week" : String) ≠ "tomorrow" := by decide
  simp [ParseDueDate, h0, h1, h2, h3]

theorem ListTodos_pair (filter : Filter) (now : Time) (seq : Int) (a b : Todo)
    (ha : whereClause filter now a = true) (hb : whereClause filter now b = false) :
    SQLiteStorage.ListTodos { rows := [a, b], seq := seq } filter now none = .ok [a] ∧
    SQLiteStorage.ListTodos { rows := [b, a], seq := seq } filter now none = .ok [a] := by
  simp [SQLiteStorage.ListTodos, List.filter, ha, hb, orderBy, orderedInsert]

/-- C21: when `ParseDueDate` and `List` read the clock on the same calendar
day, `ParseDueDate("today")` is a timestamp the due filter `today` matches,
and `ParseDueDate("tomorrow")` is one the filter `tomorrow` matches and the
filter `today` does not; so from a table holding one task with each of the two
due dates, in either order, `List` with the filter `today` returns exactly the
task due `today`. -/
theorem C21_today_tomorrow_entered (parseNow listNow : Time)
    (hday : parseNow.day = listNow.day) (sd : Option Time) (t1 t2 : Todo) (seq : Int) :
    ∃ d1 d2, ParseDueDate "today" parseNow = .ok (some d1) ∧
      ParseDueDate "tomorrow" parseNow = .ok (some d2) ∧
      dueDateClause { Typ := DueToday, SpecificDate := sd } listNow
        { t1 with DueDate := some d1 } = true ∧
      dueDateClause { Typ := DueTomorrow, SpecificDate := sd } listNow
        { t2 with DueDate := some d2 } = true ∧
      dueDateClause { Typ := DueToday, SpecificDate := sd } listNow
        { t2 with DueDate := some d2 } = false ∧
      SQLiteStorage.ListTodos
        { rows := [{ t1 with DueDate := some d1 }, { t2 with DueDate := some d2 }], seq := seq }
        (dueFilter DueToday) listNow none = .ok [{ t1 with DueDate := some d1 }] ∧
      SQLiteStorage.ListTodos
        { rows := [{ t2 with DueDate := some d2 }, { t1 with DueDate := some d1 }], seq := seq }
        (dueFilter DueToday) listNow none = .ok [{ t1 with DueDate := some d1 }] := by
  have h1 : ∀ sd, dueDateClause { Typ := DueToday, SpecificDate := sd } listNow
      { t1 with DueDate := some parseNow.endOfDay } = true := fun sd =>
    (dueDateClause_today_iff sd listNow _).mpr ⟨_, rfl, hday⟩
  have h2 : dueDateClause { Typ := DueTomorrow, SpecificDate := sd } listNow
      { t2 with DueDate := some (parseNow.endOfDay.AddDate 1) } = true :=
    (dueDateClause_tomorrow_iff sd listNow _).mpr
      ⟨_, rfl, by simp only [Time.AddDate, Time.endOfDay]; omega⟩
  have h3 : ∀ sd, dueDateClause { Typ := DueToday, SpecificDate := sd } listNow
      { t2 with DueDate := some (parseNow.endOfDay.AddDate 1) } = false := by
    intro sd
    rw [Bool.eq_false_iff, Ne, dueDateClause_today_iff]
    rintro ⟨d, hd, hd'⟩
    simp only [Option.some.injEq] at hd
    subst hd
    simp only [Time.AddDate, Time.endOfDay] at hd'
    omega
  refine ⟨_, _, ParseDueDate_today parseNow, ParseDueDate_tomorrow parseNow, h1 sd, h2, h3 sd,
    ?_⟩
  exact ListTodos_pair _ _ _ _ _ (by rw [whereClause_dueFilter]; exact h1 none)
    (by rw [whereClause_dueFilter]; exact h3 none)

theorem C21_today_tomorrow_entered_witness :
    ∃ d1 d2, ParseDueDate "today" sampleNow = .ok (some d1) ∧
      ParseDueDate "tomorrow" sampleNow = .ok (some d2) ∧
      dueDateClause { Typ := DueToday, SpecificDate := none } { day := 20500, nsec := 5 }
        { sampleTodo 1 "a" 0 with DueDate := some d1 } = true ∧
      dueDateClause { Typ := DueTomorrow, SpecificDate := none } { day := 20500, nsec := 5 }
        { sampleTodo 2 "b" 0 with DueDate := some d2 } = true ∧
      dueDateClause { Typ := DueToday, SpecificDate := none } { day := 20500, nsec := 5 }
        { sampleTodo 2 "b" 0 with DueDate := some d2 } = false ∧
      SQLiteStorage.ListTodos
        { rows := [{ sampleTodo 1 "a" 0 with DueDate := some d1 },
                   { sampleTodo 2 "b" 0 with DueDate := some d2 }], seq := 2 }
        (dueFilter DueToday) { day := 20500, nsec := 5 } none
          = .ok [{ sampleTodo 1 "a" 0 with DueDate := some d1 }] ∧
      SQLiteStorage.ListTodos
        { rows := [{ sampleTodo 2 "b" 0 with DueDate := some d2 },
                   { sampleTodo 1 "a" 0 with DueDate := some d1 }], seq := 2 }
        (dueFilter DueToday) { day := 20500, nsec := 5 } none
          = .ok [{ sampleTodo 1 "a" 0 with DueDate := some d1 }] :=
  C21_today_tomorrow_entered sampleNow { day := 20500, nsec := 5 } (by decide) none
    (sampleTodo 1 "a" 0) (sampleTodo 2 "b" 0) 2

/-! ## The due-date filters `overdue` and `next-week` -/

theorem dueDateClause_overdue (sd : Option Time) (now : Time) (t : Todo) :
    dueDateClause { Typ := DueOverdue, SpecificDate := sd } now t =
      ((match t.DueDate with
        | none => false
        | some d => d.Before now.startOfDay) && decide (boolToInt t.Completed = 0)) := by
  have h1 : DueOverdue ≠ DueToday := by decide
  have h2 : DueOverdue ≠ DueTomorrow := by decide
  have h3 : DueOverdue ≠ DueNextWeek := by decide
  simp [dueDateClause, h1, h2, h3]

theorem dueDateClause_overdue_iff (sd : Option Time) (now : Time) (t : Todo) :
    dueDateClause { Typ := DueOverdue, SpecificDate := sd } now t = true ↔
      ∃ d, t.DueDate = some d ∧ d.Before now.startOfDay = true ∧ t.Completed = false := by
  rw [dueDateClause_overdue]
  cases hdue : t.DueDate with
  | none => simp
  | some d => cases hc : t.Completed <;> simp [boolToInt]

theorem Before_startOfDay (d now : Time) : d.Before now.startOfDay = true ↔ d.day < now.day := by
  simp [Time.Before, Time.startOfDay]

theorem dueDateClause_next_week (sd : Option Time) (now : Time) (t : Todo) :
    dueDateClause { Typ := DueNextWeek, SpecificDate := sd } now t =
      dueBetween t.DueDate now.startOfDay (now.startOfDay.AddDate 7) := by
  have h1 : DueNextWeek ≠ DueToday := by decide
  have h2 : DueNextWeek ≠ DueTomorrow := by decide
  simp [dueDateClause, h1, h2]

/-- C24: for every reading `now` of the clock, the due filter `overdue`
matches a task iff the task has a due timestamp strictly before start-of-today
and is not completed, which is iff it is pending and due on an earlier
calendar day; a task due at any time of the current day, a task due exactly at
start-of-today and every completed task are not matched, and `List` with the
filter alone returns exactly the rows it matches. -/
theorem C24_overdue (now : Time) (sd : Option Time) (t : Todo) (s : SQLiteStorage) :
    (dueDateClause { Typ := DueOverdue, SpecificDate := sd } now t = true ↔
      ∃ d, t.DueDate = some d ∧ d.Before now.startOfDay = true ∧ t.Completed = false) ∧
    (dueDateClause { Typ := DueOverdue, SpecificDate := sd } now t = true ↔
      ∃ d, t.DueDate = some d ∧ d.day < now.day ∧ t.Completed = false) ∧
    (∀ d : Time, d.day = now.day →
      dueDateClause { Typ := DueOverdue, SpecificDate := sd } now
        { t with DueDate := some d } = false) ∧
    dueDateClause { Typ := DueOverdue, SpecificDate := sd } now
      { t with DueDate := some now.startOfDay } = false ∧
    dueDateClause { Typ := DueOverdue, SpecificDate := sd } now
      { t with Completed := true } = false ∧
    (∃ out, s.ListTodos (dueFilter DueOverdue) now none = .ok out ∧
      ∀ r, r ∈ out ↔ r ∈ s.rows ∧
        ∃ d, r.DueDate = some d ∧ d.Before now.startOfDay = true ∧ r.Completed = false) := by
  refine ⟨dueDateClause_overdue_iff sd now t, ?_, ?_, ?_, ?_, ?_⟩
  · rw [dueDateClause_overdue_iff]
    constructor
    · rintro ⟨d, hd, hb, hc⟩
      exact ⟨d, hd, (Before_startOfDay d now).mp hb, hc⟩
    · rintro ⟨d, hd, hb, hc⟩
      exact ⟨d, hd, (Before_startOfDay d now).mpr hb, hc⟩
  · intro d hd
    rw [Bool.eq_false_iff, Ne, dueDateClause_overdue_iff]
    rintro ⟨e, he, hb, -⟩
    simp only [Option.some.injEq] at he
    subst he
    have := (Before_startOfDay d now).mp hb
    omega
  · rw [Bool.eq_false_iff, Ne, dueDateClause_overdue_iff]
    rintro ⟨e, he, hb, -⟩
    simp only [Option.some.injEq] at he
    subst he
    have := (Before_startOfDay now.startOfDay now).mp hb
    simp only [Time.startOfDay] at this
    omega
  · rw [Bool.eq_false_iff, Ne, dueDateClause_overdue_iff]
    rintro ⟨e, -, -, hc⟩
    exact absurd hc (by simp)
  · refine ⟨_, rfl, fun r => ?_⟩
    rw [mem_ListTodos s (dueFilter DueOverdue) now _ rfl, whereClause_dueFilter,
      dueDateClause_overdue_iff]

/-- C27: when `ParseDueDate` and `List` read the clock on the same calendar
day, the timestamp `ParseDueDate` returns for `next-week` is 23:59:59 of the
seventh day after today; it is not before start-of-today plus seven days, the
end of the window `[start-of-today, start-of-today + 7 days)` of the due
filter `next-week`, so the filter does not match a task with that due date and
`List` with the filter does not return it. -/
theorem C27_next_week_entered (parseNow listNow : Time) (hday : parseNow.day = listNow.day)
    (sd : Option Time) (t : Todo) (s : SQLiteStorage) :
    ∃ d, ParseDueDate "next-week" parseNow = .ok (some d) ∧
      d = { day := parseNow.day + 7, nsec := 86399 * 1000000000 } ∧
      d.ge listNow.startOfDay = true ∧
      d.Before (listNow.startOfDay.AddDate 7) = false ∧
      dueBetween (some d) listNow.startOfDay (listNow.startOfDay.AddDate 7) = false ∧
      dueDateClause { Typ := DueNextWeek, SpecificDate := sd } listNow
        { t with DueDate := some d } = false ∧
      ∀ out, s.ListTodos (dueFilter DueNextWeek) listNow none = .ok out →
        { t with DueDate := some d } ∉ out := by
  have hb : (parseNow.endOfDay.AddDate 7).Before (listNow.startOfDay.AddDate 7) = false := by
    simp only [Time.Before, Time.AddDate, Time.endOfDay, Time.startOfDay, Bool.or_eq_false_iff,
      Bool.and_eq_false_iff, decide_eq_false_iff_not]
    exact ⟨by omega, Or.inr (by omega)⟩
  have hc : ∀ sd, dueDateClause { Typ := DueNextWeek, SpecificDate := sd } listNow
      { t with DueDate := some (parseNow.endOfDay.AddDate 7) } = false := by
    intro sd
    rw [dueDateClause_next_week]
    simp [dueBetween, hb]
  refine ⟨_, ParseDueDate_next_week parseNow, rfl, ?_, hb, by simp [dueBetween, hb], hc sd, ?_⟩
  · simp only [Time.ge, Time.Before, Time.AddDate, Time.endOfDay, Time.startOfDay,
      Bool.not_eq_true', Bool.or_eq_false_iff, Bool.and_eq_false_iff, decide_eq_false_iff_not]
    exact ⟨by omega, Or.inl (by omega)⟩
  · intro out hout hmem
    have := ((mem_ListTodos s _ listNow out hout _).mp hmem).2
    rw [whereClause_dueFilter, hc none] at this
    exact absurd this (by simp)

theorem C27_next_week_entered_witness :
    ∃ d, ParseDueDate "next-week" sampleNow = .ok (some d) ∧
      d = { day := sampleNow.day + 7, nsec := 86399 * 1000000000 } ∧
      d.ge (Time.startOfDay { day := 20500, nsec := 5 }) = true ∧
      d.Before ((Time.startOfDay { day := 20500, nsec := 5 }).AddDate 7) = false ∧
      dueBetween (some d) (Time.startOfDay { day := 20500, nsec := 5 })
        ((Time.startOfDay { day := 20500, nsec := 5 }).AddDate 7) = false ∧
      dueDateClause { Typ := DueNextWeek, SpecificDate := none } { day := 20500, nsec := 5 }
        { sampleTodo 1 "a" 0 with DueDate := some d } = false ∧
      ∀ out, sampleStore.ListTodos (dueFilter DueNextWeek) { day := 20500, nsec := 5 } none
          = .ok out → { sampleTodo 1 "a" 0 with DueDate := some d } ∉ out :=
  C27_next_week_entered sampleNow { day := 20500, nsec := 5 } (by decide) none
    (sampleTodo 1 "a" 0) sampleStore

/-! ## Bulk delete stopped by a failing call -/

theorem deleteLoop_fail (dbErr : Nat → Option String) (ids : List Int) (k : Nat)
    (db : SQLiteStorage) (e : String) (h : (deleteLoop dbErr k ids db).2.1 = some e) :
    ∃ done id rest, ids = done ++ id :: rest ∧
      (deleteLoop dbErr k ids db).2.2 = (done ++ [id]).map StoreCall.Delete ∧
      (deleteLoop dbErr k ids db).1.rows = db.rows.filter (fun r => decide (r.ID ∉ done)) ∧
      (deleteLoop dbErr k ids db).1.Delete id (dbErr (k + done.length)) = .error e := by
  induction ids generalizing k db with
  | nil => simp [deleteLoop] at h
  | cons id ids ih =>
    unfold deleteLoop at h ⊢
    cases hd : db.Delete id (dbErr k) with
    | error e1 =>
      simp only [hd, Option.some.injEq] at h
      subst h
      exact ⟨[], id, ids, rfl, by simp, by simp, by simpa using hd⟩
    | ok db1 =>
      simp only [hd] at h ⊢
      obtain ⟨done, j, rest, hids, hc, hr, hf⟩ := ih (k + 1) db1 h
      refine ⟨id :: done, j, rest, by simp [hids], by simp [hc], ?_, ?_⟩
      · rw [hr, Delete_ok db db1 id _ hd, List.filter_filter]
        congr 1
        funext r
        simp only [List.mem_cons, not_or, Bool.decide_and, Bool.and_comm]
      · rw [List.length_cons, show k + (done.length + 1) = k + 1 + done.length by omega]
        exact hf

/-- C30: bulk delete over a non-empty marked set dispatches the loop over the
marked identifiers.  When a call of `Delete` in that loop fails, the command
returns the error event with the error of that call and not the
deletion-completed event; the identifiers visited before it have been deleted
from the store, yet the marked set, the loaded task list and the tasks in
memory are exactly what they were, so the marked set still holds the
identifiers already deleted; and processing the error event only records the
error and schedules no command, so no reload of the list. -/
theorem C30_bulk_delete_failure (w : World) (env : Env) (host : Host) (e : String)
    (hsel : w.app.list.selected ≠ [])
    (horder : (env.rangeOrder w.app.list.selected).Perm w.app.list.selected)
    (hfail : (deleteLoop env.dbErr 0 (env.rangeOrder w.app.list.selected) w.db).2.1 = some e) :
    w.app.list.deleteSelected = [.deleteAllSelected] ∧
    (runCmd env .deleteAllSelected w).2.1 = some (.errMsg e) ∧
    (runCmd env .deleteAllSelected w).2.1 ≠ some .todoDeletedMsg ∧
    (runCmd env .deleteAllSelected w).1.app.list.selected = w.app.list.selected ∧
    (runCmd env .deleteAllSelected w).1.app.list.todos = w.app.list.todos ∧
    (runCmd env .deleteAllSelected w).1.app = w.app ∧
    (runCmd env .deleteAllSelected w).1.heap = w.heap ∧
    (∃ done id rest, env.rangeOrder w.app.list.selected = done ++ id :: rest ∧
      (runCmd env .deleteAllSelected w).2.2 = (done ++ [id]).map StoreCall.Delete ∧
      (runCmd env .deleteAllSelected w).1.db.rows
        = w.db.rows.filter (fun r => decide (r.ID ∉ done)) ∧
      (runCmd env .deleteAllSelected w).1.db.Delete id (env.dbErr done.length) = .error e ∧
      ∀ j ∈ done, j ∈ (runCmd env .deleteAllSelected w).1.app.list.selected ∧
        ∀ r ∈ (runCmd env .deleteAllSelected w).1.db.rows, r.ID ≠ j) ∧
    App.Update host (runCmd env .deleteAllSelected w).1.app (runCmd env .deleteAllSelected w).1.heap
      (.errMsg e) = ({ w.app with err := some e }, w.heap, []) := by
  have hlen : w.app.list.selected.length ≠ 0 := fun h => hsel (List.length_eq_zero.mp h)
  have hrun : runCmd env .deleteAllSelected w =
      ({ w with db := (deleteLoop env.dbErr 0 (env.rangeOrder w.app.list.selected) w.db).1 },
       some (.errMsg e),
       (deleteLoop env.dbErr 0 (env.rangeOrder w.app.list.selected) w.db).2.2) := by
    simp only [runCmd, deleteAllSelectedFn]
    split <;> simp_all
  obtain ⟨done, id, rest, hids, hc, hr, hf⟩ := deleteLoop_fail env.dbErr _ 0 w.db e hfail
  rw [hrun]
  refine ⟨by simp [ListView.deleteSelected, hlen], rfl, by simp, rfl, rfl, rfl, rfl,
    ⟨done, id, rest, hids, hc, hr, by simpa using hf, ?_⟩, rfl⟩
  intro j hj
  refine ⟨horder.mem_iff.mp (by rw [hids]; simp [hj]), fun r hr' => ?_⟩
  simp only [hr, List.mem_filter, decide_eq_true_eq] at hr'
  intro h
  exact hr'.2 (h ▸ hj)

/-- With the tasks 2 and 4 of five marked and the second call of the driver
failing, bulk delete removes the row 2, leaves the row 4, and keeps both
identifiers marked. -/
theorem C30_bulk_delete_failure_witness :
    (sampleWorld.app.list.selected ≠ [] ∧
     (secondFailsEnv.rangeOrder sampleWorld.app.list.selected).Perm
       sampleWorld.app.list.selected ∧
     (deleteLoop secondFailsEnv.dbErr 0 (secondFailsEnv.rangeOrder sampleWorld.app.list.selected)
        sampleWorld.db).2.1 = some "failed to delete todo: disk I/O error") ∧
    ((runCmd secondFailsEnv .deleteAllSelected sampleWorld).2.1
        = some (.errMsg "failed to delete todo: disk I/O error") ∧
     (runCmd secondFailsEnv .deleteAllSelected sampleWorld).1.app.list.selected = [2, 4] ∧
     (runCmd secondFailsEnv .deleteAllSelected sampleWorld).1.app.list.todos = [0, 1, 2, 3, 4]) ∧
    (runCmd secondFailsEnv .deleteAllSelected sampleWorld).2.2 = [.Delete 2, .Delete 4] ∧
    (runCmd secondFailsEnv .deleteAllSelected sampleWorld).1.db.rows.map (fun r => r.ID)
      = [1, 3, 4, 5] :=
  ⟨⟨by decide, List.Perm.refl _, by decide⟩,
   ⟨(C30_bulk_delete_failure sampleWorld secondFailsEnv sampleHost
       "failed to delete todo: disk I/O error" (by decide)
       (List.Perm.refl _) (by decide)).2.1,
    (C30_bulk_delete_failure sampleWorld secondFailsEnv sampleHost
       "failed to delete todo: disk I/O error" (by decide)
       (List.Perm.refl _) (by decide)).2.2.2.1,
    (C30_bulk_delete_failure sampleWorld secondFailsEnv sampleHost
       "failed to delete todo: disk I/O error" (by decide)
       (List.Perm.refl _) (by decide)).2.2.2.2.1⟩,
   by decide, by decide⟩

/-! ## The search condition of `List` -/

theorem whereClause_search (filter : Filter) (now : Time) (t : Todo)
    (hs : filter.Search ≠ "") :
    whereClause filter now t =
      (whereClause { filter with Search := "" } now t && searchClause filter.Search t) := by
  simp only [whereClause, hs, ne_eq, not_false_eq_true, if_true, not_true_eq_false, if_false,
    Bool.and_true]
  cases (match filter.Completed with
    | none => true
    | some c => decide (boolToInt t.Completed = boolToInt c)) <;>
  cases filter.Tags.all (fun tag => tagClause tag t) <;>
  cases searchClause filter.Search t <;>
  cases (match filter.DueDate with
    | none => true
    | some d => dueDateClause d now t) <;> rfl

theorem sqlLike_any (s : List Char) : sqlLike ['%', '%', '%'] s = true := by
  rw [sqlLike_cons, if_pos rfl, likeAny_iff]
  refine ⟨[], s, rfl, ?_⟩
  rw [sqlLike_cons, if_pos rfl, likeAny_iff]
  refine ⟨[], s, rfl, ?_⟩
  rw [sqlLike_cons, if_pos rfl, likeAny_iff]
  exact ⟨s, [], by simp, rfl⟩

/-- C26, as stated, fails: a search for `_` returns a task titled `abc`, and a
search for `%` too, although neither character occurs in its title or in its
description; and a search for `école` does not return a task titled `École`,
the case of letters outside ASCII being kept apart. -/
theorem C26_counterexample :
    ({ rows := [sampleTodo 1 "abc" 0], seq := 1 } : SQLiteStorage).ListTodos
        (searchFilter "_") sampleNow none = .ok [sampleTodo 1 "abc" 0]
    ∧ ({ rows := [sampleTodo 1 "abc" 0], seq := 1 } : SQLiteStorage).ListTodos
        (searchFilter "%") sampleNow none = .ok [sampleTodo 1 "abc" 0]
    ∧ '_' ∉ (sampleTodo 1 "abc" 0).Title.toList ∧ '%' ∉ (sampleTodo 1 "abc" 0).Title.toList
    ∧ (sampleTodo 1 "abc" 0).Description = ""
    ∧ ({ rows := [sampleTodo 1 "École" 0], seq := 1 } : SQLiteStorage).ListTodos
        (searchFilter "école") sampleNow none = .ok [] := by
  decide

theorem sqlLike_percent (s : List Char) : sqlLike ['%'] s = true := by
  rw [sqlLike_cons, if_pos rfl, likeAny_iff]
  exact ⟨s, [], by simp, rfl⟩

theorem sqlLike_underscore (s : List Char) : sqlLike ['%', '_', '%'] s = true ↔ s ≠ [] := by
  rw [sqlLike_cons, if_pos rfl, likeAny_iff]
  constructor
  · rintro ⟨pre, post, hs, hp⟩
    cases post with
    | nil => simp [sqlLike_cons] at hp
    | cons c post => rw [hs]; simp
  · intro hne
    cases s with
    | nil => exact absurd rfl hne
    | cons c s =>
      refine ⟨[], c :: s, rfl, ?_⟩
      rw [sqlLike_cons, if_neg (by decide)]
      simp only [if_true]
      exact sqlLike_percent s

theorem toList_eq_nil_iff (s : String) : s.toList = [] ↔ s = "" := by
  constructor
  · intro h
    exact String.ext h
  · intro h
    rw [h]
    rfl

/-- C26, amended: for a non-empty search string `List` returns a stored task
iff the other conditions of the filter admit it and the pattern `%s%` matches
its title or its description under `LIKE`.  When the search string has neither
`%` nor `_`, that is iff it occurs in the title or in the description, up to
the case of ASCII letters.  The two characters are wildcards: a search for `%`
admits every task, a search for `_` every task whose title or description is
not empty. -/
theorem C26_search_like (s : SQLiteStorage) (filter : Filter) (now : Time) (t : Todo)
    (hs : filter.Search ≠ "") :
    (∃ out, s.ListTodos filter now none = .ok out ∧
      (t ∈ out ↔ t ∈ s.rows ∧ whereClause { filter with Search := "" } now t = true ∧
        (sqlLike ('%' :: (filter.Search.toList ++ ['%'])) t.Title.toList = true ∨
         sqlLike ('%' :: (filter.Search.toList ++ ['%'])) t.Description.toList = true))) ∧
    ((∀ c ∈ filter.Search.toList, c ≠ '%' ∧ c ≠ '_') →
      (searchClause filter.Search t = true ↔
        (∃ pre mid post, t.Title.toList = pre ++ (mid ++ post)
          ∧ mid.map asciiLower = filter.Search.toList.map asciiLower) ∨
        (∃ pre mid post, t.Description.toList = pre ++ (mid ++ post)
          ∧ mid.map asciiLower = filter.Search.toList.map asciiLower))) ∧
    searchClause "%" t = true ∧
    (searchClause "_" t = true ↔ t.Title ≠ "" ∨ t.Description ≠ "") := by
  refine ⟨⟨_, rfl, ?_⟩, ?_, ?_, ?_⟩
  · rw [mem_ListTodos s filter now _ rfl, whereClause_search filter now t hs]
    simp only [searchClause, Bool.and_eq_true, Bool.or_eq_true]
  · intro hp
    simp only [searchClause, Bool.or_eq_true]
    rw [sqlLike_contains _ hp, sqlLike_contains _ hp]
  · simp only [searchClause, Bool.or_eq_true]
    exact Or.inl (sqlLike_any _)
  · simp only [searchClause, Bool.or_eq_true]
    have h : ('%' :: ("_".toList ++ ['%'])) = ['%', '_', '%'] := rfl
    rw [h, sqlLike_underscore, sqlLike_underscore, Ne, Ne, toList_eq_nil_iff, toList_eq_nil_iff]

/-- A search for `AB` over tasks titled `cabin` and `dog` returns the first,
in whose title `ab` occurs. -/
theorem C26_search_like_witness :
    (searchFilter "AB").Search ≠ "" ∧
    ({ rows := [sampleTodo 1 "cabin" 0, sampleTodo 2 "dog" 0], seq := 2 } :
        SQLiteStorage).ListTodos (searchFilter "AB") sampleNow none
        = .ok [sampleTodo 1 "cabin" 0] ∧
    ((∀ c ∈ (searchFilter "AB").Search.toList, c ≠ '%' ∧ c ≠ '_') →
      (searchClause (searchFilter "AB").Search (sampleTodo 1 "cabin" 0) = true ↔
        (∃ pre mid post, (sampleTodo 1 "cabin" 0).Title.toList = pre ++ (mid ++ post)
          ∧ mid.map asciiLower = (searchFilter "AB").Search.toList.map asciiLower) ∨
        (∃ pre mid post, (sampleTodo 1 "cabin" 0).Description.toList = pre ++ (mid ++ post)
          ∧ mid.map asciiLower = (searchFilter "AB").Search.toList.map asciiLower))) :=
  ⟨by decide, by decide,
   (C26_search_like { rows := [sampleTodo 1 "cabin" 0, sampleTodo 2 "dog" 0], seq := 2 }
     (searchFilter "AB") sampleNow (sampleTodo 1 "cabin" 0) (by decide)).2.1⟩

/-! ## The window of rows the list view renders -/

theorem visibleHeight_pos (l : ListView) : 1 ≤ l.visibleHeight := by
  unfold ListView.visibleHeight
  simp only
  split <;> omega

theorem renderRows_isSome (r : Renderer) (l : ListView) (heap : Heap) (is : List Int)
    (h : ∀ i ∈ is, (l.todoAt i).isSome = true) : (l.renderRows r heap is).isSome = true := by
  induction is with
  | nil => rfl
  | cons i is ih =>
    obtain ⟨p, hp⟩ := Option.isSome_iff_exists.mp (h i (List.mem_cons_self i is))
    simp only [ListView.renderRows, hp, Option.isSome_map']
    exact ih (fun x hx => h x (List.mem_cons_of_mem i hx))

theorem todoAt_isSome (l : ListView) (i : Int) (h0 : 0 ≤ i) (h1 : i < l.todos.length) :
    (l.todoAt i).isSome = true := by
  have hlt : i.toNat < l.todos.length := by omega
  simp only [ListView.todoAt, show ¬ (i < 0 ∨ i ≥ (l.todos.length : Int)) by omega, if_false]
  rw [List.get?_eq_get hlt]
  rfl

theorem mem_windowIndices (l : ListView) (i : Int) :
    i ∈ l.windowIndices ↔ l.windowStart ≤ i ∧ i < l.windowEnd := by
  simp only [ListView.windowIndices, List.mem_map, List.mem_range]
  constructor
  · rintro ⟨k, hk, rfl⟩
    omega
  · intro h
    refine ⟨(i - l.windowStart).toNat, ?_, ?_⟩
    all_goals omega

/-- C22: in the list view, for a non-empty list, a cursor in `[0, len)` and
any height, the window `[start, end)` of rows rendered lies within the list,
holds the cursor row and has at most `visibleHeight` rows, `visibleHeight`
being at least 1; when the cursor is at or beyond `visibleHeight`, the window
starts at `cursor - visibleHeight + 1` and ends right after the cursor, which
is then its last row, and otherwise it starts at 0.  The loop visits exactly
the indices of the window, so every index expression in it is in range and the
view is rendered. -/
theorem C22_render_window (l : ListView) (hne : l.todos ≠ [])
    (hlo : 0 ≤ l.cursor) (hhi : l.cursor < l.todos.length) :
    1 ≤ l.visibleHeight ∧
    0 ≤ l.windowStart ∧ l.windowStart ≤ l.cursor ∧ l.cursor < l.windowEnd ∧
    l.windowEnd ≤ l.todos.length ∧
    l.windowEnd - l.windowStart ≤ l.visibleHeight ∧
    (l.cursor ≥ l.visibleHeight →
      l.windowStart = l.cursor - l.visibleHeight + 1 ∧ l.windowEnd = l.cursor + 1) ∧
    (l.cursor < l.visibleHeight → l.windowStart = 0) ∧
    (∀ i, i ∈ l.windowIndices ↔ l.windowStart ≤ i ∧ i < l.windowEnd) ∧
    l.cursor ∈ l.windowIndices ∧
    (∀ i ∈ l.windowIndices, (l.todoAt i).isSome = true) ∧
    (∀ r heap, (l.View r heap).isSome = true) := by
  have hvh := visibleHeight_pos l
  have hs : l.windowStart = if l.cursor ≥ l.visibleHeight then l.cursor - l.visibleHeight + 1
      else 0 := rfl
  have he : l.windowEnd = if l.windowStart + l.visibleHeight > (l.todos.length : Int)
      then (l.todos.length : Int) else l.windowStart + l.visibleHeight := rfl
  have h0 : 0 ≤ l.windowStart := by rw [hs]; split <;> omega
  have h1 : l.windowStart ≤ l.cursor := by rw [hs]; split <;> omega
  have h2 : l.cursor < l.windowEnd := by
    rw [he]
    split
    · exact hhi
    · rw [hs]; split <;> omega
  have h3 : l.windowEnd ≤ l.todos.length := by rw [he]; split <;> omega
  have h4 : l.windowEnd - l.windowStart ≤ l.visibleHeight := by rw [he]; split <;> omega
  have hidx : ∀ i ∈ l.windowIndices, (l.todoAt i).isSome = true := by
    intro i hi
    have := (mem_windowIndices l i).mp hi
    exact todoAt_isSome l i (by omega) (by omega)
  refine ⟨hvh, h0, h1, h2, h3, h4, ?_, ?_, mem_windowIndices l,
    (mem_windowIndices l _).mpr ⟨h1, h2⟩, hidx, ?_⟩
  · intro hc
    have hs' : l.windowStart = l.cursor - l.visibleHeight + 1 := by rw [hs, if_pos hc]
    refine ⟨hs', ?_⟩
    rw [he, hs']
    split <;> omega
  · intro hc
    rw [hs, if_neg (by omega)]
  · intro r heap
    have hlen : l.todos.length ≠ 0 := fun h => hne (List.length_eq_zero.mp h)
    simp only [ListView.View, hlen, if_false, Option.isSome_map']
    exact renderRows_isSome r l heap _ hidx

/-- Five tasks in a view of height 9, so three rows, with the cursor on the
fourth task: the window is the rows 1 to 3, the cursor row the last. -/
theorem C22_render_window_witness :
    (({ sampleWorld.app.list with height := 9, cursor := 3 } : ListView).todos ≠ [] ∧
     (0 : Int) ≤ 3 ∧ (3 : Int) < (5 : Nat)) ∧
    ({ sampleWorld.app.list with height := 9, cursor := 3 } : ListView).windowIndices
      = [1, 2, 3] ∧
    ((3 : Int) ≥ ({ sampleWorld.app.list with height := 9, cursor := 3 } : ListView).visibleHeight →
      ({ sampleWorld.app.list with height := 9, cursor := 3 } : ListView).windowStart
        = 3 - ({ sampleWorld.app.list with height := 9, cursor := 3 } : ListView).visibleHeight + 1
      ∧ ({ sampleWorld.app.list with height := 9, cursor := 3 } : ListView).windowEnd = 3 + 1) ∧
    ({ sampleWorld.app.list with height := 9, cursor := 3 } : ListView).View plainRenderer
        sampleWorld.heap
      = some ("TODO List\n\n  b\n  c\n> d\n\n 5 todos | 2 selected \n" ++
          "j/k:navigate  space:toggle  n:new  e:edit  /:search  t:tags  D:delete  " ++
          "tab:all/pending  q:quit") :=
  ⟨⟨by decide, by decide, by decide⟩, by decide,
   (C22_render_window { sampleWorld.app.list with height := 9, cursor := 3 }
     (by decide) (by decide) (by decide)).2.2.2.2.2.2.1,
   by decide⟩

/-! ## The error of the session -/

theorem updateList_err (host : Host) (a : App) (heap : Heap) (msg : Msg) :
    (a.updateList host heap msg).1.err = a.err := by
  unfold App.updateList
  dsimp only
  repeat' split
  all_goals rfl

theorem updateDetail_err (host : Host) (a : App) (heap : Heap) (msg : Msg) :
    (a.updateDetail host heap msg).1.err = a.err := by
  unfold App.updateDetail
  dsimp only
  repeat' split
  all_goals rfl

theorem updateSearch_err (host : Host) (a : App) (heap : Heap) (msg : Msg) :
    (a.updateSearch host heap msg).1.err = a.err := by
  unfold App.updateSearch
  dsimp only
  repeat' split
  all_goals rfl

theorem updateTagFilter_err (host : Host) (a : App) (heap : Heap) (msg : Msg) :
    (a.updateTagFilter host heap msg).1.err = a.err := by
  unfold App.updateTagFilter
  dsimp only
  repeat' split
  all_goals rfl

theorem updateInput_err (tiUpdate : TextInput → Msg → TextInput × List Cmd) (a : App)
    (heap : Heap) (msg : Msg) (now : Time) :
    (a.updateInput tiUpdate heap msg now).1.err = a.err := by
  unfold App.updateInput
  dsimp only
  repeat' split
  all_goals rfl

theorem route_err (host : Host) (a : App) (heap : Heap) (msg : Msg) :
    (a.route host heap msg).1.err = a.err := by
  unfold App.route
  split
  · exact updateList_err host a heap msg
  · exact updateDetail_err host a heap msg
  · exact updateInput_err _ a heap msg _
  · exact updateInput_err _ a heap msg _
  · exact updateSearch_err host a heap msg
  · exact updateTagFilter_err host a heap msg

theorem Update_err (host : Host) (a : App) (heap : Heap) (msg : Msg) :
    (a.Update host heap msg).1.err =
      match msg with
      | .errMsg e => some e
      | _ => a.err := by
  cases msg with
  | KeyMsg key =>
    simp only [App.Update]
    split
    · rfl
    · exact route_err host a heap _
  | WindowSizeMsg w h => rfl
  | errMsg e => rfl
  | todosLoadedMsg => rfl
  | todoCreatedMsg => rfl
  | todoUpdatedMsg => rfl
  | todoDeletedMsg => rfl
  | QuitMsg => exact route_err host a heap _
  | blinkMsg => exact route_err host a heap _

theorem runCmd_err (env : Env) (c : Cmd) (w : World) :
    (runCmd env c w).1.app.err = w.app.err := by
  cases c <;> first | rfl | (simp only [runCmd]; split <;> rfl)

theorem stepWorld_err (host : Host) (w : World) (s : Step) :
    (stepWorld host w s).app.err =
      match s with
      | .deliver (.errMsg e) => some e
      | _ => w.app.err := by
  cases s with
  | deliver msg =>
    simp only [stepWorld]
    rw [Update_err]
    cases msg <;> rfl
  | run env c => exact runCmd_err env c w

theorem stepsWorld_err (host : Host) (steps : List Step) (w : World) (e : String)
    (h : w.app.err = some e) :
    ∃ e1, (stepsWorld host w steps).app.err = some e1 ∧
      (e1 = e ∨ ∃ s ∈ steps, s = Step.deliver (.errMsg e1)) := by
  induction steps generalizing w e with
  | nil => exact ⟨e, h, Or.inl rfl⟩
  | cons s steps ih =>
    have hs := stepWorld_err host w s
    have hstep : ∃ e2, (stepWorld host w s).app.err = some e2 ∧
        (e2 = e ∨ s = Step.deliver (.errMsg e2)) := by
      cases s with
      | deliver msg =>
        cases msg with
        | errMsg e2 => exact ⟨e2, hs, Or.inr rfl⟩
        | _ => exact ⟨e, hs.trans h, Or.inl rfl⟩
      | run env c => exact ⟨e, hs.trans h, Or.inl rfl⟩
    obtain ⟨e2, he2, hor2⟩ := hstep
    obtain ⟨e1, he1, hor1⟩ := ih (stepWorld host w s) e2 he2
    refine ⟨e1, he1, ?_⟩
    rcases hor1 with h1 | ⟨s1, hs1, hs1e⟩
    · rcases hor2 with h2 | h2
      · exact Or.inl (h1.trans h2)
      · exact Or.inr ⟨s, List.mem_cons_self s steps, by rw [h2, h1]⟩
    · exact Or.inr ⟨s1, List.mem_cons_of_mem s hs1, hs1e⟩

theorem View_banner (r : Renderer) (a : App) (heap : Heap) (e frame : String)
    (herr : a.err = some e) (hq : a.quitting = false) (hf : a.View r heap = some frame) :
    ∃ content, frame = r.appStyle (content ++ "\n" ++ r.errorStyle ("Error: " ++ e)) := by
  simp only [App.View, hq, herr, Bool.false_eq_true, if_false, Option.map_eq_some'] at hf
  obtain ⟨content, -, hc⟩ := hf
  exact ⟨content, hc.symm⟩

/-- C29: the error of the session is written by an error event only: the
delivery of any other message and the run of any command leave it as it was.
So once an error event has been processed, whatever messages are delivered and
commands run after it, the session holds an error, that of the last error
event processed; and every frame rendered then, unless the session is
quitting, is the view with the banner `Error: ` and that error below it, a
frame being rendered in every view but that of the list. -/
theorem C29_error_never_cleared (host : Host) (w : World) (e : String) (steps : List Step) :
    (∀ (w1 : World) (msg : Msg), (∀ e1, msg ≠ .errMsg e1) →
      (stepWorld host w1 (.deliver msg)).app.err = w1.app.err) ∧
    (∀ (w1 : World) (env : Env) (c : Cmd),
      (stepWorld host w1 (.run env c)).app.err = w1.app.err) ∧
    (stepWorld host w (.deliver (.errMsg e))).app.err = some e ∧
    (stepsWorld host (stepWorld host w (.deliver (.errMsg e))) steps).app.err ≠ none ∧
    (∃ e1, (stepsWorld host (stepWorld host w (.deliver (.errMsg e))) steps).app.err = some e1 ∧
      (e1 = e ∨ ∃ s ∈ steps, s = Step.deliver (.errMsg e1)) ∧
      ∀ (r : Renderer) (frame : String),
        (stepsWorld host (stepWorld host w (.deliver (.errMsg e))) steps).app.quitting = false →
        (stepsWorld host (stepWorld host w (.deliver (.errMsg e))) steps).app.View r
          (stepsWorld host (stepWorld host w (.deliver (.errMsg e))) steps).heap = some frame →
        ∃ content, frame = r.appStyle (content ++ "\n" ++ r.errorStyle ("Error: " ++ e1))) ∧
    (∀ (r : Renderer),
      (stepsWorld host (stepWorld host w (.deliver (.errMsg e))) steps).app.view ≠ .ViewList →
      ((stepsWorld host (stepWorld host w (.deliver (.errMsg e))) steps).app.View r
        (stepsWorld host (stepWorld host w (.deliver (.errMsg e))) steps).heap).isSome = true) := by
  have h1 : (stepWorld host w (.deliver (.errMsg e))).app.err = some e := rfl
  obtain ⟨e1, he1, hor⟩ := stepsWorld_err host steps _ e h1
  refine ⟨?_, fun w1 env c => runCmd_err env c w1, h1, by rw [he1]; simp,
    ⟨e1, he1, hor, fun r frame hq hf => View_banner r _ _ e1 frame he1 hq hf⟩, ?_⟩
  · intro w1 msg hmsg
    rw [stepWorld_err]
    cases msg with
    | errMsg e2 => exact absurd rfl (hmsg e2)
    | _ => rfl
  · intro r hv
    simp only [App.View]
    split
    · rfl
    · rw [Option.isSome_map']
      split
      · exact absurd (by assumption) hv
      all_goals rfl

/-! ## The storage calls a transition dispatches -/

/-- C23, as stated, fails: toggle-complete in the detail view dispatches two
commands in one batch, the update of the task and a reload of the list, each
of which calls the store when run, and the completion event of the update
dispatches a second reload; and bulk delete over two marked tasks makes two
calls of `Delete` in its one command. -/
theorem C23_counterexample :
    (App.Update sampleHost detailWorld.app detailWorld.heap (.KeyMsg " ")).2.2
      = [.detailToggleComplete, .loadTodos] ∧
    (runCmd sampleEnv .detailToggleComplete detailWorld).2.2
      = [.Update (toggleCompleted (sampleTodo 1 "a" 0) sampleEnv.nowUTC)] ∧
    (runCmd sampleEnv .detailToggleComplete detailWorld).2.1 = some .todoUpdatedMsg ∧
    (runCmd sampleEnv .loadTodos detailWorld).2.2 = [.ListTodos detailWorld.app.list.filter] ∧
    (App.Update sampleHost detailWorld.app detailWorld.heap .todoUpdatedMsg).2.2 = [.loadTodos] ∧
    (App.Update sampleHost sampleWorld.app sampleWorld.heap (.KeyMsg "D")).2.2
      = [.deleteAllSelected] ∧
    (runCmd sampleEnv .deleteAllSelected sampleWorld).2.2 = [.Delete 2, .Delete 4] := by
  decide

theorem listUpdate_calls (l : ListView) (msg : Msg) :
    (l.Update msg).2.length ≤ 1 := by
  unfold ListView.Update
  dsimp only
  repeat' split
  all_goals simp [ListView.loadTodos]

theorem updateList_calls (host : Host) (a : App) (heap : Heap) (msg : Msg) :
    (a.updateList host heap msg).2.2.length ≤ 1 := by
  unfold App.updateList
  dsimp only
  split
  · repeat' split
    all_goals first
      | exact listUpdate_calls _ _
      | simp [InputView.Init, ListView.loadTags, ListView.toggleComplete,
          ListView.deleteSelected, ListView.cyclePriority]
    all_goals repeat' split
    all_goals simp
  · exact listUpdate_calls _ _

theorem updateDetail_calls (host : Host) (a : App) (heap : Heap) (msg : Msg) :
    (a.updateDetail host heap msg).2.2.length ≤ 1 ∨
    (msg = .KeyMsg " " ∧ a.detail.todo ≠ none ∧
      (a.updateDetail host heap msg).2.2 = [.detailToggleComplete, .loadTodos]) := by
  unfold App.updateDetail
  dsimp only
  split
  · rename_i key
    split
    · left; simp
    · split
      · left
        split <;> simp [InputView.Init]
      · split
        · rename_i hkey
          subst hkey
          cases htodo : a.detail.todo with
          | none => left; simp
          | some p =>
            right
            simp [DetailView.toggleComplete, ListView.loadTodos, htodo]
        · left; simp [DetailView.Update]
  · left; simp [DetailView.Update]

theorem updateTagFilter_calls (host : Host) (a : App) (heap : Heap) (msg : Msg) :
    (a.updateTagFilter host heap msg).2.2.length ≤ 1 := by
  unfold App.updateTagFilter
  repeat' split
  all_goals simp [ListView.loadTodos]

theorem filter_callsStore_le (cmds : List Cmd) (h : cmds.length ≤ 1) :
    (cmds.filter Cmd.callsStore).length ≤ 1 :=
  Nat.le_trans (List.length_filter_le _ _) h

theorem filter_callsStore_lib (cmds : List Cmd) (h : ∀ c ∈ cmds, c.callsStore = false) :
    (cmds.filter Cmd.callsStore).length ≤ 1 := by
  have hnil : cmds.filter Cmd.callsStore = [] := by
    rw [List.filter_eq_nil_iff]
    intro c hc
    rw [h c hc]
    simp
  rw [hnil]
  exact Nat.zero_le 1

theorem updateSearch_calls (host : Host)
    (hlib : ∀ ti m, ∀ c ∈ (host.tiUpdate ti m).2, c.callsStore = false)
    (a : App) (heap : Heap) (msg : Msg) :
    ((a.updateSearch host heap msg).2.2.filter Cmd.callsStore).length ≤ 1 := by
  unfold App.updateSearch
  dsimp only
  repeat' split
  all_goals first
    | exact filter_callsStore_lib _ (hlib _ _)
    | exact filter_callsStore_le _ (by simp [ListView.loadTodos])

theorem createTodo_calls (v : InputView) (now : Time) : (v.createTodo now).2.length ≤ 1 := by
  unfold InputView.createTodo
  dsimp only
  repeat' split
  all_goals simp

theorem updateTodo_calls (v : InputView) (heap : Heap) (now : Time) :
    (v.updateTodo heap now).2.2.length ≤ 1 := by
  unfold InputView.updateTodo
  dsimp only
  repeat' split
  all_goals simp

theorem inputUpdate_calls (tiUpdate : TextInput → Msg → TextInput × List Cmd)
    (hlib : ∀ ti m, ∀ c ∈ (tiUpdate ti m).2, c.callsStore = false)
    (v : InputView) (msg : Msg) :
    ((v.Update tiUpdate msg).2.filter Cmd.callsStore).length ≤ 1 := by
  unfold InputView.Update
  dsimp only
  repeat' split
  all_goals first
    | exact filter_callsStore_lib _ (hlib _ _)
    | (apply filter_callsStore_le; simp only [InputView.updateFocus]; split <;> simp)

theorem updateInput_calls (tiUpdate : TextInput → Msg → TextInput × List Cmd)
    (hlib : ∀ ti m, ∀ c ∈ (tiUpdate ti m).2, c.callsStore = false)
    (a : App) (heap : Heap) (msg : Msg) (now : Time) :
    ((a.updateInput tiUpdate heap msg now).2.2.filter Cmd.callsStore).length ≤ 1 := by
  unfold App.updateInput
  dsimp only
  repeat' split
  all_goals first
    | exact inputUpdate_calls tiUpdate hlib _ _
    | exact filter_callsStore_le _ (createTodo_calls _ _)
    | exact filter_callsStore_le _ (updateTodo_calls _ _ _)
    | simp

theorem route_calls (host : Host)
    (hlib : ∀ ti m, ∀ c ∈ (host.tiUpdate ti m).2, c.callsStore = false)
    (a : App) (heap : Heap) (msg : Msg) :
    ((a.route host heap msg).2.2.filter Cmd.callsStore).length ≤ 1 ∨
    (a.view = .ViewDetail ∧ msg = .KeyMsg " " ∧ a.detail.todo ≠ none ∧
      (a.route host heap msg).2.2 = [.detailToggleComplete, .loadTodos]) := by
  unfold App.route
  split
  · exact Or.inl (filter_callsStore_le _ (updateList_calls host a heap msg))
  · rename_i hv
    rcases updateDetail_calls host a heap msg with h | ⟨h1, h2, h3⟩
    · exact Or.inl (filter_callsStore_le _ h)
    · exact Or.inr ⟨hv, h1, h2, h3⟩
  · exact Or.inl (updateInput_calls _ hlib a heap msg _)
  · exact Or.inl (updateInput_calls _ hlib a heap msg _)
  · exact Or.inl (updateSearch_calls host hlib a heap msg)
  · exact Or.inl (filter_callsStore_le _ (updateTagFilter_calls host a heap msg))

theorem runCmd_calls_nil (env : Env) (c : Cmd) (w : World) (h : c.callsStore = false) :
    (runCmd env c w).2.2 = [] := by
  cases c <;> first | rfl | exact absurd h (by simp [Cmd.callsStore])

theorem runCmd_calls_le (env : Env) (c : Cmd) (w : World) (h : c ≠ .deleteAllSelected) :
    (runCmd env c w).2.2.length ≤ 1 := by
  cases c with
  | deleteAllSelected => exact absurd rfl h
  | Quit => simp [runCmd]
  | Blink => simp [runCmd]
  | loadTodos => simp [runCmd]
  | loadTags => simp [runCmd]
  | listToggleComplete p =>
    simp only [runCmd, toggleCompleteFn]
    split <;> simp
  | detailToggleComplete =>
    simp only [runCmd, toggleCompleteFn]
    split
    · simp
    · dsimp only
      split <;> simp
  | cyclePriority p =>
    simp only [runCmd, cyclePriorityFn]
    split <;> simp
  | deleteCurrent p =>
    simp only [runCmd, deleteCurrentFn]
    split <;> simp
  | createTodo t =>
    simp only [runCmd, createTodoFn]
    split <;> simp
  | updateTodo p =>
    simp only [runCmd, updateTodoFn]
    split <;> simp

/-- C23, amended: every transition dispatches at most one command that calls
the store, except toggle-complete in the detail view on a task, which
dispatches the update and a reload of the list together in one batch; the
completion event of the update dispatches a reload of its own.  A command that
is not of the program calls the store not at all, every command but the bulk
delete over the marked set at most once, and that one calls `Delete` for the
marked identifiers one after the other, up to the first call that fails. -/
theorem C23_store_calls (host : Host)
    (hlib : ∀ ti m, ∀ c ∈ (host.tiUpdate ti m).2, c.callsStore = false)
    (a : App) (heap : Heap) (msg : Msg) :
    ((((a.Update host heap msg).2.2.filter Cmd.callsStore).length ≤ 1) ∨
      (a.view = .ViewDetail ∧ msg = .KeyMsg " " ∧ a.detail.todo ≠ none ∧
        (a.Update host heap msg).2.2 = [.detailToggleComplete, .loadTodos])) ∧
    (a.Update host heap .todoUpdatedMsg).2.2 = [.loadTodos] ∧
    (∀ env c w, Cmd.callsStore c = false → (runCmd env c w).2.2 = []) ∧
    (∀ env c w, c ≠ Cmd.deleteAllSelected → (runCmd env c w).2.2.length ≤ 1) ∧
    (∀ env w, ∃ n, (runCmd env .deleteAllSelected w).2.2
      = ((env.rangeOrder w.app.list.selected).take n).map StoreCall.Delete) := by
  refine ⟨?_, rfl, fun env c w h => runCmd_calls_nil env c w h,
    fun env c w h => runCmd_calls_le env c w h, ?_⟩
  · cases msg with
    | KeyMsg key =>
      simp only [App.Update]
      split
      · exact Or.inl (by simp [Cmd.callsStore])
      · exact route_calls host hlib a heap _
    | WindowSizeMsg w h => exact Or.inl (by simp [App.Update])
    | errMsg e => exact Or.inl (by simp [App.Update])
    | todosLoadedMsg => exact Or.inl (by simp [App.Update])
    | todoCreatedMsg => exact Or.inl (filter_callsStore_le _ (by simp [App.Update, ListView.loadTodos]))
    | todoUpdatedMsg => exact Or.inl (filter_callsStore_le _ (by simp [App.Update, ListView.loadTodos]))
    | todoDeletedMsg => exact Or.inl (filter_callsStore_le _ (by simp [App.Update, ListView.loadTodos]))
    | QuitMsg => exact route_calls host hlib a heap _
    | blinkMsg => exact route_calls host hlib a heap _
  · intro env w
    obtain ⟨n, hn⟩ := deleteLoop_calls env.dbErr (env.rangeOrder w.app.list.selected) 0 w.db
    refine ⟨n, ?_⟩
    simp only [runCmd, deleteAllSelectedFn]
    rw [← hn]
    split <;> simp_all

/-- In the list view the key for toggle-complete dispatches one command, the
update of the task at the cursor. -/
theorem C23_store_calls_witness :
    (∀ ti m, ∀ c ∈ (sampleHost.tiUpdate ti m).2, Cmd.callsStore c = false) ∧
    (App.Update sampleHost pendingWorld.app pendingWorld.heap (.KeyMsg " ")).2.2
      = [.listToggleComplete 0] ∧
    ((((App.Update sampleHost pendingWorld.app pendingWorld.heap (.KeyMsg " ")).2.2.filter
        Cmd.callsStore).length ≤ 1) ∨
      (pendingWorld.app.view = .ViewDetail ∧ Msg.KeyMsg " " = .KeyMsg " " ∧
        pendingWorld.app.detail.todo ≠ none ∧
        (App.Update sampleHost pendingWorld.app pendingWorld.heap (.KeyMsg " ")).2.2
          = [.detailToggleComplete, .loadTodos])) :=
  ⟨fun _ _ _ h => absurd h (List.not_mem_nil _), by decide,
   (C23_store_calls sampleHost (fun _ _ _ h => absurd h (List.not_mem_nil _))
     pendingWorld.app pendingWorld.heap (.KeyMsg " ")).1⟩

/-! ## The priorities handed to the store -/

/-- C25, at a failing input: `import` of a file holding a task of priority 9
and one of priority -7 hands both to `Create` as they are and reports two
tasks imported, and the store then holds rows with these priorities; `add`
with the priority 9, or -7, is rejected before any call of the store. -/
theorem C25_import_priority_unchecked :
    (importCmd sampleStore "todos.json" importedTodos sampleEnv).1
      = .ok "Imported 2 todo(s) from todos.json\n" ∧
    (importCmd sampleStore "todos.json" importedTodos sampleEnv).2.2.map
      (fun c => match c with
        | .Create todo => some todo.Priority
        | _ => none) = [some 9, some (-7)] ∧
    (importCmd sampleStore "todos.json" importedTodos sampleEnv).2.1.rows.map
      (fun r => (r.ID, r.Priority)) = [(1, 0), (2, 3), (3, 5), (4, 1), (5, 0), (6, 9), (7, -7)] ∧
    addCmd sampleStore "x" "" "" "" 9 sampleEnv
      = (.error "priority must be between 0 and 5 (1=highest, 5=lowest, 0=none)",
         sampleStore, []) ∧
    addCmd sampleStore "y" "" "" "" (-7) sampleEnv
      = (.error "priority must be between 0 and 5 (1=highest, 5=lowest, 0=none)",
         sampleStore, []) ∧
    (addCmd sampleStore "x" "" "" "" 5 sampleEnv).2.2.map
      (fun c => match c with
        | .Create todo => some todo.Priority
        | _ => none) = [some 5] := by
  decide

/-! ## Calendar dates and day numbers -/

theorem civil_century (a' C t b' q : Int) (hC0 : 0 ≤ C) (hC3 : C ≤ 3) (h0 : 0 ≤ a')
    (h1 : a' ≤ 36524) (h2 : C ≤ 2 → a' ≤ 36523)
    (ht : 1460 * t ≤ 24 * C + a' ∧ 24 * C + a' < 1460 * t + 1460)
    (hb : 365 * b' ≤ a' - t ∧ a' - t < 365 * b' + 365)
    (hq : 4 * q ≤ b' ∧ b' < 4 * q + 4) :
    0 ≤ b' ∧ b' ≤ 99 ∧
    0 ≤ a' - 365 * b' - q ∧ a' - 365 * b' - q ≤ 365 ∧
    (a' - 365 * b' - q = 365 → b' = 4 * q + 3 ∧ (b' = 99 → C = 3)) := by
  have hk := Int.emod_add_ediv a' 1461
  have hk0 := Int.emod_nonneg a' (show (1461 : Int) ≠ 0 by decide)
  have hk1 := Int.emod_lt_of_pos a' (show (0 : Int) < 1461 by decide)
  generalize a' / 1461 = k at *
  generalize a' % 1461 = r at *
  have hkb : 0 ≤ k ∧ k ≤ 24 := by omega
  have htk : t = k ∨ t = k + 1 := by omega
  have hqk : q = k := by omega
  omega

theorem civil_era (doe c d e yoe f g : Int) (h0 : 0 ≤ doe) (h1 : doe ≤ 146096)
    (hc : 1460 * c ≤ doe ∧ doe < 1460 * c + 1460)
    (hd : 36524 * d ≤ doe ∧ doe < 36524 * d + 36524)
    (he : 146096 * e ≤ doe ∧ doe < 146096 * e + 146096)
    (hy : 365 * yoe ≤ doe - c + d - e ∧ doe - c + d - e < 365 * yoe + 365)
    (hf : 4 * f ≤ yoe ∧ yoe < 4 * f + 4)
    (hg : 100 * g ≤ yoe ∧ yoe < 100 * g + 100) :
    0 ≤ yoe ∧ yoe ≤ 399 ∧
    0 ≤ doe - (365 * yoe + f - g) ∧ doe - (365 * yoe + f - g) ≤ 365 ∧
    (doe - (365 * yoe + f - g) = 365 → yoe = 4 * f + 3 ∧ (yoe = 100 * g + 99 → g = 3)) := by
  have hC : d - e = 0 ∨ d - e = 1 ∨ d - e = 2 ∨ d - e = 3 := by omega
  rcases hC with hC | hC | hC | hC
  · have := civil_century doe 0 c yoe f (by omega) (by omega) (by omega) (by omega)
      (by omega) (by omega) (by omega) (by omega)
    omega
  · have := civil_century (doe - 36524) 1 (c - 25) (yoe - 100) (f - 25) (by omega) (by omega)
      (by omega) (by omega) (by omega) (by omega) (by omega) (by omega)
    omega
  · have := civil_century (doe - 73048) 2 (c - 50) (yoe - 200) (f - 50) (by omega) (by omega)
      (by omega) (by omega) (by omega) (by omega) (by omega) (by omega)
    omega
  · have := civil_century (doe - 109572) 3 (c - 75) (yoe - 300) (f - 75) (by omega) (by omega)
      (by omega) (by omega) (by omega) (by omega) (by omega) (by omega)
    omega

theorem civil_month (doy mp x : Int) (h0 : 0 ≤ doy) (h1 : doy ≤ 365)
    (hmp : 153 * mp ≤ 5 * doy + 2 ∧ 5 * doy + 2 < 153 * mp + 153)
    (hx : 5 * x ≤ 153 * mp + 2 ∧ 153 * mp + 2 < 5 * x + 5) :
    0 ≤ mp ∧ mp ≤ 11 ∧ 1 ≤ doy - x + 1 ∧ doy - x + 1 ≤ 31 ∧
    ((mp = 1 ∨ mp = 3 ∨ mp = 6 ∨ mp = 8) → doy - x + 1 ≤ 30) ∧
    (mp = 11 → doy - x + 1 ≤ 29 ∧ (doy - x + 1 = 29 → doy = 365)) := by
  have hb : 0 ≤ mp ∧ mp ≤ 11 := by omega
  obtain ⟨hb0, hb1⟩ := hb
  interval_cases mp <;> omega

theorem civilOfDay_eq (z era doe c d e yoe f g doy mp x : Int)
    (hera : era = (z + 719468) / 146097) (hdoe : doe = z + 719468 - era * 146097)
    (hc : c = doe / 1460) (hd : d = doe / 36524) (he : e = doe / 146096)
    (hyoe : yoe = (doe - c + d - e) / 365) (hf : f = yoe / 4) (hg : g = yoe / 100)
    (hdoy : doy = doe - (365 * yoe + f - g)) (hmp : mp = (5 * doy + 2) / 153)
    (hx : x = (153 * mp + 2) / 5) :
    civilOfDay z =
      (if (if mp < 10 then mp + 3 else mp - 9) ≤ 2 then yoe + era * 400 + 1
        else yoe + era * 400,
       (if mp < 10 then mp + 3 else mp - 9).toNat, (doy - x + 1).toNat) := by
  subst hera hdoe hc hd he hyoe hf hg hdoy hmp hx
  rfl

theorem civilDay_eq (year month day : Nat) (y era yoe mp x f g : Int)
    (hy : y = if month ≤ 2 then (year : Int) - 1 else year)
    (hera : era = y / 400) (hyoe : yoe = y - era * 400)
    (hmp : mp = if month > 2 then (month : Int) - 3 else (month : Int) + 9)
    (hx : x = (153 * mp + 2) / 5) (hf : f = yoe / 4) (hg : g = yoe / 100) :
    civilDay year month day = era * 146097 + (yoe * 365 + f - g + (x + (day : Int) - 1)) - 719468 := by
  subst hy hera hyoe hmp hx hf hg
  rfl

theorem civil_final (z era doe yoe f g doy mp x : Int)
    (hdoe : doe = z + 719468 - era * 146097) (hy0 : 0 ≤ yoe) (hy1 : yoe ≤ 399)
    (hf : f = yoe / 4) (hg : g = yoe / 100) (hdoy : doy = doe - (365 * yoe + f - g))
    (hx : x = (153 * mp + 2) / 5) (hmp0 : 0 ≤ mp) (hmp1 : mp ≤ 11)
    (hd1 : 1 ≤ doy - x + 1) (hd31 : doy - x + 1 ≤ 31)
    (hd30 : (mp = 1 ∨ mp = 3 ∨ mp = 6 ∨ mp = 8) → doy - x + 1 ≤ 30)
    (hfeb : mp = 11 → doy - x + 1 ≤ 29 ∧ (doy - x + 1 = 29 → doy = 365))
    (hleap : doy = 365 → yoe = 4 * f + 3 ∧ (yoe = 100 * g + 99 → g = 3))
    (y : Int) (m d : Nat)
    (hy : y = if (if mp < 10 then mp + 3 else mp - 9) ≤ 2 then yoe + era * 400 + 1
        else yoe + era * 400)
    (hm : m = (if mp < 10 then mp + 3 else mp - 9).toNat) (hd : d = (doy - x + 1).toNat) :
    1 ≤ m ∧ m ≤ 12 ∧ 1 ≤ d ∧ (0 ≤ y → d ≤ daysIn m y.natAbs ∧ civilDay y.natAbs m d = z) := by
  by_cases hlt : mp < 10
  · simp only [hlt, if_true] at hy hm
    have hm2 : ¬ (mp + 3 ≤ 2) := by omega
    simp only [hm2, if_false] at hy
    refine ⟨by omega, by omega, by omega, fun hy => ⟨?_, ?_⟩⟩
    · have hmonth : m ≠ 2 := by omega
      have h30 : (m = 4 ∨ m = 6 ∨ m = 9 ∨ m = 11) → doy - x + 1 ≤ 30 :=
        fun h => hd30 (by omega)
      simp only [daysIn, hmonth, if_false]
      split
      · have := h30 (by assumption)
        omega
      · omega
    · rw [civilDay_eq y.natAbs m d (yoe + era * 400) era yoe mp x f g
        (by rw [if_neg (by omega)]; omega) (by omega) (by omega)
        (by rw [if_pos (by omega)]; omega) hx hf hg]
      omega
  · simp only [hlt, if_false] at hy hm
    have hm2 : mp - 9 ≤ 2 := by omega
    simp only [hm2, if_true] at hy
    refine ⟨by omega, by omega, by omega, fun hy => ⟨?_, ?_⟩⟩
    · by_cases h11 : mp = 11
      · have hmonth : m = 2 := by omega
        simp only [daysIn, hmonth, if_true]
        by_cases h29 : doy - x + 1 = 29
        · have hl := hleap ((hfeb h11).2 h29)
          have hleapyear : isLeap y.natAbs = true := by
            simp only [isLeap, Bool.and_eq_true, Bool.or_eq_true, decide_eq_true_eq]
            omega
          rw [hleapyear]
          simp only [if_true]
          omega
        · have := (hfeb h11).1
          split <;> omega
      · have hmonth : m = 1 := by omega
        simp only [daysIn, hmonth]
        simp only [show ¬ ((1 : Nat) = 2) by decide, if_false,
          show ¬ ((1 : Nat) = 4 ∨ (1 : Nat) = 6 ∨ (1 : Nat) = 9 ∨ (1 : Nat) = 11) by decide]
        omega
    · rw [civilDay_eq y.natAbs m d (yoe + era * 400) era yoe mp x f g
        (by rw [if_pos (by omega)]; omega) (by omega) (by omega)
        (by rw [if_neg (by omega)]; omega) hx hf hg]
      omega

theorem civilOfDay_spec (z : Int) :
    1 ≤ (civilOfDay z).2.1 ∧ (civilOfDay z).2.1 ≤ 12 ∧ 1 ≤ (civilOfDay z).2.2 ∧
    (0 ≤ (civilOfDay z).1 →
      (civilOfDay z).2.2 ≤ daysIn (civilOfDay z).2.1 (civilOfDay z).1.natAbs ∧
      civilDay (civilOfDay z).1.natAbs (civilOfDay z).2.1 (civilOfDay z).2.2 = z) := by
  obtain ⟨era, hera⟩ : ∃ era, era = (z + 719468) / 146097 := ⟨_, rfl⟩
  obtain ⟨doe, hdoe⟩ : ∃ doe, doe = z + 719468 - era * 146097 := ⟨_, rfl⟩
  obtain ⟨c, hc⟩ : ∃ c, c = doe / 1460 := ⟨_, rfl⟩
  obtain ⟨d, hd⟩ : ∃ d, d = doe / 36524 := ⟨_, rfl⟩
  obtain ⟨e, he⟩ : ∃ e, e = doe / 146096 := ⟨_, rfl⟩
  obtain ⟨yoe, hyoe⟩ : ∃ yoe, yoe = (doe - c + d - e) / 365 := ⟨_, rfl⟩
  obtain ⟨f, hf⟩ : ∃ f, f = yoe / 4 := ⟨_, rfl⟩
  obtain ⟨g, hg⟩ : ∃ g, g = yoe / 100 := ⟨_, rfl⟩
  obtain ⟨doy, hdoy⟩ : ∃ doy, doy = doe - (365 * yoe + f - g) := ⟨_, rfl⟩
  obtain ⟨mp, hmp⟩ : ∃ mp, mp = (5 * doy + 2) / 153 := ⟨_, rfl⟩
  obtain ⟨x, hx⟩ : ∃ x, x = (153 * mp + 2) / 5 := ⟨_, rfl⟩
  rw [civilOfDay_eq z era doe c d e yoe f g doy mp x hera hdoe hc hd he hyoe hf hg hdoy hmp hx]
  have hdoe0 : 0 ≤ doe ∧ doe ≤ 146096 := by omega
  have hE := civil_era doe c d e yoe f g hdoe0.1 hdoe0.2 (by omega) (by omega) (by omega)
    (by omega) (by omega) (by omega)
  rw [← hdoy] at hE
  have hM := civil_month doy mp x hE.2.2.1 hE.2.2.2.1 (by omega) (by omega)
  obtain ⟨hy0, hy1, hdoy0, hdoy1, hleap⟩ := hE
  obtain ⟨hmp0, hmp1, hd1, hd31, hd30, hfeb⟩ := hM
  exact civil_final z era doe yoe f g doy mp x hdoe hy0 hy1 hf hg hdoy hx hmp0 hmp1 hd1 hd31
    hd30 hfeb hleap _ _ _ rfl rfl rfl

/-! ## The digits of a formatted date -/

theorem toDigitsCore_step (fuel n : Nat) (ds : List Char) :
    Nat.toDigitsCore 10 (fuel + 1) n ds =
      if n / 10 = 0 then Nat.digitChar (n % 10) :: ds
      else Nat.toDigitsCore 10 fuel (n / 10) (Nat.digitChar (n % 10) :: ds) := by
  simp [Nat.toDigitsCore]

theorem toDigitsCore_lt (fuel n : Nat) (ds : List Char) (hn : n < 10) :
    Nat.toDigitsCore 10 (fuel + 1) n ds = Nat.digitChar n :: ds := by
  rw [toDigitsCore_step, if_pos (by omega), Nat.mod_eq_of_lt hn]

theorem toDigitsCore_two (fuel n : Nat) (ds : List Char) (h0 : 10 ≤ n) (hn : n < 100) :
    Nat.toDigitsCore 10 (fuel + 2) n ds
      = Nat.digitChar (n / 10) :: Nat.digitChar (n % 10) :: ds := by
  rw [toDigitsCore_step, if_neg (by omega), toDigitsCore_lt _ _ _ (by omega)]

theorem toDigitsCore_three (fuel n : Nat) (ds : List Char) (h0 : 100 ≤ n) (hn : n < 1000) :
    Nat.toDigitsCore 10 (fuel + 3) n ds
      = Nat.digitChar (n / 100) :: Nat.digitChar (n / 10 % 10) :: Nat.digitChar (n % 10) :: ds := by
  rw [toDigitsCore_step, if_neg (by omega), toDigitsCore_two _ _ _ (by omega) (by omega),
    Nat.div_div_eq_div_mul]

theorem toDigitsCore_four (fuel n : Nat) (ds : List Char) (h0 : 1000 ≤ n) (hn : n < 10000) :
    Nat.toDigitsCore 10 (fuel + 4) n ds
      = Nat.digitChar (n / 1000) :: Nat.digitChar (n / 100 % 10) :: Nat.digitChar (n / 10 % 10)
          :: Nat.digitChar (n % 10) :: ds := by
  rw [toDigitsCore_step, if_neg (by omega), toDigitsCore_three _ _ _ (by omega) (by omega),
    Nat.div_div_eq_div_mul, Nat.div_div_eq_div_mul]

theorem padDigits_two (n : Nat) (hn : n < 100) :
    padDigits 2 n = [Nat.digitChar (n / 10), Nat.digitChar (n % 10)] := by
  unfold padDigits Nat.toDigits
  by_cases h : n < 10
  · rw [toDigitsCore_lt _ _ _ h, Nat.div_eq_of_lt h, Nat.mod_eq_of_lt h]
    rfl
  · obtain ⟨k, hk⟩ : ∃ k, n = k + 1 := ⟨n - 1, by omega⟩
    rw [show n + 1 = k + 2 by omega, toDigitsCore_two _ _ _ (by omega) hn]
    rfl

theorem padDigits_four (n : Nat) (hn : n < 10000) :
    padDigits 4 n = [Nat.digitChar (n / 1000), Nat.digitChar (n / 100 % 10),
      Nat.digitChar (n / 10 % 10), Nat.digitChar (n % 10)] := by
  unfold padDigits Nat.toDigits
  by_cases h1 : n < 10
  · rw [toDigitsCore_lt _ _ _ h1, show n / 1000 = 0 by omega, show n / 100 % 10 = 0 by omega,
      show n / 10 % 10 = 0 by omega, Nat.mod_eq_of_lt h1]
    rfl
  · by_cases h2 : n < 100
    · obtain ⟨k, hk⟩ : ∃ k, n = k + 1 := ⟨n - 1, by omega⟩
      rw [show n + 1 = k + 2 by omega, toDigitsCore_two _ _ _ (by omega) h2,
        show n / 1000 = 0 by omega, show n / 100 % 10 = 0 by omega,
        show n / 10 % 10 = n / 10 by omega]
      rfl
    · by_cases h3 : n < 1000
      · obtain ⟨k, hk⟩ : ∃ k, n = k + 2 := ⟨n - 2, by omega⟩
        rw [show n + 1 = k + 3 by omega, toDigitsCore_three _ _ _ (by omega) h3,
          show n / 1000 = 0 by omega, show n / 100 % 10 = n / 100 by omega]
        rfl
      · obtain ⟨k, hk⟩ : ∃ k, n = k + 3 := ⟨n - 3, by omega⟩
        rw [show n + 1 = k + 4 by omega, toDigitsCore_four _ _ _ (by omega) hn]
        rfl

theorem digitChar_facts (k : Nat) (hk : k < 10) :
    isDigit (Nat.digitChar k) = true ∧ digitVal (Nat.digitChar k) = k ∧
    isSpace (Nat.digitChar k) = false ∧ Nat.digitChar k ≠ '-' := by
  interval_cases k <;> decide

/-- The text `t.Format("2006-01-02")` gives for a date of the years 0 to
9999. -/
theorem formatDate_toList (t : Time) (y m d : Nat) (hc : civilOfDay t.day = ((y : Int), m, d))
    (hy : y < 10000) (hm : m < 100) (hd : d < 100) :
    (formatDate t).toList =
      [Nat.digitChar (y / 1000), Nat.digitChar (y / 100 % 10), Nat.digitChar (y / 10 % 10),
       Nat.digitChar (y % 10), '-', Nat.digitChar (m / 10), Nat.digitChar (m % 10), '-',
       Nat.digitChar (d / 10), Nat.digitChar (d % 10)] := by
  have hneg : ¬ ((y : Int) < 0) := by omega
  simp only [formatDate, hc, hneg, if_false, Int.natAbs_ofNat, padDigits_four y hy,
    padDigits_two m hm, padDigits_two d hd]
  rfl

theorem timeParse_iso (s : String) (y m d : Nat)
    (hs : s.toList =
      [Nat.digitChar (y / 1000), Nat.digitChar (y / 100 % 10), Nat.digitChar (y / 10 % 10),
       Nat.digitChar (y % 10), '-', Nat.digitChar (m / 10), Nat.digitChar (m % 10), '-',
       Nat.digitChar (d / 10), Nat.digitChar (d % 10)])
    (hy : y < 10000) (hm1 : 1 ≤ m) (hm : m ≤ 12) (hd1 : 1 ≤ d) (hd : d ≤ daysIn m y) :
    timeParse [.stdLongYear, .text "-", .stdZeroMonth, .text "-", .stdZeroDay] s
      = some { year := y, month := m, day := d } := by
  have hd31 : d ≤ 31 := by
    refine Nat.le_trans hd ?_
    unfold daysIn
    split
    · split <;> omega
    · split <;> omega
  obtain ⟨a1, a2, -, -⟩ := digitChar_facts (y / 1000) (by omega)
  obtain ⟨b1, b2, -, -⟩ := digitChar_facts (y / 100 % 10) (by omega)
  obtain ⟨c1, c2, -, -⟩ := digitChar_facts (y / 10 % 10) (by omega)
  obtain ⟨d1, d2, -, -⟩ := digitChar_facts (y % 10) (by omega)
  obtain ⟨e1, e2, -, -⟩ := digitChar_facts (m / 10) (by omega)
  obtain ⟨f1, f2, -, -⟩ := digitChar_facts (m % 10) (by omega)
  obtain ⟨g1, g2, -, -⟩ := digitChar_facts (d / 10) (by omega)
  obtain ⟨i1, i2, -, -⟩ := digitChar_facts (d % 10) (by omega)
  have hyear : ((y / 1000 * 10 + y / 100 % 10) * 10 + y / 10 % 10) * 10 + y % 10 = y := by omega
  have hmonth : m / 10 * 10 + m % 10 = m := by omega
  have hday : d / 10 * 10 + d % 10 = d := by omega
  have hskip : ∀ rest : List Char, skip ('-' :: rest) "-" = some rest := by
    intro rest
    simp [skip, skipFrom]
  have hm0 : ¬ (m = 0 ∨ 12 < m) := by omega
  have hdd : ¬ (d < 1 ∨ d > daysIn m y) := by omega
  simp only [timeParse, hs, parseChunks, parseChunk, a1, b1, c1, d1, a2, b2, c2, d2,
    Bool.and_self, if_true, hyear, Option.map_some', hskip, getnum, e1, f1, e2, f2,
    Bool.not_true, Bool.false_eq_true, if_false, hmonth, hm0, g1, i1, g2, i2, hday,
    List.isEmpty_nil, hdd]

theorem digitChar_not_control (k : Nat) (hk : k < 10) : isControl (Nat.digitChar k) = false := by
  interval_cases k <;> decide

theorem ToLower_length (s : String) : (ToLower s).toList.length = s.toList.length := by
  simp [ToLower]

/-- `ParseDueDate` reads the text `Format("2006-01-02")` gives for a timestamp
of the years 0 to 9999 as 23:59:59 of the same day. -/
theorem ParseDueDate_formatDate (t now : Time) (hy0 : 0 ≤ (civilOfDay t.day).1)
    (hy1 : (civilOfDay t.day).1 ≤ 9999) :
    TrimSpace (formatDate t) ≠ "" ∧
    ParseDueDate (TrimSpace (formatDate t)) now
      = .ok (some { day := t.day, nsec := 86399 * 1000000000 }) ∧
    (formatDate t).length = 10 ∧
    (∀ c ∈ (formatDate t).toList, isControl c = false) := by
  obtain ⟨hm1, hm12, hd1, hrest⟩ := civilOfDay_spec t.day
  obtain ⟨hdays, hday⟩ := hrest hy0
  have hc : civilOfDay t.day = ((((civilOfDay t.day).1.natAbs : Nat) : Int),
      (civilOfDay t.day).2.1, (civilOfDay t.day).2.2) := by
    rw [Int.natAbs_of_nonneg hy0]
  generalize (civilOfDay t.day).1.natAbs = y at hc hdays hday
  have hy : y < 10000 := by
    have h1 : (civilOfDay t.day).1 = (y : Int) := by rw [hc]
    omega
  generalize (civilOfDay t.day).2.1 = m at hc hdays hday hm1 hm12
  generalize (civilOfDay t.day).2.2 = d at hc hdays hday hd1
  have hd31 : d ≤ 31 := by
    refine Nat.le_trans hdays ?_
    unfold daysIn
    split
    · split <;> omega
    · split <;> omega
  have hl := formatDate_toList t y m d hc hy (by omega) (by omega)
  have hnospace : ∀ c ∈ (formatDate t).toList, isSpace c = false := by
    intro c hcmem
    rw [hl] at hcmem
    have hdash : isSpace '-' = false := by decide
    simp only [List.mem_cons, List.mem_singleton, List.not_mem_nil, or_false] at hcmem
    rcases hcmem with h | h | h | h | h | h | h | h | h | h <;> subst h <;>
      first
        | exact hdash
        | exact (digitChar_facts _ (by omega)).2.2.1
  have hnoctl : ∀ c ∈ (formatDate t).toList, isControl c = false := by
    intro c hcmem
    rw [hl] at hcmem
    have hdash : isControl '-' = false := by decide
    simp only [List.mem_cons, List.mem_singleton, List.not_mem_nil, or_false] at hcmem
    rcases hcmem with h | h | h | h | h | h | h | h | h | h <;> subst h <;>
      first
        | exact hdash
        | exact digitChar_not_control _ (by omega)
  have hlen10 : (formatDate t).length = 10 := by
    show (formatDate t).toList.length = 10
    rw [hl]
    rfl
  rw [TrimSpace_token _ hnospace]
  have hne : formatDate t ≠ "" := toList_ne_nil _ (by rw [hl]; simp)
  have hlen : (ToLower (formatDate t)).toList.length = 10 := by
    rw [ToLower_length, hl]
    rfl
  have h1 : ToLower (formatDate t) ≠ "today" := by
    intro h
    rw [h] at hlen
    exact absurd hlen (by decide)
  have h2 : ToLower (formatDate t) ≠ "tomorrow" := by
    intro h
    rw [h] at hlen
    exact absurd hlen (by decide)
  have h3 : ToLower (formatDate t) ≠ "next-week" := by
    intro h
    rw [h] at hlen
    exact absurd hlen (by decide)
  have h4 : ToLower (formatDate t) ≠ "nextweek" := by
    intro h
    rw [h] at hlen
    exact absurd hlen (by decide)
  have hp := timeParse_iso (formatDate t) y m d hl hy hm1 hm12 hd1 hdays
  refine ⟨hne, ?_, hlen10, hnoctl⟩
  simp only [ParseDueDate, hne, if_false, h1, h2, h3, h4, or_self, formats, parseFormats, hp,
    hday]

theorem mk_toList (s : String) : String.mk s.toList = s := by
  cases s
  rfl

theorem fieldsFrom_token (tok rest cur : List Char) (h : ∀ c ∈ tok, isSpace c = false) :
    fieldsFrom (tok ++ rest) cur = fieldsFrom rest (tok.reverse ++ cur) := by
  induction tok generalizing cur with
  | nil => rfl
  | cons c tok ih =>
    have hc : isSpace c = false := h c (List.mem_cons_self c tok)
    rw [List.cons_append, fieldsFrom]
    simp only [hc, Bool.false_eq_true, if_false]
    rw [ih (c :: cur) (fun x hx => h x (List.mem_cons_of_mem c hx))]
    simp

theorem Fields_joinSpace (tags : List String)
    (h : ∀ tag ∈ tags, tag ≠ "" ∧ ∀ c ∈ tag.toList, isSpace c = false) :
    Fields (joinSpace tags) = tags := by
  induction tags with
  | nil => rfl
  | cons s rest ih =>
    have hs := h s (List.mem_cons_self s rest)
    have hne : s.toList ≠ [] := fun hnil => hs.1 (String.ext hnil)
    have hrest := ih (fun t ht => h t (List.mem_cons_of_mem s ht))
    cases rest with
    | nil =>
      have h1 := fieldsFrom_token s.toList [] [] hs.2
      simp only [List.append_nil] at h1
      simp only [Fields, joinSpace, h1, fieldsFrom, List.isEmpty_eq_true, List.reverse_eq_nil_iff,
        hne, if_false, List.reverse_reverse, mk_toList]
    | cons r rest =>
      have hsp : isSpace ' ' = true := by decide
      have hl : (joinSpace (s :: r :: rest)).toList
          = s.toList ++ ' ' :: (joinSpace (r :: rest)).toList := by
        simp [joinSpace, String.data_append]
      unfold Fields at hrest ⊢
      rw [hl, fieldsFrom_token s.toList _ [] hs.2, fieldsFrom]
      simp only [hsp, if_true, List.append_nil, List.isEmpty_eq_true, List.reverse_eq_nil_iff,
        hne, if_false, List.reverse_reverse, hrest, mk_toList]

/-- Tags that are not empty, hold no white space and begin with `#` come
back from `ParseTags` as they were when joined by spaces. -/
theorem ParseTags_joinSpace (tags : List String)
    (h : ∀ tag ∈ tags, tag ≠ "" ∧ (∀ c ∈ tag.toList, isSpace c = false)
      ∧ hasHashPrefix tag = true) :
    sliceElems (ParseTags (joinSpace tags)) = tags := by
  rw [ParseTags_eq, Fields_joinSpace tags (fun t ht => ⟨(h t ht).1, (h t ht).2.1⟩)]
  have hmap : ∀ l : List String, (∀ t ∈ l, hasHashPrefix t = true) →
      l.map (fun tok => if hasHashPrefix tok then tok else "#" ++ tok) = l := by
    intro l hl
    induction l with
    | nil => rfl
    | cons t l ih =>
      rw [List.map_cons, ih (fun x hx => hl x (List.mem_cons_of_mem t hx)),
        hl t (List.mem_cons_self t l)]
      rfl
  exact hmap tags (fun t ht => (h t ht).2.2)

theorem SetTodo_values (tiSetValue : TextInput → String → TextInput) (v : InputView)
    (heap : Heap) (p : Ptr) (i0 i1 i2 i3 i4 : TextInput) (hin : v.inputs = [i0, i1, i2, i3, i4]) :
    (v.SetTodo tiSetValue heap p).todo = some p ∧
    (v.SetTodo tiSetValue heap p).err = "" ∧
    (v.SetTodo tiSetValue heap p).Value inputTitle
      = (tiSetValue i0 (readTodo heap p).Title).value ∧
    (v.SetTodo tiSetValue heap p).Value inputDescription
      = (tiSetValue i1 (readTodo heap p).Description).value ∧
    (v.SetTodo tiSetValue heap p).Value inputTags
      = (tiSetValue i2 (joinSpace (sliceElems (readTodo heap p).Tags))).value ∧
    (v.SetTodo tiSetValue heap p).Value inputDueDate
      = (match (readTodo heap p).DueDate with
         | some due => (tiSetValue i3 (formatDate due)).value
         | none => "") ∧
    (v.SetTodo tiSetValue heap p).Value inputPriority
      = (if (readTodo heap p).Priority > 0
         then (tiSetValue i4 (priorityText (readTodo heap p).Priority)).value else "") := by
  unfold InputView.SetTodo
  cases hdue : (readTodo heap p).DueDate <;>
  by_cases hprio : (readTodo heap p).Priority > 0 <;>
  simp [hin, hprio, hdue, InputView.Value, inputTitle, inputDescription, inputTags,
    inputDueDate, inputPriority, List.modify, List.modifyHead, List.modifyTailIdx,
    TextInput.Blur, TextInput.Focus, TextInput.clear]

theorem updateTodo_values (v : InputView) (heap : Heap) (now : Time) (p : Ptr)
    (title desc : String) (tags : Option (List String)) (due : Option Time) (prio : Int)
    (htodo : v.todo = some p) (hp : p < heap.length)
    (htitle : TrimSpace (v.Value inputTitle) = title) (hne : title ≠ "")
    (hdesc : TrimSpace (v.Value inputDescription) = desc)
    (htags : ParseTags (v.Value inputTags) = tags)
    (hdue : (if TrimSpace (v.Value inputDueDate) ≠ "" then
        ParseDueDate (TrimSpace (v.Value inputDueDate)) now else .ok none) = .ok due)
    (hprio : (TrimSpace (v.Value inputPriority) = "" ∧ prio = 0) ∨
      (TrimSpace (v.Value inputPriority) ≠ "" ∧
        priorityOfByte (TrimSpace (v.Value inputPriority)) = prio ∧ 1 ≤ prio ∧ prio ≤ 5)) :
    (v.updateTodo heap now).1 = v ∧
    (v.updateTodo heap now).2.2 = [.updateTodo p] ∧
    readTodo (v.updateTodo heap now).2.1 p =
      { readTodo heap p with Title := title, Description := desc, Tags := tags, DueDate := due,
                             Priority := prio } ∧
    (∀ q, q ≠ p → readTodo (v.updateTodo heap now).2.1 q = readTodo heap q) := by
  unfold InputView.updateTodo
  simp only [htodo, htitle, hne, if_false, hdesc, htags, hdue]
  rcases hprio with ⟨h0, hz⟩ | ⟨h1, hval, hlo, hhi⟩
  · subst hz
    simp only [h0, ne_eq, not_true_eq_false, if_false, true_and]
    refine ⟨?_, fun q hq => ?_⟩
    · simp [readTodo_writeTodo_same, length_writeTodo, hp]
    · simp [readTodo_writeTodo_other _ _ _ _ hq]
  · have hok : ¬ (prio < 1 ∨ prio > 5) := by omega
    simp only [h1, ne_eq, not_false_eq_true, if_true, hval, hok, if_false, true_and]
    refine ⟨?_, fun q hq => ?_⟩
    · simp [readTodo_writeTodo_same, length_writeTodo, hp]
    · simp [readTodo_writeTodo_other _ _ _ _ hq]

theorem priorityText_facts (prio : Int) (hlo : 1 ≤ prio) (hhi : prio ≤ 5) :
    TrimSpace (priorityText prio) ≠ "" ∧
    priorityOfByte (TrimSpace (priorityText prio)) = prio ∧
    (priorityText prio).length ≤ 1 ∧
    (∀ c ∈ (priorityText prio).toList, isControl c = false) := by
  have h : prio = 1 ∨ prio = 2 ∨ prio = 3 ∨ prio = 4 ∨ prio = 5 := by omega
  rcases h with h | h | h | h | h <;> subst h <;> decide

set_option maxRecDepth 100000 in
/-- C28, as stated, fails.  A task whose title is the letter `a` 201 times is
loaded into the form, whose title field takes 200 characters, and saved
unedited: the save passes validation and the title of the task is `a` 200
times.  A task due on 10000-01-01 is loaded into the form, whose due-date
field then reads `10000-01-01`, and saved unedited: the save is refused with
`Invalid due date format`. -/
theorem C28_counterexample :
    (TrimSpace longTitleTodo.Title = longTitleTodo.Title ∧ longTitleTodo.Title ≠ "" ∧
     longTitleTodo.Title.length = 201 ∧
     ((NewInputView.SetTodo limitHost.tiSetValue [longTitleTodo] 0).updateTodo [longTitleTodo]
        sampleNow).2.2 = [.updateTodo 0] ∧
     (readTodo ((NewInputView.SetTodo limitHost.tiSetValue [longTitleTodo] 0).updateTodo
        [longTitleTodo] sampleNow).2.1 0).Title = String.mk (List.replicate 200 'a')) ∧
    (civilOfDay 2932897 = (10000, 1, 1) ∧
     (NewInputView.SetTodo sampleHost.tiSetValue [farDueTodo] 0).Value inputDueDate
       = "10000-01-01" ∧
     ((NewInputView.SetTodo sampleHost.tiSetValue [farDueTodo] 0).updateTodo [farDueTodo]
        sampleNow).2.2 = [] ∧
     ((NewInputView.SetTodo sampleHost.tiSetValue [farDueTodo] 0).updateTodo [farDueTodo]
        sampleNow).1.err = "Invalid due date format") := by
  refine ⟨⟨?_, ?_, ?_, ?_, ?_⟩, ?_, ?_, ?_, ?_⟩ <;> decide

/-- C28, amended: take a task whose title and description have no surrounding
white space, the title not empty, whose tags are each non-empty, free of white
space and begin with `#`, whose priority is in 0..5, whose title, description
and tags joined by spaces each fit the 200 characters of their field and hold
no control character, and whose due date, if any, is in the years 0 to 9999;
and take text inputs that keep a text without control characters that fits
their limit.  Loading the task into the form (`SetTodo`) and saving without
an edit (`updateTodo`) passes validation, dispatches the update and leaves
title, description, the sequence of tags and priority as they were, the due
date absent if it was absent and at 23:59:59 of the same calendar day if it
was present, every other field of the task and every other task untouched. -/
theorem C28_edit_round_trip (tiSetValue : TextInput → String → TextInput) (v : InputView)
    (heap : Heap) (p : Ptr) (now : Time) (hp : p < heap.length)
    (hlimits : v.inputs.map (fun ti => ti.CharLimit) = [200, 200, 200, 200, 1])
    (hset : ∀ (ti : TextInput) (s : String), s.length ≤ ti.CharLimit →
      (∀ c ∈ s.toList, isControl c = false) → (tiSetValue ti s).value = s)
    (htitle : TrimSpace (readTodo heap p).Title = (readTodo heap p).Title)
    (hne : (readTodo heap p).Title ≠ "")
    (hdesc : TrimSpace (readTodo heap p).Description = (readTodo heap p).Description)
    (htags : ∀ tag ∈ sliceElems (readTodo heap p).Tags,
      tag ≠ "" ∧ (∀ c ∈ tag.toList, isSpace c = false) ∧ hasHashPrefix tag = true)
    (hprio : 0 ≤ (readTodo heap p).Priority ∧ (readTodo heap p).Priority ≤ 5)
    (hfit : (readTodo heap p).Title.length ≤ 200 ∧ (readTodo heap p).Description.length ≤ 200 ∧
      (joinSpace (sliceElems (readTodo heap p).Tags)).length ≤ 200)
    (hctl : ∀ c, c ∈ (readTodo heap p).Title.toList ∨ c ∈ (readTodo heap p).Description.toList ∨
      c ∈ (joinSpace (sliceElems (readTodo heap p).Tags)).toList → isControl c = false)
    (hyear : ∀ d, (readTodo heap p).DueDate = some d →
      0 ≤ (civilOfDay d.day).1 ∧ (civilOfDay d.day).1 ≤ 9999) :
    ((v.SetTodo tiSetValue heap p).updateTodo heap now).2.2 = [.updateTodo p] ∧
    ((v.SetTodo tiSetValue heap p).updateTodo heap now).1.err = "" ∧
    (readTodo ((v.SetTodo tiSetValue heap p).updateTodo heap now).2.1 p).Title
      = (readTodo heap p).Title ∧
    (readTodo ((v.SetTodo tiSetValue heap p).updateTodo heap now).2.1 p).Description
      = (readTodo heap p).Description ∧
    sliceElems (readTodo ((v.SetTodo tiSetValue heap p).updateTodo heap now).2.1 p).Tags
      = sliceElems (readTodo heap p).Tags ∧
    (readTodo ((v.SetTodo tiSetValue heap p).updateTodo heap now).2.1 p).Priority
      = (readTodo heap p).Priority ∧
    (readTodo ((v.SetTodo tiSetValue heap p).updateTodo heap now).2.1 p).DueDate
      = (readTodo heap p).DueDate.map (fun d => { day := d.day, nsec := 86399 * 1000000000 }) ∧
    readTodo ((v.SetTodo tiSetValue heap p).updateTodo heap now).2.1 p =
      { readTodo heap p with
        Tags := ParseTags (joinSpace (sliceElems (readTodo heap p).Tags))
        DueDate := (readTodo heap p).DueDate.map
          (fun d => { day := d.day, nsec := 86399 * 1000000000 }) } ∧
    (∀ q, q ≠ p →
      readTodo ((v.SetTodo tiSetValue heap p).updateTodo heap now).2.1 q = readTodo heap q) := by
  obtain ⟨i0, i1, i2, i3, i4, hin⟩ : ∃ i0 i1 i2 i3 i4, v.inputs = [i0, i1, i2, i3, i4] := by
    have hlen : v.inputs.length = 5 := by
      have := congrArg List.length hlimits
      simpa using this
    match hv : v.inputs, hlen with
    | [a, b, c, d, e], _ => exact ⟨a, b, c, d, e, rfl⟩
  have hl : i0.CharLimit = 200 ∧ i1.CharLimit = 200 ∧ i2.CharLimit = 200 ∧ i3.CharLimit = 200
      ∧ i4.CharLimit = 1 := by
    simpa [hin] using hlimits
  obtain ⟨hl0, hl1, hl2, hl3, hl4⟩ := hl
  obtain ⟨hv1, hv2, hv3, hv4, hv5, hv6, hv7⟩ := SetTodo_values tiSetValue v heap p i0 i1 i2 i3 i4 hin
  rw [hset i0 _ (by rw [hl0]; exact hfit.1) (fun c hc => hctl c (Or.inl hc))] at hv3
  rw [hset i1 _ (by rw [hl1]; exact hfit.2.1) (fun c hc => hctl c (Or.inr (Or.inl hc)))] at hv4
  rw [hset i2 _ (by rw [hl2]; exact hfit.2.2) (fun c hc => hctl c (Or.inr (Or.inr hc)))] at hv5
  have hdue : (if TrimSpace ((v.SetTodo tiSetValue heap p).Value inputDueDate) ≠ "" then
      ParseDueDate (TrimSpace ((v.SetTodo tiSetValue heap p).Value inputDueDate)) now
      else .ok none)
      = .ok ((readTodo heap p).DueDate.map
          (fun d => { day := d.day, nsec := 86399 * 1000000000 })) := by
    rw [hv6]
    cases hd : (readTodo heap p).DueDate with
    | none =>
      have he : TrimSpace "" = "" := by decide
      simp [he]
    | some d =>
      obtain ⟨hy0, hy1⟩ := hyear d hd
      obtain ⟨hne', hparse, hlen, hnoctl⟩ := ParseDueDate_formatDate d now hy0 hy1
      simp only [hset i3 _ (by rw [hl3, hlen]; decide) hnoctl, hne', ne_eq, not_false_eq_true,
        if_true, hparse, Option.map_some']
  have hpri : (TrimSpace ((v.SetTodo tiSetValue heap p).Value inputPriority) = ""
        ∧ (readTodo heap p).Priority = 0) ∨
      (TrimSpace ((v.SetTodo tiSetValue heap p).Value inputPriority) ≠ "" ∧
        priorityOfByte (TrimSpace ((v.SetTodo tiSetValue heap p).Value inputPriority))
          = (readTodo heap p).Priority ∧
        1 ≤ (readTodo heap p).Priority ∧ (readTodo heap p).Priority ≤ 5) := by
    rw [hv7]
    by_cases hpos : (readTodo heap p).Priority > 0
    · obtain ⟨hp1, hp2, hp3, hp4⟩ := priorityText_facts (readTodo heap p).Priority (by omega) hprio.2
      rw [if_pos hpos, hset i4 _ (by rw [hl4]; exact hp3) hp4]
      exact Or.inr ⟨hp1, hp2, by omega, hprio.2⟩
    · rw [if_neg hpos]
      exact Or.inl ⟨by decide, by omega⟩
  obtain ⟨hr1, hr2, hr3, hr4⟩ := updateTodo_values (v.SetTodo tiSetValue heap p) heap now p
    (readTodo heap p).Title (readTodo heap p).Description
    (ParseTags (joinSpace (sliceElems (readTodo heap p).Tags)))
    ((readTodo heap p).DueDate.map (fun d => { day := d.day, nsec := 86399 * 1000000000 }))
    (readTodo heap p).Priority hv1 hp (by rw [hv3]; exact htitle) hne
    (by rw [hv4]; exact hdesc) (by rw [hv5]) hdue hpri
  refine ⟨hr2, by rw [hr1]; exact hv2, by rw [hr3], by rw [hr3], ?_, by rw [hr3], by rw [hr3],
    hr3, hr4⟩
  rw [hr3]
  exact ParseTags_joinSpace _ htags

/-- The task `Buy milk`, with two tags, the priority 3 and a due date at noon,
loaded into a new form and saved unedited, is updated with the same title,
tags and priority and with the due date at 23:59:59 of the same day. -/
theorem C28_edit_round_trip_witness :
    ((NewInputView.SetTodo sampleHost.tiSetValue [fullTodo] 0).updateTodo [fullTodo]
        sampleNow).2.2 = [.updateTodo 0] ∧
    (readTodo ((NewInputView.SetTodo sampleHost.tiSetValue [fullTodo] 0).updateTodo [fullTodo]
        sampleNow).2.1 0).DueDate
      = (readTodo [fullTodo] 0).DueDate.map
          (fun d => { day := d.day, nsec := 86399 * 1000000000 }) ∧
    (readTodo [fullTodo] 0).DueDate = some { day := 20498, nsec := 43200000000000 } ∧
    (readTodo ((NewInputView.SetTodo sampleHost.tiSetValue [fullTodo] 0).updateTodo [fullTodo]
        sampleNow).2.1 0).Title = "Buy milk" ∧
    sliceElems (readTodo ((NewInputView.SetTodo sampleHost.tiSetValue [fullTodo] 0).updateTodo
        [fullTodo] sampleNow).2.1 0).Tags = ["#home", "#shop"] :=
  have h := C28_edit_round_trip sampleHost.tiSetValue NewInputView [fullTodo] 0 sampleNow
    (by decide) (by decide) (fun _ _ _ _ => rfl) (by decide) (by decide) (by decide)
    (by decide) (by decide) (by decide)
    (fun c hc => by
      rcases hc with hc | hc | hc
      · exact (by decide : ∀ c ∈ (readTodo [fullTodo] 0).Title.toList, isControl c = false) c hc
      · exact (by decide : ∀ c ∈ (readTodo [fullTodo] 0).Description.toList,
          isControl c = false) c hc
      · exact (by decide : ∀ c ∈ (joinSpace (sliceElems (readTodo [fullTodo] 0).Tags)).toList,
          isControl c = false) c hc)
    (fun d hd => by
      have hd' : d = { day := 20498, nsec := 43200000000000 } := (Option.some.inj hd).symm
      subst hd'
      decide)
  ⟨h.1, h.2.2.2.2.2.2.1, rfl, h.2.2.1, h.2.2.2.2.1⟩

end TodoCli
